import Mathlib

/-!
FindInvalidDataProcess

A shallow embedding of `code/FindInvalidDataProcess.cpp` (Open Asset Import
Library): the post-processing step that searches an imported scene for data
that is obviously invalid, removes it, and repairs the mesh references of the
node graph.

Conventions of the embedding.

* A C++ function that mutates its argument returns the new value of the
  argument next to its C++ return value.
* An array that comes with a count of its own (`mNumMeshes`/`mMeshes`,
  `mNumIndices`/`mIndices`, the key arrays, ...) is the list of its `count`
  elements.  The per-vertex arrays of a mesh share the single count
  `mNumVertices`, and the texture coordinate table has the fixed size
  `AI_MAX_NUMBER_OF_TEXTURECOORDS`; both are kept apart from the lists.
* A null pointer is `none`.
* Every indexed access goes through `rd` or `wr`; an access outside the array
  (undefined behaviour in C++) ends the execution with `Fault.outOfRange`.
* `for (i = 0; i < n; ++i)` is a recursive function whose first numeric
  argument is the number of iterations that remain and whose second is `i`.
* A loop that only reads an array in order (the faces of a mesh, the children
  of a node) is a recursion over the list.
* Counters and counts are natural numbers; the one place where `unsigned int`
  arithmetic wraps, the bound `num-1` in `AllIdentical`, is computed modulo 2^32.
* Log output is not modelled.
-/

namespace FindInvalidData

/-! ## Execution model -/

/-- Abnormal ends of an execution. -/
inductive Fault where
  /-- an array was indexed outside its bounds -/
  | outOfRange
  /-- the exception thrown by `Execute` -/
  | ImportErrorException (what : String)
  deriving DecidableEq, Repr

/-- Checked read `xs[i]`. -/
def rd {α : Type} (xs : List α) (i : Nat) : Except Fault α :=
  match xs[i]? with
  | some x => .ok x
  | none => .error .outOfRange

/-- Checked write `xs[i] = v`. -/
def wr {α : Type} (xs : List α) (i : Nat) (v : α) : Except Fault (List α) :=
  if i < xs.length then .ok (xs.set i v) else .error .outOfRange

/-! ## Types declared in headers -/

/-- Modelled from the spec: the floating point component type, whose
declaration and comparison semantics are not part of the sources.  A value is
finite (sign and magnitude, so that there are two zeros), infinite, or NaN. -/
inductive float where
  | finite (negative : Bool) (magnitude : Nat)
  | infinite (negative : Bool)
  | nan
  deriving DecidableEq, Repr

/-- Modelled from the spec: the built-in comparison `a != b` of two floating
point values.  NaN differs from everything, itself included; the two zeros
do not differ. -/
def float.ne : float → float → Bool
  | .finite s m, .finite t n => !((m == 0 && n == 0) || (s == t && m == n))
  | .infinite s, .infinite t => s != t
  | _, _ => true

/-- Modelled from the spec: `is_special_float` (declared in a header that is
not part of the sources) holds of the non-finite values, NaN and the
infinities. -/
def is_special_float : float → Bool
  | .finite _ _ => false
  | _ => true

/-- The vector type `aiVector3D`. -/
structure aiVector3D where
  x : float
  y : float
  z : float
  deriving DecidableEq, Repr

/-- Modelled from the spec: `operator!=` of `aiVector3D` (declared in a
header that is not part of the sources), the component-wise comparison. -/
def aiVector3D.ne (v o : aiVector3D) : Bool :=
  v.x.ne o.x || v.y.ne o.y || v.z.ne o.z

/-- The quaternion type `aiQuaternion`. -/
structure aiQuaternion where
  w : float
  x : float
  y : float
  z : float
  deriving DecidableEq, Repr

/-- Modelled from the spec: `operator!=` of `aiQuaternion`, component-wise. -/
def aiQuaternion.ne (q o : aiQuaternion) : Bool :=
  q.w.ne o.w || q.x.ne o.x || q.y.ne o.y || q.z.ne o.z

/-- A position or scaling key `aiVectorKey`. -/
structure aiVectorKey where
  mTime : float
  mValue : aiVector3D
  deriving DecidableEq, Repr

/-- Modelled from the spec: `operator!=` of `aiVectorKey`; only the value
carried by the key is compared, not its time. -/
def aiVectorKey.ne (k o : aiVectorKey) : Bool :=
  k.mValue.ne o.mValue

/-- A rotation key `aiQuatKey`. -/
structure aiQuatKey where
  mTime : float
  mValue : aiQuaternion
  deriving DecidableEq, Repr

/-- Modelled from the spec: `operator!=` of `aiQuatKey`; only the value
carried by the key is compared, not its time. -/
def aiQuatKey.ne (k o : aiQuatKey) : Bool :=
  k.mValue.ne o.mValue

/-- The animation channel `aiNodeAnim`: three key arrays, each with its
own count. -/
structure aiNodeAnim where
  mPositionKeys : List aiVectorKey
  mRotationKeys : List aiQuatKey
  mScalingKeys : List aiVectorKey
  deriving DecidableEq, Repr

/-- The count `mNumPositionKeys`. -/
abbrev aiNodeAnim.mNumPositionKeys (anim : aiNodeAnim) : Nat := anim.mPositionKeys.length

/-- The count `mNumRotationKeys`. -/
abbrev aiNodeAnim.mNumRotationKeys (anim : aiNodeAnim) : Nat := anim.mRotationKeys.length

/-- The count `mNumScalingKeys`. -/
abbrev aiNodeAnim.mNumScalingKeys (anim : aiNodeAnim) : Nat := anim.mScalingKeys.length

/-- The animation `aiAnimation`: `mChannels` with the count `mNumChannels`. -/
structure aiAnimation where
  mChannels : List aiNodeAnim
  deriving DecidableEq, Repr

/-- The face `aiFace`: `mIndices` with the count `mNumIndices`. -/
structure aiFace where
  mIndices : List Nat
  deriving DecidableEq, Repr

/-- The count `mNumIndices`. -/
abbrev aiFace.mNumIndices (f : aiFace) : Nat := f.mIndices.length

/-- The mesh `aiMesh`, with the members the step reads or writes.  Each
per-vertex array is a nullable pointer to `mNumVertices` vectors. -/
structure aiMesh where
  mPrimitiveTypes : Nat
  mNumVertices : Nat
  mVertices : Option (List aiVector3D)
  mNormals : Option (List aiVector3D)
  mTangents : Option (List aiVector3D)
  mBitangents : Option (List aiVector3D)
  mTextureCoords : List (Option (List aiVector3D))
  mFaces : List aiFace
  deriving DecidableEq, Repr

/-- The node `aiNode`: the mesh references `mMeshes` (count `mNumMeshes`)
and the children `mChildren` (count `mNumChildren`). -/
inductive aiNode where
  | mk (mMeshes : List Nat) (mChildren : List aiNode)
  deriving Repr

mutual
/-- Equality of nodes is decidable. -/
def aiNode.decEq : (a b : aiNode) → Decidable (a = b)
  | .mk ms cs, .mk ms' cs' =>
    if h : ms = ms' then
      match aiNode.decEqList cs cs' with
      | isTrue h2 => isTrue (by rw [h, h2])
      | isFalse h2 => isFalse (by intro e; cases e; exact h2 rfl)
    else isFalse (by intro e; cases e; exact h rfl)
/-- Equality of lists of nodes is decidable. -/
def aiNode.decEqList : (as bs : List aiNode) → Decidable (as = bs)
  | [], [] => isTrue rfl
  | [], _ :: _ => isFalse (by intro e; cases e)
  | _ :: _, [] => isFalse (by intro e; cases e)
  | a :: as, b :: bs =>
    match aiNode.decEq a b with
    | isTrue h1 =>
      match aiNode.decEqList as bs with
      | isTrue h2 => isTrue (by rw [h1, h2])
      | isFalse h2 => isFalse (by intro e; cases e; exact h2 rfl)
    | isFalse h1 => isFalse (by intro e; cases e; exact h1 rfl)
end

instance : DecidableEq aiNode := aiNode.decEq

/-- The mesh references of a node. -/
def aiNode.mMeshes : aiNode → List Nat
  | .mk ms _ => ms

/-- The children of a node. -/
def aiNode.mChildren : aiNode → List aiNode
  | .mk _ cs => cs

/-- The scene `aiScene`: meshes, animations and the root of the node graph. -/
structure aiScene where
  mMeshes : List aiMesh
  mAnimations : List aiAnimation
  mRootNode : aiNode
  deriving DecidableEq

/-- The count `mNumMeshes`. -/
abbrev aiScene.mNumMeshes (s : aiScene) : Nat := s.mMeshes.length

/-- The count `mNumAnimations`. -/
abbrev aiScene.mNumAnimations (s : aiScene) : Nat := s.mAnimations.length

/-- Compile-time constants that the step takes from headers which are not
part of the sources: the size of the texture coordinate table of a mesh and
the four flags of the primitive type bitset. -/
structure Constants where
  AI_MAX_NUMBER_OF_TEXTURECOORDS : Nat
  aiPrimitiveType_POINT : Nat
  aiPrimitiveType_LINE : Nat
  aiPrimitiveType_TRIANGLE : Nat
  aiPrimitiveType_POLYGON : Nat

/-! ## UpdateMeshReferences (lines 78-102) -/

/-- The loop of lines 83-90 over the references of one node: `a` is the
loop counter, `out` the number of references kept so far; the kept
references are written over the front of the same array. -/
def UpdateMeshReferences.refs (meshMapping : List Nat) :
    Nat → Nat → List Nat → Nat → Except Fault (List Nat × Nat)
  | 0, _, mMeshes, out => .ok (mMeshes, out)
  | k + 1, a, mMeshes, out => do
    let ref ← rd mMeshes a
    let ref ← rd meshMapping ref
    if 0xffffffff != ref then
      let mMeshes ← wr mMeshes out ref
      UpdateMeshReferences.refs meshMapping k (a + 1) mMeshes (out + 1)
    else
      UpdateMeshReferences.refs meshMapping k (a + 1) mMeshes out

/-- Lines 80-98: the new reference array of a node.  With `mNumMeshes = out`
the members behind `out` are no longer part of the array; with `out = 0` the
array is freed. -/
def UpdateMeshReferences.node (meshMapping : List Nat) (mMeshes : List Nat) :
    Except Fault (List Nat) :=
  if mMeshes.length != 0 then do
    let r ← UpdateMeshReferences.refs meshMapping mMeshes.length 0 mMeshes 0
    if r.2 == 0 then .ok [] else .ok (r.1.take r.2)
  else .ok mMeshes

mutual
/-- The function `UpdateMeshReferences`: update the mesh references in the node graph. -/
def UpdateMeshReferences (meshMapping : List Nat) : aiNode → Except Fault aiNode
  | .mk mMeshes mChildren => do
    let mMeshes ← UpdateMeshReferences.node meshMapping mMeshes
    let mChildren ← UpdateMeshReferences.children meshMapping mChildren
    .ok (.mk mMeshes mChildren)
/-- The loop of lines 100-101 over the children of a node. -/
def UpdateMeshReferences.children (meshMapping : List Nat) :
    List aiNode → Except Fault (List aiNode)
  | [] => .ok []
  | c :: cs => do
    let c ← UpdateMeshReferences meshMapping c
    let cs ← UpdateMeshReferences.children meshMapping cs
    .ok (c :: cs)
end

/-! ## ValidateArrayContents and ProcessArray (lines 188-224) -/

/-- The loop of lines 193-203: `i` is the loop counter and `b` records
whether an element that differs from its predecessor was seen. -/
def ValidateArrayContents.loop (arr : List aiVector3D) (dirtyMask : List Bool) :
    Nat → Nat → Bool → Except Fault (Option String)
  | 0, _, b => if !b then .ok (some "All vectors are identical") else .ok none
  | k + 1, i, b => do
    let dirty ← if dirtyMask.length != 0 then rd dirtyMask i else .ok false
    if dirty then
      ValidateArrayContents.loop arr dirtyMask k (i + 1) b
    else
      let v ← rd arr i
      if is_special_float v.x || is_special_float v.y || is_special_float v.z then
        .ok (some "INF/NAN was found in a vector component")
      else if i != 0 then
        let p ← rd arr (i - 1)
        ValidateArrayContents.loop arr dirtyMask k (i + 1) (if v.ne p then true else b)
      else
        ValidateArrayContents.loop arr dirtyMask k (i + 1) b

/-- The specialisation `ValidateArrayContents<aiVector3D>`: `none` is the
null pointer (no error), `some` an error message. -/
def ValidateArrayContents (arr : List aiVector3D) (size : Nat) (dirtyMask : List Bool) :
    Except Fault (Option String) :=
  ValidateArrayContents.loop arr dirtyMask size 0 false

/-- The function `ProcessArray`: the new value of the pointer passed by
reference and the returned flag (`true` when the array was deleted). -/
def ProcessArray (arr : List aiVector3D) (num : Nat) (dirtyMask : List Bool) :
    Except Fault (Option (List aiVector3D) × Bool) := do
  let err ← ValidateArrayContents arr num dirtyMask
  if err.isSome then .ok (none, true) else .ok (some arr, false)

/-! ## AllIdentical, ProcessAnimationChannel, ProcessAnimation (lines 227-289) -/

/-- The loop of lines 231-234. -/
def AllIdentical.loop {T : Type} (ne : T → T → Bool) (arr : List T) :
    Nat → Nat → Except Fault Bool
  | 0, _ => .ok true
  | k + 1, i => do
    let x ← rd arr i
    let y ← rd arr (i + 1)
    if ne x y then .ok false else AllIdentical.loop ne arr k (i + 1)

/-- The template `AllIdentical`, with `operator!=` of the element type as a
parameter.  The bound `num-1` of the loop is computed in `unsigned int`. -/
def AllIdentical {T : Type} (ne : T → T → Bool) (arr : List T) (num : Nat) :
    Except Fault Bool :=
  if num == 0 then .ok true
  else AllIdentical.loop ne arr ((num + 4294967296 - 1) % 4294967296) 0

/-- The function `ProcessAnimationChannel`; the three conjuncts of lines
281-283 are evaluated left to right, with short circuit. -/
def ProcessAnimationChannel (anim : aiNodeAnim) : Except Fault Int := do
  let c1 ←
    if anim.mNumPositionKeys < 1 then .ok true
    else AllIdentical aiVectorKey.ne anim.mPositionKeys anim.mNumPositionKeys
  if c1 then
    let c2 ←
      if anim.mNumScalingKeys < 1 then .ok true
      else AllIdentical aiQuatKey.ne anim.mRotationKeys anim.mNumRotationKeys
    if c2 then
      let c3 ←
        if anim.mNumRotationKeys < 1 then .ok true
        else AllIdentical aiVectorKey.ne anim.mScalingKeys anim.mNumScalingKeys
      if c3 then .ok 1 else .ok 0
    else .ok 0
  else .ok 0

/-- The loop of lines 246-258 over the channels of an animation; the result
is the channel array, `real` and `out`. -/
def ProcessAnimation.channels :
    Nat → Nat → List aiNodeAnim → Nat → Bool → Except Fault (List aiNodeAnim × Nat × Bool)
  | 0, _, mChannels, real, out => .ok (mChannels, real, out)
  | k + 1, a, mChannels, real, out => do
    let c ← rd mChannels a
    let result ← ProcessAnimationChannel c
    if result != 0 then
      ProcessAnimation.channels k (a + 1) mChannels real true
    else
      let c ← rd mChannels a
      let mChannels ← wr mChannels real c
      ProcessAnimation.channels k (a + 1) mChannels (real + 1) out

/-- The function `ProcessAnimation`: the return value and the animation
after the call. -/
def ProcessAnimation (anim : aiAnimation) : Except Fault (Int × aiAnimation) := do
  let r ← ProcessAnimation.channels anim.mChannels.length 0 anim.mChannels 0 false
  if r.2.2 then
    if r.2.1 == 0 then .ok (2, { mChannels := r.1.take r.2.1 })
    else .ok (1, { mChannels := r.1.take r.2.1 })
  else .ok (0, { mChannels := r.1 })

/-! ## ProcessMesh (lines 293-371) -/

/-- The loop of lines 312-315: delete the texture coordinate sets from
index `a` on. -/
def ProcessMesh.subsequent :
    Nat → Nat → List (Option (List aiVector3D)) → Except Fault (List (Option (List aiVector3D)))
  | 0, _, mTextureCoords => .ok mTextureCoords
  | k + 1, a, mTextureCoords => do
    let mTextureCoords ← wr mTextureCoords a none
    ProcessMesh.subsequent k (a + 1) mTextureCoords

/-- The loop of lines 306-318 over the texture coordinate sets; the result
is the table of sets and `ret`. -/
def ProcessMesh.texcoords (K : Constants) (mNumVertices : Nat) :
    Nat → Nat → List (Option (List aiVector3D)) → Bool →
      Except Fault (List (Option (List aiVector3D)) × Bool)
  | 0, _, mTextureCoords, ret => .ok (mTextureCoords, ret)
  | k + 1, i, mTextureCoords, ret => do
    let p ← rd mTextureCoords i
    match p with
    | none => .ok (mTextureCoords, ret)
    | some arr =>
      let r ← ProcessArray arr mNumVertices []
      if r.2 then
        let mTextureCoords ← wr mTextureCoords i r.1
        let mTextureCoords ←
          ProcessMesh.subsequent (K.AI_MAX_NUMBER_OF_TEXTURECOORDS - (i + 1)) (i + 1) mTextureCoords
        ProcessMesh.texcoords K mNumVertices k (i + 1) mTextureCoords true
      else
        ProcessMesh.texcoords K mNumVertices k (i + 1) mTextureCoords ret

/-- The call `dirtyMask.resize(n, x)` of `std::vector<bool>`. -/
def resize (dirtyMask : List Bool) (n : Nat) (x : Bool) : List Bool :=
  dirtyMask.take n ++ List.replicate (n - dirtyMask.length) x

/-- The loop of lines 336-344 over the faces, which marks the vertices of
line and point faces in the lookup table. -/
def ProcessMesh.faces : List aiFace → List Bool → Except Fault (List Bool)
  | [], dirtyMask => .ok dirtyMask
  | f :: fs, dirtyMask =>
    if 2 == f.mNumIndices then do
      let i0 ← rd f.mIndices 0
      let i1 ← rd f.mIndices 1
      let dirtyMask ← wr dirtyMask i1 true
      let dirtyMask ← wr dirtyMask i0 true
      ProcessMesh.faces fs dirtyMask
    else if 1 == f.mNumIndices then do
      let i0 ← rd f.mIndices 0
      let dirtyMask ← wr dirtyMask i0 true
      ProcessMesh.faces fs dirtyMask
    else ProcessMesh.faces fs dirtyMask

/-- Lines 328-347: the lookup table for normals and tangents; `none` stands
for the `return ret` of line 346. -/
def ProcessMesh.lookup (K : Constants) (pMesh : aiMesh) : Except Fault (Option (List Bool)) :=
  if (K.aiPrimitiveType_POINT &&& pMesh.mPrimitiveTypes) != 0 ||
      (K.aiPrimitiveType_LINE &&& pMesh.mPrimitiveTypes) != 0 then
    if (K.aiPrimitiveType_TRIANGLE &&& pMesh.mPrimitiveTypes) != 0 ||
        (K.aiPrimitiveType_POLYGON &&& pMesh.mPrimitiveTypes) != 0 then do
      let dirtyMask ← ProcessMesh.faces pMesh.mFaces (resize [] pMesh.mNumVertices false)
      .ok (some dirtyMask)
    else .ok none
  else .ok (some [])

/-- Lines 350-352: process mesh normals. -/
def ProcessMesh.normals (dirtyMask : List Bool) (pMesh : aiMesh) (ret : Bool) :
    Except Fault (aiMesh × Bool) :=
  match pMesh.mNormals with
  | none => .ok (pMesh, ret)
  | some arr => do
    let r ← ProcessArray arr pMesh.mNumVertices dirtyMask
    if r.2 then .ok ({ pMesh with mNormals := r.1 }, true) else .ok (pMesh, ret)

/-- Lines 355-360: process mesh tangents. -/
def ProcessMesh.tangents (dirtyMask : List Bool) (pMesh : aiMesh) (ret : Bool) :
    Except Fault (aiMesh × Bool) :=
  match pMesh.mTangents with
  | none => .ok (pMesh, ret)
  | some arr => do
    let r ← ProcessArray arr pMesh.mNumVertices dirtyMask
    if r.2 then .ok ({ pMesh with mTangents := r.1, mBitangents := none }, true)
    else .ok (pMesh, ret)

/-- Lines 363-368: process mesh bitangents. -/
def ProcessMesh.bitangents (dirtyMask : List Bool) (pMesh : aiMesh) (ret : Bool) :
    Except Fault (aiMesh × Bool) :=
  match pMesh.mBitangents with
  | none => .ok (pMesh, ret)
  | some arr => do
    let r ← ProcessArray arr pMesh.mNumVertices dirtyMask
    if r.2 then .ok ({ pMesh with mBitangents := r.1, mTangents := none }, true)
    else .ok (pMesh, ret)

/-- Lines 326-370: normals, tangents and bitangents, and the return value. -/
def ProcessMesh.attributes (K : Constants) (pMesh : aiMesh) (ret : Bool) :
    Except Fault (Int × aiMesh) :=
  if pMesh.mNormals.isSome || pMesh.mTangents.isSome then do
    let t ← ProcessMesh.lookup K pMesh
    match t with
    | none => .ok (if ret then 1 else 0, pMesh)
    | some dirtyMask =>
      let r ← ProcessMesh.normals dirtyMask pMesh ret
      let r ← ProcessMesh.tangents dirtyMask r.1 r.2
      let r ← ProcessMesh.bitangents dirtyMask r.1 r.2
      .ok (if r.2 then 1 else 0, r.1)
  else .ok (if ret then 1 else 0, pMesh)

/-- The function `ProcessMesh`: the return value and the mesh after the call. -/
def ProcessMesh (K : Constants) (pMesh : aiMesh) : Except Fault (Int × aiMesh) :=
  match pMesh.mVertices with
  | none => do
    let t ← ProcessMesh.texcoords K pMesh.mNumVertices K.AI_MAX_NUMBER_OF_TEXTURECOORDS 0
      pMesh.mTextureCoords false
    ProcessMesh.attributes K { pMesh with mTextureCoords := t.1 } t.2
  | some arr => do
    let r ← ProcessArray arr pMesh.mNumVertices []
    if r.2 then .ok (2, { pMesh with mVertices := r.1 })
    else
      let t ← ProcessMesh.texcoords K pMesh.mNumVertices K.AI_MAX_NUMBER_OF_TEXTURECOORDS 0
        pMesh.mTextureCoords false
      ProcessMesh.attributes K { pMesh with mTextureCoords := t.1 } t.2

/-! ## Execute (lines 106-177) -/

/-- The loop of lines 115-133 over the meshes; the result is the mesh array,
`meshMapping`, `real` and `out`.  The mesh behind `mMeshes[a]` is modified in
place by `ProcessMesh`. -/
def Execute.meshes (K : Constants) :
    Nat → Nat → List aiMesh → List Nat → Nat → Bool →
      Except Fault (List aiMesh × List Nat × Nat × Bool)
  | 0, _, mMeshes, meshMapping, real, out => .ok (mMeshes, meshMapping, real, out)
  | k + 1, a, mMeshes, meshMapping, real, out => do
    let m ← rd mMeshes a
    let r ← ProcessMesh K m
    let mMeshes ← wr mMeshes a r.2
    if r.1 != 0 && 2 == r.1 then
      let meshMapping ← wr meshMapping a 0xffffffff
      Execute.meshes K k (a + 1) mMeshes meshMapping real true
    else
      let m ← rd mMeshes a
      let mMeshes ← wr mMeshes real m
      let meshMapping ← wr meshMapping a real
      Execute.meshes K k (a + 1) mMeshes meshMapping (real + 1) (if r.1 != 0 then true else out)

/-- The loop of lines 136-152 over the animations; the result is the
animation array, `realAnimations` and `out`. -/
def Execute.animations :
    Nat → Nat → List aiAnimation → Nat → Bool → Except Fault (List aiAnimation × Nat × Bool)
  | 0, _, mAnimations, realAnimations, out => .ok (mAnimations, realAnimations, out)
  | k + 1, a, mAnimations, realAnimations, out => do
    let x ← rd mAnimations a
    let r ← ProcessAnimation x
    let mAnimations ← wr mAnimations a r.2
    if r.1 != 0 && 2 == r.1 then
      Execute.animations k (a + 1) mAnimations realAnimations true
    else
      let x ← rd mAnimations a
      let mAnimations ← wr mAnimations realAnimations x
      Execute.animations k (a + 1) mAnimations (realAnimations + 1)
        (if r.1 != 0 then true else out)

/-- The function `Execute`: the scene after the step, or the exception. -/
def Execute (K : Constants) (pScene : aiScene) : Except Fault aiScene := do
  let meshMapping := List.replicate pScene.mNumMeshes 0
  let m ← Execute.meshes K pScene.mNumMeshes 0 pScene.mMeshes meshMapping 0 false
  let n ← Execute.animations pScene.mNumAnimations 0 pScene.mAnimations 0 m.2.2.2
  if n.2.2 then
    let mAnimations := if n.2.1 == 0 then [] else n.1.take n.2.1
    if m.2.2.1 != pScene.mNumMeshes then
      if m.2.2.1 == 0 then .error (.ImportErrorException "No meshes remaining")
      else
        let mRootNode ← UpdateMeshReferences m.2.1 pScene.mRootNode
        .ok { mMeshes := m.1.take m.2.2.1, mAnimations := mAnimations, mRootNode := mRootNode }
    else .ok { mMeshes := m.1, mAnimations := mAnimations, mRootNode := pScene.mRootNode }
  else .ok { mMeshes := m.1, mAnimations := n.1, mRootNode := pScene.mRootNode }

/-- Flag values of Assimp for the constants (`aiMesh.h`). -/
def assimpConstants : Constants :=
  { AI_MAX_NUMBER_OF_TEXTURECOORDS := 4
    aiPrimitiveType_POINT := 1
    aiPrimitiveType_LINE := 2
    aiPrimitiveType_TRIANGLE := 4
    aiPrimitiveType_POLYGON := 8 }

/-! ## Specification vocabulary -/

deriving instance DecidableEq for Except

/-- The reference list the claims describe: every reference is mapped
through `meshMapping`, then the references that were mapped to the sentinel
`0xffffffff` are dropped. -/
def remap (meshMapping : List Nat) (refs : List Nat) : List Nat :=
  (refs.filterMap fun r => meshMapping[r]?).filter fun v => v != 0xffffffff

mutual
/-- The tree of the same shape in which the reference list of every node is
replaced by its image under `g`. -/
def aiNode.mapMeshes (g : List Nat → List Nat) : aiNode → aiNode
  | .mk mMeshes mChildren => .mk (g mMeshes) (aiNode.mapMeshesList g mChildren)
/-- The function `aiNode.mapMeshes` on a list of children, in order. -/
def aiNode.mapMeshesList (g : List Nat → List Nat) : List aiNode → List aiNode
  | [] => []
  | c :: cs => aiNode.mapMeshes g c :: aiNode.mapMeshesList g cs
end

mutual
/-- Every mesh reference in the tree is below `n`. -/
def aiNode.refsBelow (n : Nat) : aiNode → Bool
  | .mk mMeshes mChildren => mMeshes.all (fun r => decide (r < n)) && aiNode.refsBelowList n mChildren
/-- The function `aiNode.refsBelow` on a list of children. -/
def aiNode.refsBelowList (n : Nat) : List aiNode → Bool
  | [] => true
  | c :: cs => aiNode.refsBelow n c && aiNode.refsBelowList n cs
end

/-- Some component of the vector is not finite (NaN or infinite). -/
def aiVector3D.hasNonFinite (v : aiVector3D) : Bool :=
  is_special_float v.x || is_special_float v.y || is_special_float v.z

/-- The test of line 195: vertex `i` is exempted by the lookup table. -/
def exempt (dirtyMask : List Bool) (i : Nat) : Bool :=
  dirtyMask.length != 0 && dirtyMask.getD i false

/-- Vertex `i` is one of the indices of a face with exactly 2 or exactly 1
indices (a line or a point). -/
def marked (mFaces : List aiFace) (i : Nat) : Bool :=
  mFaces.any fun f => (f.mNumIndices == 2 || f.mNumIndices == 1) && f.mIndices.contains i

/-- The primitive type bitset of the mesh contains POINT or LINE. -/
def aiMesh.hasPointOrLine (K : Constants) (m : aiMesh) : Bool :=
  (K.aiPrimitiveType_POINT &&& m.mPrimitiveTypes) != 0 ||
    (K.aiPrimitiveType_LINE &&& m.mPrimitiveTypes) != 0

/-- The primitive type bitset of the mesh contains TRIANGLE or POLYGON. -/
def aiMesh.hasTriangleOrPolygon (K : Constants) (m : aiMesh) : Bool :=
  (K.aiPrimitiveType_TRIANGLE &&& m.mPrimitiveTypes) != 0 ||
    (K.aiPrimitiveType_POLYGON &&& m.mPrimitiveTypes) != 0

/-- Vertex `i` is exempted from the validation of normals and tangents: the
mesh has point or line primitives and the vertex belongs to a point or line
face. -/
def aiMesh.exemptVertex (K : Constants) (m : aiMesh) (i : Nat) : Bool :=
  m.hasPointOrLine K && marked m.mFaces i

/-- The element `i` of the array, if there is one, has finite components. -/
def finiteAt (arr : List aiVector3D) (i : Nat) : Prop :=
  ∀ v, arr[i]? = some v → v.hasNonFinite = false

/-- The sizes the data model requires of a mesh: every per-vertex array that
is present has `mNumVertices` elements, the texture coordinate table has
`AI_MAX_NUMBER_OF_TEXTURECOORDS` entries, and the vertex indices of the faces
are below `mNumVertices`. -/
structure aiMesh.WellFormed (K : Constants) (m : aiMesh) : Prop where
  vertices : ∀ a ∈ m.mVertices, a.length = m.mNumVertices
  normals : ∀ a ∈ m.mNormals, a.length = m.mNumVertices
  tangents : ∀ a ∈ m.mTangents, a.length = m.mNumVertices
  bitangents : ∀ a ∈ m.mBitangents, a.length = m.mNumVertices
  table : m.mTextureCoords.length = K.AI_MAX_NUMBER_OF_TEXTURECOORDS
  texcoords : ∀ o ∈ m.mTextureCoords, ∀ a ∈ o, a.length = m.mNumVertices
  faces : ∀ f ∈ m.mFaces, ∀ i ∈ f.mIndices, i < m.mNumVertices

/-- A vector with finite components, given by their magnitudes. -/
def vec (x y z : Nat) : aiVector3D :=
  ⟨.finite false x, .finite false y, .finite false z⟩

/-- Example: a mesh with two vertices and three texture coordinate sets, of
which the second is constant. -/
def cascadeMesh : aiMesh :=
  { mPrimitiveTypes := 4, mNumVertices := 2,
    mVertices := some [vec 0 0 0, vec 1 0 0],
    mNormals := none, mTangents := none, mBitangents := none,
    mTextureCoords :=
      [some [vec 0 0 0, vec 1 1 0], some [vec 5 5 0, vec 5 5 0], some [vec 0 1 0, vec 1 0 0],
       none],
    mFaces := [] }

/-- Example: a triangle whose tangents are constant and whose bitangents
differ from vertex to vertex. -/
def pairedMesh : aiMesh :=
  { mPrimitiveTypes := 4, mNumVertices := 3,
    mVertices := some [vec 0 0 0, vec 1 0 0, vec 0 1 0],
    mNormals := none,
    mTangents := some [vec 1 0 0, vec 1 0 0, vec 1 0 0],
    mBitangents := some [vec 0 1 0, vec 0 2 0, vec 0 3 0],
    mTextureCoords := [none, none, none, none],
    mFaces := [⟨[0, 1, 2]⟩] }

/-- The members of the mesh that lines 326-370 do not write are the same
in `m'` and `m`. -/
def aiMesh.sameFrame (m' m : aiMesh) : Prop :=
  m'.mPrimitiveTypes = m.mPrimitiveTypes ∧ m'.mNumVertices = m.mNumVertices ∧
    m'.mVertices = m.mVertices ∧ m'.mTextureCoords = m.mTextureCoords ∧ m'.mFaces = m.mFaces

/-- The array fails validation with the empty lookup table: it contains a
vector with a non-finite component, or no two of its vectors differ. -/
def failsValidation (arr : List aiVector3D) : Prop :=
  (∃ v ∈ arr, v.hasNonFinite = true) ∨ ∀ u ∈ arr, ∀ v ∈ arr, u.ne v = false

/-- What the step guarantees of a mesh it keeps.  Positions: no non-finite
component.  Texture coordinates: no non-finite component in a set that is
present together with all sets of lower index.  Normals, tangents, and
bitangents that come with normals or tangents: unless the mesh has point or
line primitives only, no non-finite component at the vertices that are not
exempted. -/
structure aiMesh.Scrubbed (K : Constants) (m : aiMesh) : Prop where
  positions : ∀ a, m.mVertices = some a → ∀ i, i < m.mNumVertices → finiteAt a i
  texcoords : ∀ j a, j < K.AI_MAX_NUMBER_OF_TEXTURECOORDS →
    m.mTextureCoords[j]? = some (some a) →
    (∀ l, l < j → ∃ b, m.mTextureCoords[l]? = some (some b)) →
    ∀ i, i < m.mNumVertices → finiteAt a i
  normals : (m.hasPointOrLine K = true → m.hasTriangleOrPolygon K = true) →
    ∀ a, m.mNormals = some a →
      ∀ i, i < m.mNumVertices → m.exemptVertex K i = false → finiteAt a i
  tangents : (m.hasPointOrLine K = true → m.hasTriangleOrPolygon K = true) →
    ∀ a, m.mTangents = some a →
      ∀ i, i < m.mNumVertices → m.exemptVertex K i = false → finiteAt a i
  bitangents : (m.hasPointOrLine K = true → m.hasTriangleOrPolygon K = true) →
    ∀ a, m.mBitangents = some a → (m.mNormals.isSome ∨ m.mTangents.isSome) →
      ∀ i, i < m.mNumVertices → m.exemptVertex K i = false → finiteAt a i

/-- The mesh as `ProcessMesh` leaves it, for a mesh that `ProcessMesh` does
not report unusable (return value other than 2); `none` for an unusable one. -/
def retained (K : Constants) (m : aiMesh) : Option aiMesh :=
  match ProcessMesh K m with
  | .ok (res, m') => if res = 2 then none else some m'
  | .error _ => none

/-- The function `ProcessMesh` returns a value other than 0 on the mesh. -/
def flagged (K : Constants) (m : aiMesh) : Bool :=
  match ProcessMesh K m with
  | .ok (res, _) => res != 0
  | .error _ => false

/-- The index map for a run of meshes when `real` meshes were retained
before it: the sentinel for a removed mesh, the next free position for a
retained one. -/
def mappingFrom (K : Constants) : Nat → List aiMesh → List Nat
  | _, [] => []
  | real, m :: ms =>
    match retained K m with
    | none => 0xffffffff :: mappingFrom K real ms
    | some _ => real :: mappingFrom K (real + 1) ms

/-- The new index of the mesh with the old index `r`: the number of retained
meshes before it, when the mesh itself is retained. -/
def newIndex (K : Constants) (mMeshes : List aiMesh) (r : Nat) : Option Nat :=
  match mMeshes[r]? with
  | some m => (retained K m).map fun _ => ((mMeshes.take r).filterMap (retained K)).length
  | none => none

/-- Example: a mesh whose third position has a NaN component. -/
def nanMesh : aiMesh :=
  { mPrimitiveTypes := 4, mNumVertices := 3,
    mVertices := some [vec 0 0 0, vec 1 0 0, ⟨.nan, .finite false 0, .finite false 0⟩],
    mNormals := none, mTangents := none, mBitangents := none,
    mTextureCoords := [none, none, none, none],
    mFaces := [⟨[0, 1, 2]⟩] }

/-- Example: a mesh with a line and a triangle (primitive types LINE and
TRIANGLE); the normal of the first vertex, an end of the line, is NaN. -/
def lineMesh : aiMesh :=
  { mPrimitiveTypes := 6, mNumVertices := 5,
    mVertices := some [vec 0 0 0, vec 1 0 0, vec 0 1 0, vec 1 1 0, vec 2 1 0],
    mNormals := some
      [⟨.nan, .nan, .nan⟩, vec 0 0 0, vec 0 0 1, vec 0 1 0, vec 1 0 0],
    mTangents := none, mBitangents := none,
    mTextureCoords := [none, none, none, none],
    mFaces := [⟨[0, 1]⟩, ⟨[2, 3, 4]⟩] }

/-- Example: two vertices joined by a line (primitive type LINE only), with
a NaN normal. -/
def linesOnlyMesh : aiMesh :=
  { mPrimitiveTypes := 2, mNumVertices := 2,
    mVertices := some [vec 0 0 0, vec 1 0 0],
    mNormals := some [⟨.nan, .nan, .nan⟩, vec 0 0 1],
    mTangents := none, mBitangents := none,
    mTextureCoords := [none, none, none, none],
    mFaces := [⟨[0, 1]⟩] }

/-- Example: a triangle with bitangents, one of them NaN, and neither
normals nor tangents. -/
def bitangentsOnlyMesh : aiMesh :=
  { mPrimitiveTypes := 4, mNumVertices := 3,
    mVertices := some [vec 0 0 0, vec 1 0 0, vec 0 1 0],
    mNormals := none, mTangents := none,
    mBitangents := some [⟨.nan, .nan, .nan⟩, vec 0 1 0, vec 0 2 0],
    mTextureCoords := [none, none, none, none],
    mFaces := [⟨[0, 1, 2]⟩] }

/-- Example: the scene with the given single mesh, referenced by the root node. -/
def sceneOf (m : aiMesh) : aiScene :=
  { mMeshes := [m], mAnimations := [], mRootNode := .mk [0] [] }

/-- Example: the scene whose single mesh has a non-finite position. -/
def fatalScene : aiScene :=
  { mMeshes := [nanMesh], mAnimations := [], mRootNode := .mk [0] [] }

/-- Example: a scene without meshes. -/
def emptyScene : aiScene :=
  { mMeshes := [], mAnimations := [], mRootNode := .mk [] [] }

/-- Example: a scene with the single mesh `lineMesh`. -/
def lineScene : aiScene :=
  { mMeshes := [lineMesh], mAnimations := [], mRootNode := .mk [0] [] }

/-- Example: a mesh with two vertices at the given positions and nothing else. -/
def plainMesh (p q : aiVector3D) : aiMesh :=
  { mPrimitiveTypes := 4, mNumVertices := 2,
    mVertices := some [p, q],
    mNormals := none, mTangents := none, mBitangents := none,
    mTextureCoords := [none, none, none, none],
    mFaces := [] }

/-- Example: a scene with three meshes, of which the second is unusable (its
two positions are the same); the root node references all three and its
child only the second. -/
def threeMeshScene : aiScene :=
  { mMeshes :=
      [plainMesh (vec 0 0 0) (vec 1 0 0), plainMesh (vec 2 2 2) (vec 2 2 2),
       plainMesh (vec 0 0 0) (vec 0 0 3)],
    mAnimations := [],
    mRootNode := .mk [0, 1, 2] [.mk [1] []] }

/-- Example: the scene `threeMeshScene` after `Execute`. -/
def threeMeshSceneAfter : aiScene :=
  { mMeshes := [plainMesh (vec 0 0 0) (vec 1 0 0), plainMesh (vec 0 0 0) (vec 0 0 3)],
    mAnimations := [],
    mRootNode := .mk [0, 1] [.mk [] []] }

/-- Example: a triangle whose three vertices are also the ends of two lines
(primitive types LINE and TRIANGLE), with three different normals. -/
def wireMesh : aiMesh :=
  { mPrimitiveTypes := 6, mNumVertices := 3,
    mVertices := some [vec 0 0 0, vec 1 0 0, vec 0 1 0],
    mNormals := some [vec 0 0 1, vec 0 0 2, vec 0 0 3],
    mTangents := none, mBitangents := none,
    mTextureCoords := [none, none, none, none],
    mFaces := [⟨[0, 1]⟩, ⟨[1, 2]⟩, ⟨[0, 1, 2]⟩] }

/-- The function `ProcessAnimationChannel` flags the channel as dummy (it
returns a value other than 0). -/
def dummy (c : aiNodeAnim) : Bool :=
  match ProcessAnimationChannel c with
  | .ok r => r != 0
  | .error _ => false

/-- The animation as `ProcessAnimation` leaves it, for an animation that
`ProcessAnimation` does not report unusable; `none` for an unusable one. -/
def retainedAnimation (a : aiAnimation) : Option aiAnimation :=
  match ProcessAnimation a with
  | .ok (res, a') => if res = 2 then none else some a'
  | .error _ => none

/-- The function `ProcessAnimation` returns a value other than 0 on the
animation. -/
def flaggedAnimation (a : aiAnimation) : Bool :=
  match ProcessAnimation a with
  | .ok (res, _) => res != 0
  | .error _ => false

/-- Example: a key with the given time and value. -/
def vkey (t : Nat) (v : aiVector3D) : aiVectorKey := ⟨.finite false t, v⟩

/-- Example: a channel that moves (two different position keys). -/
def movingChannel : aiNodeAnim :=
  { mPositionKeys := [vkey 0 (vec 0 0 0), vkey 1 (vec 1 0 0)], mRotationKeys := [],
    mScalingKeys := [] }

/-- Example: a channel whose two position keys carry the same value. -/
def stillChannel : aiNodeAnim :=
  { mPositionKeys := [vkey 0 (vec 1 1 1), vkey 1 (vec 1 1 1)], mRotationKeys := [],
    mScalingKeys := [] }

/-- Example: a scene with a mesh and an animation without channels. -/
def emptyAnimationScene : aiScene :=
  { mMeshes := [plainMesh (vec 0 0 0) (vec 1 0 0)], mAnimations := [{ mChannels := [] }],
    mRootNode := .mk [0] [] }

/-- Example: a scene with a mesh and two animations, the first with a dummy
and a moving channel, the second with a dummy channel only. -/
def animatedScene : aiScene :=
  { mMeshes := [plainMesh (vec 0 0 0) (vec 1 0 0)],
    mAnimations :=
      [{ mChannels := [stillChannel, movingChannel] }, { mChannels := [stillChannel] }],
    mRootNode := .mk [0] [] }

/-- Example: the scene `animatedScene` after `Execute`. -/
def animatedSceneAfter : aiScene :=
  { mMeshes := [plainMesh (vec 0 0 0) (vec 1 0 0)],
    mAnimations := [{ mChannels := [movingChannel] }],
    mRootNode := .mk [0] [] }

/-- Lines 350-370 for a given lookup table: normals, tangents and
bitangents are processed in turn, and the return value is `ret ? 1 : 0`. -/
def ProcessMesh.validated (dirtyMask : List Bool) (pMesh : aiMesh) (ret : Bool) :
    Except Fault (Int × aiMesh) := do
  let r ← ProcessMesh.normals dirtyMask pMesh ret
  let r ← ProcessMesh.tangents dirtyMask r.1 r.2
  let r ← ProcessMesh.bitangents dirtyMask r.1 r.2
  .ok (if r.2 then 1 else 0, r.1)

/-- The sizes and ranges the data model requires of a scene: every mesh is
well formed and every mesh reference of the node graph is below the number
of meshes. -/
structure aiScene.WellFormed (K : Constants) (s : aiScene) : Prop where
  meshes : ∀ m ∈ s.mMeshes, m.WellFormed K
  references : aiNode.refsBelow s.mNumMeshes s.mRootNode = true

/-- Example: a mesh with a line and a triangle (primitive types LINE and
TRIANGLE); the normals of the two ends of the line are zero, the normals of
the vertices of the triangle are different and not zero. -/
def lineTriangleMesh : aiMesh :=
  { mPrimitiveTypes := 6, mNumVertices := 5,
    mVertices := some [vec 0 0 0, vec 1 0 0, vec 0 1 0, vec 1 1 0, vec 2 1 0],
    mNormals := some [vec 0 0 0, vec 0 0 0, vec 0 0 1, vec 0 1 0, vec 1 0 0],
    mTangents := none, mBitangents := none,
    mTextureCoords := [none, none, none, none],
    mFaces := [⟨[0, 1]⟩, ⟨[2, 3, 4]⟩] }

theorem ok_bind {α β : Type} (a : α) (f : α → Except Fault β) :
    (Except.ok a >>= f) = f a := rfl

theorem error_bind {α β : Type} (e : Fault) (f : α → Except Fault β) :
    ((Except.error e : Except Fault α) >>= f) = .error e := rfl

theorem rd_of_lt {α : Type} (xs : List α) (i : Nat) (h : i < xs.length) :
    rd xs i = .ok xs[i] := by
  simp [rd, List.getElem?_eq_getElem h]

theorem wr_of_lt {α : Type} (xs : List α) (i : Nat) (v : α) (h : i < xs.length) :
    wr xs i v = .ok (xs.set i v) := by
  simp [wr, h]

theorem take_succ_set {α : Type} (xs : List α) (i : Nat) (v : α) (h : i < xs.length) :
    (xs.set i v).take (i + 1) = xs.take i ++ [v] := by
  induction xs generalizing i with
  | nil => simp at h
  | cons x xs ih =>
    cases i with
    | zero => simp
    | succ i => simpa using ih i (by simpa using h)

/-! ## UpdateMeshReferences -/

theorem remap_cons_keep (meshMapping : List Nat) (r v : Nat) (rs : List Nat)
    (h : meshMapping[r]? = some v) (hv : v ≠ 0xffffffff) :
    remap meshMapping (r :: rs) = v :: remap meshMapping rs := by
  simp [remap, List.filterMap_cons, h, hv]

theorem remap_cons_drop (meshMapping : List Nat) (r : Nat) (rs : List Nat)
    (h : meshMapping[r]? = some 0xffffffff) :
    remap meshMapping (r :: rs) = remap meshMapping rs := by
  simp [remap, List.filterMap_cons, h]

/-- Invariant of the reference loop: with `out ≤ a`, the kept references are
written over slots that were already read. -/
theorem UpdateMeshReferences.refs_spec (meshMapping : List Nat) :
    ∀ (k a : Nat) (mMeshes : List Nat) (out : Nat), out ≤ a → a + k = mMeshes.length →
      (∀ r ∈ mMeshes.drop a, r < meshMapping.length) →
      ∃ res, UpdateMeshReferences.refs meshMapping k a mMeshes out =
          .ok (res, out + (remap meshMapping (mMeshes.drop a)).length) ∧
        res.take (out + (remap meshMapping (mMeshes.drop a)).length) =
          mMeshes.take out ++ remap meshMapping (mMeshes.drop a) := by
  intro k
  induction k with
  | zero =>
    intro a mMeshes out _ hlen _
    have hd : mMeshes.drop a = [] := List.drop_of_length_le (by omega)
    refine ⟨mMeshes, ?_, ?_⟩ <;> simp [UpdateMeshReferences.refs, hd, remap]
  | succ k ih =>
    intro a mMeshes out hout hlen hvalid
    have ha : a < mMeshes.length := by omega
    have hd : mMeshes.drop a = mMeshes[a] :: mMeshes.drop (a + 1) := List.drop_eq_getElem_cons ha
    have hr : mMeshes[a] < meshMapping.length := hvalid _ (by rw [hd]; exact List.mem_cons_self _ _)
    have hm : meshMapping[mMeshes[a]]? = some meshMapping[mMeshes[a]] :=
      List.getElem?_eq_getElem hr
    rw [UpdateMeshReferences.refs, rd_of_lt _ _ ha, ok_bind, rd_of_lt _ _ hr, ok_bind]
    by_cases hs : meshMapping[mMeshes[a]] = 0xffffffff
    · have hvalid2 : ∀ r ∈ mMeshes.drop (a + 1), r < meshMapping.length := fun r hmem =>
        hvalid r (by rw [hd]; exact List.mem_cons_of_mem _ hmem)
      obtain ⟨res, h1, h2⟩ := ih (a + 1) mMeshes out (by omega) (by omega) hvalid2
      refine ⟨res, ?_, ?_⟩
      · simp only [hs, bne_self_eq_false, Bool.false_eq_true, if_false]
        rw [hd, remap_cons_drop _ _ _ (by rw [hm, hs])]
        exact h1
      · rw [hd, remap_cons_drop _ _ _ (by rw [hm, hs])]
        exact h2
    · have hne : ((0xffffffff : Nat) != meshMapping[mMeshes[a]]) = true := by
        simp only [bne_iff_ne, ne_eq]
        exact fun h => hs h.symm
      have hout2 : out < mMeshes.length := by omega
      have hdrop : (mMeshes.set out meshMapping[mMeshes[a]]).drop (a + 1) = mMeshes.drop (a + 1) :=
        List.drop_set_of_lt _ _ (by omega)
      obtain ⟨res, h1, h2⟩ := ih (a + 1) (mMeshes.set out meshMapping[mMeshes[a]]) (out + 1)
        (by omega) (by simp; omega) (by
          rw [hdrop]
          exact fun r hmem => hvalid r (by rw [hd]; exact List.mem_cons_of_mem _ hmem))
      rw [hdrop] at h1 h2
      rw [take_succ_set _ _ _ hout2] at h2
      refine ⟨res, ?_, ?_⟩
      · simp only [hne, if_true]
        rw [wr_of_lt _ _ _ hout2, ok_bind, hd, remap_cons_keep _ _ _ _ hm hs, h1]
        simp [Nat.add_assoc, Nat.add_comm]
      · rw [hd, remap_cons_keep _ _ _ _ hm hs]
        simp only [List.length_cons]
        rw [show out + ((remap meshMapping (mMeshes.drop (a + 1))).length + 1) =
          out + 1 + (remap meshMapping (mMeshes.drop (a + 1))).length by omega, h2]
        simp

/-- Lines 80-98 compute `remap` when every reference of the node is valid. -/
theorem UpdateMeshReferences.node_spec (meshMapping : List Nat) (mMeshes : List Nat)
    (h : ∀ r ∈ mMeshes, r < meshMapping.length) :
    UpdateMeshReferences.node meshMapping mMeshes = .ok (remap meshMapping mMeshes) := by
  unfold UpdateMeshReferences.node
  by_cases h0 : mMeshes.length = 0
  · have : mMeshes = [] := List.length_eq_zero.mp h0
    subst this
    simp [remap]
  · obtain ⟨res, h1, h2⟩ := UpdateMeshReferences.refs_spec meshMapping mMeshes.length 0 mMeshes 0
      (Nat.le_refl 0) (by simp) (by simpa using h)
    simp only [List.drop_zero, Nat.zero_add, List.take_zero, List.nil_append] at h1 h2
    have hb : (mMeshes.length != 0) = true := by simp [h0]
    rw [if_pos hb, h1, ok_bind]
    by_cases hz : (remap meshMapping mMeshes).length = 0
    · simp [hz, List.length_eq_zero.mp hz]
    · simp [hz, h2]

mutual
/-- On a tree with valid references, `UpdateMeshReferences` returns the
tree whose reference lists are remapped. -/
theorem UpdateMeshReferences.tree_spec (meshMapping : List Nat) :
    ∀ node : aiNode, aiNode.refsBelow meshMapping.length node = true →
      UpdateMeshReferences meshMapping node = .ok (aiNode.mapMeshes (remap meshMapping) node)
  | .mk mMeshes mChildren, h => by
    simp only [aiNode.refsBelow, Bool.and_eq_true, List.all_eq_true, decide_eq_true_eq] at h
    rw [UpdateMeshReferences, UpdateMeshReferences.node_spec meshMapping mMeshes h.1, ok_bind,
      UpdateMeshReferences.children_spec meshMapping mChildren h.2, ok_bind, aiNode.mapMeshes]
/-- The loop over the children, on trees with valid references. -/
theorem UpdateMeshReferences.children_spec (meshMapping : List Nat) :
    ∀ cs : List aiNode, aiNode.refsBelowList meshMapping.length cs = true →
      UpdateMeshReferences.children meshMapping cs =
        .ok (aiNode.mapMeshesList (remap meshMapping) cs)
  | [], _ => by simp [UpdateMeshReferences.children, aiNode.mapMeshesList]
  | c :: cs, h => by
    simp only [aiNode.refsBelowList, Bool.and_eq_true] at h
    rw [UpdateMeshReferences.children, UpdateMeshReferences.tree_spec meshMapping c h.1, ok_bind,
      UpdateMeshReferences.children_spec meshMapping cs h.2, ok_bind, aiNode.mapMeshesList]
end

/-- C1. For a node tree whose mesh references are all valid indices into
the index map, `UpdateMeshReferences` returns the tree of the same shape
(same nodes, same children in the same order) in which the reference list of
every node is the old list mapped through the index map, without the
references that map to the sentinel `0xffffffff`, the survivors in their old
order. -/
theorem C1_UpdateMeshReferences_remaps (meshMapping : List Nat) (node : aiNode)
    (h : aiNode.refsBelow meshMapping.length node = true) :
    UpdateMeshReferences meshMapping node =
      .ok (aiNode.mapMeshes
        (fun refs => (refs.filterMap fun r => meshMapping[r]?).filter fun v => v != 0xffffffff)
        node) :=
  UpdateMeshReferences.tree_spec meshMapping node h

/-- Witness of C1: with the map `[0, removed, 1]` a node referencing
`[0,1,2]` ends up referencing `[0,1]`, and its child referencing only `[1]`
stays in the tree with an empty reference list. -/
theorem C1_UpdateMeshReferences_remaps_witness :
    aiNode.refsBelow [0, 0xffffffff, 1].length (.mk [0, 1, 2] [.mk [1] []]) = true ∧
    UpdateMeshReferences [0, 0xffffffff, 1] (.mk [0, 1, 2] [.mk [1] []]) =
      .ok (.mk [0, 1] [.mk [] []]) :=
  ⟨by decide, C1_UpdateMeshReferences_remaps [0, 0xffffffff, 1] (.mk [0, 1, 2] [.mk [1] []])
    (by decide)⟩

/-! ## Comparison of floating point values and vectors -/

theorem float_ne_eq_false_iff (s t : Bool) (m n : Nat) :
    (float.finite s m).ne (float.finite t n) = false ↔ (m = 0 ∧ n = 0) ∨ (s = t ∧ m = n) := by
  simp only [float.ne, Bool.not_eq_false', Bool.or_eq_true, Bool.and_eq_true, beq_iff_eq]

theorem float_ne_symm (a b : float) : a.ne b = b.ne a := by
  cases a <;> cases b <;> try rfl
  · rw [Bool.eq_iff_iff]
    simp only [float.ne, Bool.not_eq_true', Bool.or_eq_false_iff, Bool.and_eq_false_iff,
      beq_eq_false_iff_ne, ne_eq]
    constructor <;> rintro ⟨h1, h2⟩ <;> refine ⟨by tauto, ?_⟩ <;>
      rcases h2 with h2 | h2 <;> [left; right; left; right] <;> exact fun h => h2 h.symm
  · rw [Bool.eq_iff_iff]
    simp only [float.ne, bne_iff_ne, ne_eq]
    exact ⟨fun h e => h e.symm, fun h e => h e.symm⟩

theorem float_ne_self (a : float) (h : is_special_float a = false) : a.ne a = false := by
  cases a <;> simp_all [float.ne, is_special_float]

theorem float_ne_trans (a b c : float) (h1 : a.ne b = false) (h2 : b.ne c = false) :
    a.ne c = false := by
  cases a <;> cases b <;> cases c <;> try (simp [float.ne] at h1 h2; done)
  · rw [float_ne_eq_false_iff] at h1 h2 ⊢
    rcases h1 with ⟨h1, h1'⟩ | ⟨h1, h1'⟩ <;> rcases h2 with ⟨h2, h2'⟩ | ⟨h2, h2'⟩ <;>
      subst_vars <;> simp_all
  · simp only [float.ne, bne_eq_false_iff_eq] at h1 h2 ⊢
    rw [h1, h2]

theorem vector_ne_symm (u v : aiVector3D) : u.ne v = v.ne u := by
  simp [aiVector3D.ne, float_ne_symm u.x, float_ne_symm u.y, float_ne_symm u.z]

theorem vector_ne_self (v : aiVector3D) (h : v.hasNonFinite = false) : v.ne v = false := by
  simp only [aiVector3D.hasNonFinite, Bool.or_eq_false_iff] at h
  simp [aiVector3D.ne, float_ne_self _ h.1.1, float_ne_self _ h.1.2, float_ne_self _ h.2]

theorem vector_ne_trans (u v w : aiVector3D) (h1 : u.ne v = false) (h2 : v.ne w = false) :
    u.ne w = false := by
  simp only [aiVector3D.ne, Bool.or_eq_false_iff] at h1 h2 ⊢
  exact ⟨⟨float_ne_trans _ _ _ h1.1.1 h2.1.1, float_ne_trans _ _ _ h1.1.2 h2.1.2⟩,
    float_ne_trans _ _ _ h1.2 h2.2⟩

/-! ## ValidateArrayContents -/

/-- One iteration of the loop of lines 193-203. -/
theorem ValidateArrayContents.loop_step (arr : List aiVector3D) (dirtyMask : List Bool)
    (k i : Nat) (b : Bool) (hi : i < arr.length) (hm : dirtyMask = [] ∨ i < dirtyMask.length) :
    ValidateArrayContents.loop arr dirtyMask (k + 1) i b =
      if exempt dirtyMask i then ValidateArrayContents.loop arr dirtyMask k (i + 1) b
      else if arr[i].hasNonFinite then .ok (some "INF/NAN was found in a vector component")
      else ValidateArrayContents.loop arr dirtyMask k (i + 1)
        (b || (i != 0 && arr[i].ne (arr.getD (i - 1) arr[i]))) := by
  rw [ValidateArrayContents.loop]
  have hd : (if (dirtyMask.length != 0) = true then rd dirtyMask i else Except.ok false) =
      .ok (exempt dirtyMask i) := by
    rcases hm with hm | hm
    · subst hm; simp [exempt]
    · have h0 : (dirtyMask.length != 0) = true := by
        simp only [bne_iff_ne, ne_eq]; omega
      rw [if_pos h0, rd_of_lt _ _ hm]
      simp [exempt, h0, List.getD_eq_getElem?_getD, List.getElem?_eq_getElem hm]
  have hd2 : ∀ f : Bool → Except Fault (Option String),
      (if (dirtyMask.length != 0) = true then rd dirtyMask i >>= f else Except.ok false >>= f) =
        f (exempt dirtyMask i) := by
    intro f
    by_cases h0 : (dirtyMask.length != 0) = true
    · rw [if_pos h0] at hd ⊢
      rw [hd]; rfl
    · rw [if_neg h0] at hd ⊢
      rw [hd]; rfl
  rw [hd2]
  by_cases he : exempt dirtyMask i = true
  · simp [he]
  · simp only [he, Bool.false_eq_true, if_false]
    rw [rd_of_lt _ _ hi, ok_bind]
    by_cases hs : arr[i].hasNonFinite = true
    · have hs2 := hs
      simp only [aiVector3D.hasNonFinite] at hs2
      simp [hs, hs2]
    · have hs2 := hs
      simp only [aiVector3D.hasNonFinite] at hs2
      simp only [hs, hs2, Bool.false_eq_true, if_false]
      by_cases h0 : i = 0
      · subst h0; simp
      · have hp : i - 1 < arr.length := by omega
        have hb : (i != 0) = true := by simp [h0]
        rw [if_pos hb, rd_of_lt _ _ hp, ok_bind]
        have hg : arr.getD (i - 1) arr[i] = arr[i - 1] := by
          simp [List.getD_eq_getElem?_getD, List.getElem?_eq_getElem hp]
        rw [hg, hb]
        cases hne : arr[i].ne arr[i - 1] <;> cases b <;> simp

/-- The loop of lines 193-203 ends without indexing outside the arrays when
the array has `size` elements and the lookup table is empty or has `size`
entries. -/
theorem ValidateArrayContents.loop_total (arr : List aiVector3D) (dirtyMask : List Bool) :
    ∀ (k i : Nat) (b : Bool), i + k ≤ arr.length →
      (dirtyMask = [] ∨ i + k ≤ dirtyMask.length) →
      ∃ r, ValidateArrayContents.loop arr dirtyMask k i b = .ok r := by
  intro k
  induction k with
  | zero =>
    intro i b _ _
    cases b <;> simp [ValidateArrayContents.loop]
  | succ k ih =>
    intro i b hi hm
    rw [ValidateArrayContents.loop_step arr dirtyMask k i b (by omega)
      (hm.imp id (fun h => by omega))]
    have hm2 : dirtyMask = [] ∨ i + 1 + k ≤ dirtyMask.length := hm.imp id (fun h => by omega)
    split
    · exact ih (i + 1) _ (by omega) hm2
    · split
      · exact ⟨_, rfl⟩
      · exact ih (i + 1) _ (by omega) hm2

/-- The loop of lines 193-203, one iteration unfolded. -/
theorem ValidateArrayContents.loop_unfold (arr : List aiVector3D) (dirtyMask : List Bool)
    (k i : Nat) (b : Bool) :
    ValidateArrayContents.loop arr dirtyMask (k + 1) i b =
      ((if dirtyMask.length != 0 then rd dirtyMask i else .ok false) >>= fun dirty =>
        if dirty then ValidateArrayContents.loop arr dirtyMask k (i + 1) b
        else rd arr i >>= fun v =>
          if v.hasNonFinite then .ok (some "INF/NAN was found in a vector component")
          else if i != 0 then
            rd arr (i - 1) >>= fun p =>
              ValidateArrayContents.loop arr dirtyMask k (i + 1) (if v.ne p then true else b)
          else ValidateArrayContents.loop arr dirtyMask k (i + 1) b) := by
  rw [ValidateArrayContents.loop]
  split <;> rfl

theorem rd_eq_ok {α : Type} (xs : List α) (i : Nat) (x : α) (h : rd xs i = .ok x) :
    xs[i]? = some x := by
  unfold rd at h
  split at h
  · cases h; assumption
  · cases h

/-- When the loop reports no error, every element it did not skip is finite. -/
theorem ValidateArrayContents.loop_finite (arr : List aiVector3D) (dirtyMask : List Bool) :
    ∀ (k i : Nat) (b : Bool),
      ValidateArrayContents.loop arr dirtyMask k i b = .ok none →
      ∀ j, i ≤ j → j < i + k → exempt dirtyMask j = false →
        ∀ v, arr[j]? = some v → v.hasNonFinite = false := by
  intro k
  induction k with
  | zero => intro i b _ j h1 h2; omega
  | succ k ih =>
    intro i b hr j h1 h2 hex v hv
    rw [ValidateArrayContents.loop_unfold] at hr
    cases hdm : (if dirtyMask.length != 0 then rd dirtyMask i else Except.ok false) with
    | error e => rw [hdm] at hr; cases hr
    | ok dirty =>
      rw [hdm, ok_bind] at hr
      have hdirty : dirty = exempt dirtyMask i := by
        by_cases h0 : (dirtyMask.length != 0) = true
        · rw [if_pos h0] at hdm
          have := rd_eq_ok _ _ _ hdm
          simp [exempt, h0, List.getD_eq_getElem?_getD, this]
        · rw [if_neg h0] at hdm
          cases hdm
          simp only [Bool.not_eq_true] at h0
          simp [exempt, h0]
      by_cases hd : dirty = true
      · simp only [hd, if_true] at hr
        have hji : j ≠ i := by
          rintro rfl
          rw [← hdirty, hd] at hex
          cases hex
        exact ih (i + 1) _ hr j (by omega) (by omega) hex v hv
      · simp only [hd, Bool.false_eq_true, if_false] at hr
        cases hrd : rd arr i with
        | error e => rw [hrd] at hr; cases hr
        | ok w =>
          rw [hrd, ok_bind] at hr
          have hw := rd_eq_ok _ _ _ hrd
          by_cases hs : w.hasNonFinite = true
          · simp [hs] at hr
          · simp only [hs, Bool.false_eq_true, if_false] at hr
            by_cases hji : j = i
            · subst hji
              rw [hw] at hv
              cases hv
              simpa using hs
            · by_cases h0 : (i != 0) = true
              · rw [if_pos h0] at hr
                cases hp : rd arr (i - 1) with
                | error e => rw [hp] at hr; cases hr
                | ok p =>
                  rw [hp, ok_bind] at hr
                  exact ih (i + 1) _ hr j (by omega) (by omega) hex v hv
              · rw [if_neg h0] at hr
                exact ih (i + 1) _ hr j (by omega) (by omega) hex v hv

/-- One iteration of the loop with the empty lookup table. -/
theorem ValidateArrayContents.loop_step_nil (arr : List aiVector3D) (k i : Nat) (b : Bool)
    (hi : i < arr.length) :
    ValidateArrayContents.loop arr [] (k + 1) i b =
      if arr[i].hasNonFinite then .ok (some "INF/NAN was found in a vector component")
      else ValidateArrayContents.loop arr [] k (i + 1)
        (b || (i != 0 && arr[i].ne (arr.getD (i - 1) arr[i]))) := by
  rw [ValidateArrayContents.loop_step arr [] k i b hi (Or.inl rfl)]
  simp [exempt]

/-- With the empty lookup table a non-finite element is reported. -/
theorem ValidateArrayContents.loop_special (arr : List aiVector3D) :
    ∀ (k i : Nat) (b : Bool), i + k ≤ arr.length →
      (∃ j v, i ≤ j ∧ j < i + k ∧ arr[j]? = some v ∧ v.hasNonFinite = true) →
      ValidateArrayContents.loop arr [] k i b =
        .ok (some "INF/NAN was found in a vector component") := by
  intro k
  induction k with
  | zero => rintro i b _ ⟨j, v, h1, h2, _⟩; omega
  | succ k ih =>
    rintro i b hi ⟨j, v, h1, h2, hv, hs⟩
    have hil : i < arr.length := by omega
    rw [ValidateArrayContents.loop_step_nil arr k i b hil]
    by_cases hsi : arr[i].hasNonFinite = true
    · simp [hsi]
    · have hji : j ≠ i := by
        rintro rfl
        rw [List.getElem?_eq_getElem hil] at hv
        cases hv
        exact hsi hs
      simp only [hsi, Bool.false_eq_true, if_false]
      exact ih (i + 1) _ (by omega) ⟨j, v, by omega, by omega, hv, hs⟩

/-- With the empty lookup table and finite elements, once `b` is set the
array is accepted. -/
theorem ValidateArrayContents.loop_accept (arr : List aiVector3D) :
    ∀ (k i : Nat), i + k ≤ arr.length →
      (∀ j v, i ≤ j → j < i + k → arr[j]? = some v → v.hasNonFinite = false) →
      ValidateArrayContents.loop arr [] k i true = .ok none := by
  intro k
  induction k with
  | zero => intro i _ _; simp [ValidateArrayContents.loop]
  | succ k ih =>
    intro i hi hf
    have hil : i < arr.length := by omega
    rw [ValidateArrayContents.loop_step_nil arr k i true hil,
      hf i arr[i] (Nat.le_refl i) (by omega) (List.getElem?_eq_getElem hil)]
    simp only [Bool.false_eq_true, if_false, Bool.true_or]
    exact ih (i + 1) (by omega) (fun j v h1 h2 => hf j v (by omega) (by omega))

/-- With the empty lookup table and finite elements, an element that
differs from its predecessor makes the array accepted. -/
theorem ValidateArrayContents.loop_differ (arr : List aiVector3D) :
    ∀ (k i : Nat) (b : Bool), i + k ≤ arr.length →
      (∀ j v, i ≤ j → j < i + k → arr[j]? = some v → v.hasNonFinite = false) →
      (∃ j u v, i ≤ j ∧ j < i + k ∧ j ≠ 0 ∧ arr[j - 1]? = some u ∧ arr[j]? = some v ∧
        v.ne u = true) →
      ValidateArrayContents.loop arr [] k i b = .ok none := by
  intro k
  induction k with
  | zero => rintro i b _ _ ⟨j, u, v, h1, h2, _⟩; omega
  | succ k ih =>
    rintro i b hi hf ⟨j, u, v, h1, h2, h0, hu, hv, hne⟩
    have hil : i < arr.length := by omega
    have hf2 : ∀ j v, i + 1 ≤ j → j < i + 1 + k → arr[j]? = some v → v.hasNonFinite = false :=
      fun j v h1 h2 => hf j v (by omega) (by omega)
    rw [ValidateArrayContents.loop_step_nil arr k i b hil,
      hf i arr[i] (Nat.le_refl i) (by omega) (List.getElem?_eq_getElem hil)]
    simp only [Bool.false_eq_true, if_false]
    by_cases hji : j = i
    · subst hji
      rw [List.getElem?_eq_getElem hil] at hv
      cases hv
      have hg : arr.getD (j - 1) arr[j] = u := by
        simp [List.getD_eq_getElem?_getD, hu]
      have hb : (j != 0) = true := by simp [h0]
      rw [hg, hne, hb]
      simp only [Bool.and_self, Bool.or_true]
      exact ValidateArrayContents.loop_accept arr k (j + 1) (by omega) hf2
    · exact ih (i + 1) _ (by omega) hf2 ⟨j, u, v, by omega, by omega, h0, hu, hv, hne⟩

/-- With the empty lookup table and finite elements, an array in which no
element differs from its predecessor is rejected. -/
theorem ValidateArrayContents.loop_same (arr : List aiVector3D) :
    ∀ (k i : Nat), i + k ≤ arr.length →
      (∀ j v, i ≤ j → j < i + k → arr[j]? = some v → v.hasNonFinite = false) →
      (∀ j u v, i ≤ j → j < i + k → j ≠ 0 → arr[j - 1]? = some u → arr[j]? = some v →
        v.ne u = false) →
      ValidateArrayContents.loop arr [] k i false = .ok (some "All vectors are identical") := by
  intro k
  induction k with
  | zero => intro i _ _ _; simp [ValidateArrayContents.loop]
  | succ k ih =>
    intro i hi hf hs
    have hil : i < arr.length := by omega
    rw [ValidateArrayContents.loop_step_nil arr k i false hil,
      hf i arr[i] (Nat.le_refl i) (by omega) (List.getElem?_eq_getElem hil)]
    simp only [Bool.false_eq_true, if_false, Bool.false_or]
    have hb : (i != 0 && arr[i].ne (arr.getD (i - 1) arr[i])) = false := by
      by_cases h0 : i = 0
      · simp [h0]
      · have hp : i - 1 < arr.length := by omega
        have hg : arr.getD (i - 1) arr[i] = arr[i - 1] := by
          simp [List.getD_eq_getElem?_getD, List.getElem?_eq_getElem hp]
        rw [hg, hs i arr[i - 1] arr[i] (Nat.le_refl i) (by omega) h0
          (List.getElem?_eq_getElem hp) (List.getElem?_eq_getElem hil)]
        simp
    rw [hb]
    exact ih (i + 1) (by omega) (fun j v h1 h2 => hf j v (by omega) (by omega))
      (fun j u v h1 h2 => hs j u v (by omega) (by omega))

/-- In an array of finite vectors in which no element differs from its
predecessor, no element differs from the first one. -/
theorem same_as_first (arr : List aiVector3D)
    (hf : ∀ v ∈ arr, v.hasNonFinite = false)
    (hs : ∀ j u v, j ≠ 0 → arr[j - 1]? = some u → arr[j]? = some v → v.ne u = false) :
    ∀ (j : Nat) (u v : aiVector3D), arr[0]? = some u → arr[j]? = some v → v.ne u = false := by
  intro j
  induction j with
  | zero =>
    intro u v hu hv
    rw [hu] at hv
    cases hv
    exact vector_ne_self u (hf u (List.getElem?_mem hu))
  | succ j ih =>
    intro u v hu hv
    have hj : j < arr.length := by
      have := (List.getElem?_eq_some.mp hv).1
      omega
    exact vector_ne_trans v arr[j] u
      (hs (j + 1) arr[j] v (by omega) (by simp [List.getElem?_eq_getElem hj]) hv)
      (ih u arr[j] hu (List.getElem?_eq_getElem hj))

/-- The verdict of `ValidateArrayContents` with the empty lookup table on an
array of `size` elements: an error is reported exactly when some element has
a non-finite component or no two elements differ. -/
theorem ValidateArrayContents.nil_spec (arr : List aiVector3D) (size : Nat)
    (hsize : arr.length = size) :
    (∃ r, ValidateArrayContents arr size [] = .ok r) ∧
    ((∃ msg, ValidateArrayContents arr size [] = .ok (some msg)) ↔
      ((∃ v ∈ arr, v.hasNonFinite = true) ∨ ∀ u ∈ arr, ∀ v ∈ arr, u.ne v = false)) := by
  subst hsize
  unfold ValidateArrayContents
  by_cases hsp : ∃ v ∈ arr, v.hasNonFinite = true
  · obtain ⟨v, hv, hs⟩ := hsp
    obtain ⟨j, hj, rfl⟩ := List.mem_iff_getElem.mp hv
    have h := ValidateArrayContents.loop_special arr arr.length 0 false (by omega)
      ⟨j, arr[j], by omega, by omega, List.getElem?_eq_getElem hj, hs⟩
    rw [h]
    exact ⟨⟨_, rfl⟩, ⟨fun _ => Or.inl ⟨arr[j], hv, hs⟩, fun _ => ⟨_, rfl⟩⟩⟩
  · have hf : ∀ v ∈ arr, v.hasNonFinite = false := by
      intro v hv
      by_cases h : v.hasNonFinite = true
      · exact absurd ⟨v, hv, h⟩ hsp
      · simpa using h
    have hf2 : ∀ j v, 0 ≤ j → j < 0 + arr.length → arr[j]? = some v → v.hasNonFinite = false :=
      fun j v _ _ h => hf v (List.getElem?_mem h)
    by_cases hd : ∃ j u v, j ≠ 0 ∧ arr[j - 1]? = some u ∧ arr[j]? = some v ∧ v.ne u = true
    · obtain ⟨j, u, v, h0, hu, hv, hne⟩ := hd
      have hj := (List.getElem?_eq_some.mp hv).1
      have h := ValidateArrayContents.loop_differ arr arr.length 0 false (by omega) hf2
        ⟨j, u, v, by omega, by omega, h0, hu, hv, hne⟩
      rw [h]
      refine ⟨⟨_, rfl⟩, ⟨fun hm => ?_, fun hr => ?_⟩⟩
      · obtain ⟨msg, hm⟩ := hm
        cases hm
      rcases hr with hr | hr
      · exact absurd hr hsp
      · have := hr v (List.getElem?_mem hv) u (List.getElem?_mem hu)
        rw [hne] at this
        cases this
    · have hs : ∀ j u v, j ≠ 0 → arr[j - 1]? = some u → arr[j]? = some v → v.ne u = false := by
        intro j u v h0 hu hv
        by_cases h : v.ne u = true
        · exact absurd ⟨j, u, v, h0, hu, hv, h⟩ hd
        · simpa using h
      have h := ValidateArrayContents.loop_same arr arr.length 0 (by omega) hf2
        (fun j u v _ _ => hs j u v)
      rw [h]
      refine ⟨⟨_, rfl⟩, ⟨fun _ => Or.inr ?_, fun _ => ⟨_, rfl⟩⟩⟩
      intro u hu v hv
      obtain ⟨i, hi, rfl⟩ := List.mem_iff_getElem.mp hu
      obtain ⟨j, hj, rfl⟩ := List.mem_iff_getElem.mp hv
      have h0 : 0 < arr.length := by omega
      have h1 := same_as_first arr hf hs i arr[0] arr[i] (List.getElem?_eq_getElem h0)
        (List.getElem?_eq_getElem hi)
      have h2 := same_as_first arr hf hs j arr[0] arr[j] (List.getElem?_eq_getElem h0)
        (List.getElem?_eq_getElem hj)
      rw [vector_ne_symm] at h2
      exact vector_ne_trans _ _ _ h1 h2

/-! ## ProcessArray -/

/-- The two outcomes of `ProcessArray`: the array is deleted exactly when
`ValidateArrayContents` reports an error. -/
theorem ProcessArray_of_validate (arr : List aiVector3D) (num : Nat) (dirtyMask : List Bool)
    (r : Option String) (h : ValidateArrayContents arr num dirtyMask = .ok r) :
    ProcessArray arr num dirtyMask =
      .ok (if r.isSome then (none, true) else (some arr, false)) := by
  unfold ProcessArray
  rw [h, ok_bind]
  split <;> rfl

theorem ProcessArray_cases (arr : List aiVector3D) (num : Nat) (dirtyMask : List Bool)
    (p : Option (List aiVector3D) × Bool) (h : ProcessArray arr num dirtyMask = .ok p) :
    (p = (none, true) ∧ ∃ msg, ValidateArrayContents arr num dirtyMask = .ok (some msg)) ∨
    (p = (some arr, false) ∧ ValidateArrayContents arr num dirtyMask = .ok none) := by
  unfold ProcessArray at h
  cases hv : ValidateArrayContents arr num dirtyMask with
  | error e => rw [hv] at h; cases h
  | ok r =>
    rw [hv, ok_bind] at h
    cases r with
    | none =>
      simp only [Option.isSome_none, Bool.false_eq_true, if_false] at h
      cases h
      exact Or.inr ⟨rfl, rfl⟩
    | some msg =>
      simp only [Option.isSome_some, if_true] at h
      cases h
      exact Or.inl ⟨rfl, ⟨msg, rfl⟩⟩

/-- The function `ProcessArray` ends without indexing outside the arrays
when the array has `num` elements and the lookup table is empty or has `num`
entries. -/
theorem ProcessArray_total (arr : List aiVector3D) (num : Nat) (dirtyMask : List Bool)
    (ha : num ≤ arr.length) (hm : dirtyMask = [] ∨ num ≤ dirtyMask.length) :
    ∃ p, ProcessArray arr num dirtyMask = .ok p := by
  obtain ⟨r, hr⟩ := ValidateArrayContents.loop_total arr dirtyMask num 0 false (by omega)
    (hm.imp id (fun h => by omega))
  exact ⟨_, ProcessArray_of_validate arr num dirtyMask r hr⟩

/-! ## ProcessMesh -/

/-- Lines 326-370 return 0 or 1. -/
theorem ProcessMesh.attributes_code (K : Constants) (pMesh : aiMesh) (ret : Bool)
    (res : Int) (m' : aiMesh) (h : ProcessMesh.attributes K pMesh ret = .ok (res, m')) :
    res = 0 ∨ res = 1 := by
  have key : ∀ (b : Bool) (m : aiMesh), (Except.ok ((if b then 1 else 0 : Int), m) :
      Except Fault (Int × aiMesh)) = .ok (res, m') → res = 0 ∨ res = 1 := by
    intro b m hb
    cases b <;> cases hb <;> simp
  unfold ProcessMesh.attributes at h
  split at h
  · cases ht : ProcessMesh.lookup K pMesh with
    | error e => rw [ht] at h; cases h
    | ok t =>
      rw [ht, ok_bind] at h
      cases t with
      | none => exact key _ _ h
      | some dirtyMask =>
        simp only at h
        cases h1 : ProcessMesh.normals dirtyMask pMesh ret with
        | error e => rw [h1] at h; cases h
        | ok r1 =>
          rw [h1, ok_bind] at h
          cases h2 : ProcessMesh.tangents dirtyMask r1.1 r1.2 with
          | error e => rw [h2] at h; cases h
          | ok r2 =>
            rw [h2, ok_bind] at h
            cases h3 : ProcessMesh.bitangents dirtyMask r2.1 r2.2 with
            | error e => rw [h3] at h; cases h
            | ok r3 =>
              rw [h3, ok_bind] at h
              exact key _ _ h
  · exact key _ _ h

/-- The return value 2 of `ProcessMesh` comes from line 302 only: the
positions are present and `ProcessArray` deleted them. -/
theorem ProcessMesh_two_iff (K : Constants) (pMesh : aiMesh) (arr : List aiVector3D)
    (hv : pMesh.mVertices = some arr) (p : Option (List aiVector3D) × Bool)
    (hp : ProcessArray arr pMesh.mNumVertices [] = .ok p) :
    (∃ m', ProcessMesh K pMesh = .ok (2, m')) ↔ p.2 = true := by
  unfold ProcessMesh
  rw [hv]
  simp only [hp, ok_bind]
  by_cases h2 : p.2 = true
  · simp [h2]
  · simp only [h2, Bool.false_eq_true, if_false, iff_false, not_exists]
    intro m' hm
    cases ht : ProcessMesh.texcoords K pMesh.mNumVertices K.AI_MAX_NUMBER_OF_TEXTURECOORDS 0
      pMesh.mTextureCoords false with
    | error e => rw [ht] at hm; cases hm
    | ok t =>
      rw [ht, ok_bind] at hm
      have := ProcessMesh.attributes_code K _ _ _ _ hm
      omega

/-- With positions present, one per vertex, `ProcessMesh` returns 2 exactly
when the positions fail validation. -/
theorem ProcessMesh_two_iff_fails (K : Constants) (pMesh : aiMesh) (arr : List aiVector3D)
    (hv : pMesh.mVertices = some arr) (hn : arr.length = pMesh.mNumVertices) :
    (∃ m', ProcessMesh K pMesh = .ok (2, m')) ↔ failsValidation arr := by
  obtain ⟨⟨r, hr⟩, hiff⟩ := ValidateArrayContents.nil_spec arr pMesh.mNumVertices hn
  rw [ProcessMesh_two_iff K pMesh arr hv _ (ProcessArray_of_validate _ _ _ r hr)]
  unfold failsValidation
  rw [← hiff, hr]
  cases r <;> simp

/-- C4. For a mesh whose positions array is present (with one element per
vertex), `ProcessMesh` returns 2 if and only if some position has a
non-finite component or no two positions differ, whatever the faces and the
primitive type bitset of the mesh are. -/
theorem C4_ProcessMesh_unusable_iff (K : Constants) (pMesh : aiMesh) (arr : List aiVector3D)
    (hv : pMesh.mVertices = some arr) (hn : arr.length = pMesh.mNumVertices) :
    (∃ m', ProcessMesh K pMesh = .ok (2, m')) ↔
      ((∃ v ∈ arr, is_special_float v.x = true ∨ is_special_float v.y = true ∨
          is_special_float v.z = true) ∨
        ∀ u ∈ arr, ∀ v ∈ arr, u.ne v = false) := by
  have hsp : (∃ v ∈ arr, is_special_float v.x = true ∨ is_special_float v.y = true ∨
      is_special_float v.z = true) ↔ ∃ v ∈ arr, v.hasNonFinite = true := by
    simp only [aiVector3D.hasNonFinite, Bool.or_eq_true, or_assoc]
  rw [hsp]
  exact ProcessMesh_two_iff_fails K pMesh arr hv hn

/-- Witness of C4: the mesh with the three positions `(0,0,0)`, `(1,0,0)`,
`(NaN,0,0)` is reported unusable. -/
theorem C4_ProcessMesh_unusable_iff_witness :
    ∃ m', ProcessMesh assimpConstants
      { mPrimitiveTypes := 4, mNumVertices := 3,
        mVertices := some
          [⟨.finite false 0, .finite false 0, .finite false 0⟩,
           ⟨.finite false 1, .finite false 0, .finite false 0⟩,
           ⟨.nan, .finite false 0, .finite false 0⟩],
        mNormals := none, mTangents := none, mBitangents := none,
        mTextureCoords := [none, none, none, none],
        mFaces := [⟨[0, 1, 2]⟩] } = .ok (2, m') :=
  (C4_ProcessMesh_unusable_iff assimpConstants _ _ rfl rfl).mpr
    (Or.inl ⟨⟨.nan, .finite false 0, .finite false 0⟩, by simp, Or.inl rfl⟩)

/-! ## The texture coordinate loop of ProcessMesh -/

theorem wr_eq_ok {α : Type} (xs ys : List α) (i : Nat) (v : α) (h : wr xs i v = .ok ys) :
    i < xs.length ∧ ys = xs.set i v := by
  unfold wr at h
  split at h
  · cases h; exact ⟨by assumption, rfl⟩
  · cases h

/-- The loop of lines 312-315 sets the entries `a`, ..., `a + k - 1` to null
and leaves the others. -/
theorem ProcessMesh.subsequent_get :
    ∀ (k a : Nat) (tc tc' : List (Option (List aiVector3D))),
      ProcessMesh.subsequent k a tc = .ok tc' →
      tc'.length = tc.length ∧
      ∀ l, tc'[l]? = if a ≤ l ∧ l < a + k then some none else tc[l]? := by
  intro k
  induction k with
  | zero =>
    intro a tc tc' h
    rw [ProcessMesh.subsequent] at h
    cases h
    refine ⟨rfl, fun l => ?_⟩
    rw [if_neg (by omega)]
  | succ k ih =>
    intro a tc tc' h
    rw [ProcessMesh.subsequent] at h
    cases hw : wr tc a none with
    | error e => rw [hw] at h; cases h
    | ok tc1 =>
      rw [hw, ok_bind] at h
      obtain ⟨ha, rfl⟩ := wr_eq_ok _ _ _ _ hw
      obtain ⟨hl, hg⟩ := ih (a + 1) _ tc' h
      refine ⟨by rw [hl, List.length_set], fun l => ?_⟩
      rw [hg l, List.getElem?_set]
      by_cases h1 : a = l
      · subst h1
        simp [ha]
      · by_cases h2 : a + 1 ≤ l ∧ l < a + 1 + k
        · rw [if_pos h2, if_pos (by omega)]
        · rw [if_neg h2, if_neg h1, if_neg (by omega)]

/-- The loop of lines 312-315 stays inside a table with `a + k` entries. -/
theorem ProcessMesh.subsequent_total :
    ∀ (k a : Nat) (tc : List (Option (List aiVector3D))), a + k ≤ tc.length →
      ∃ tc', ProcessMesh.subsequent k a tc = .ok tc' := by
  intro k
  induction k with
  | zero => intro a tc _; exact ⟨tc, by rw [ProcessMesh.subsequent]⟩
  | succ k ih =>
    intro a tc h
    rw [ProcessMesh.subsequent, wr_of_lt _ _ _ (by omega), ok_bind]
    exact ih (a + 1) _ (by rw [List.length_set]; omega)

/-- The loop over the texture coordinate sets stops at a null entry. -/
theorem ProcessMesh.texcoords_stop (K : Constants) (n k i : Nat)
    (tc : List (Option (List aiVector3D))) (ret : Bool)
    (h : k = 0 ∨ tc[i]? = some none) :
    ProcessMesh.texcoords K n k i tc ret = .ok (tc, ret) := by
  cases k with
  | zero => rw [ProcessMesh.texcoords]
  | succ k =>
    have hi : tc[i]? = some none := by
      rcases h with h | h
      · omega
      · exact h
    have hrd : rd tc i = .ok none := by
      unfold rd
      rw [hi]
    rw [ProcessMesh.texcoords, hrd, ok_bind]

/-- What a run of the loop of lines 306-318 from index `i` does: either it
accepts the sets `i`, ..., `j - 1` and stops at `j` (a null entry or the end
of the table) without a change, or it accepts the sets `i`, ..., `j - 1`,
rejects the set `j`, and deletes the sets `j`, ..., up to the end. -/
theorem ProcessMesh.texcoords_run (K : Constants) (n : Nat) :
    ∀ (k i : Nat) (tc : List (Option (List aiVector3D))) (ret : Bool)
      (tc' : List (Option (List aiVector3D))) (ret' : Bool),
      i + k = K.AI_MAX_NUMBER_OF_TEXTURECOORDS →
      ProcessMesh.texcoords K n k i tc ret = .ok (tc', ret') →
      (∃ j, i ≤ j ∧ j ≤ K.AI_MAX_NUMBER_OF_TEXTURECOORDS ∧
        (j < K.AI_MAX_NUMBER_OF_TEXTURECOORDS → tc[j]? = some none) ∧
        (∀ l, i ≤ l → l < j →
          ∃ a, tc[l]? = some (some a) ∧ ValidateArrayContents a n [] = .ok none) ∧
        tc' = tc ∧ ret' = ret) ∨
      (∃ j a msg, i ≤ j ∧ j < K.AI_MAX_NUMBER_OF_TEXTURECOORDS ∧
        (∀ l, i ≤ l → l < j →
          ∃ b, tc[l]? = some (some b) ∧ ValidateArrayContents b n [] = .ok none) ∧
        tc[j]? = some (some a) ∧ ValidateArrayContents a n [] = .ok (some msg) ∧
        ret' = true ∧ tc'.length = tc.length ∧
        (∀ l, l < j → tc'[l]? = tc[l]?) ∧
        (∀ l, j ≤ l → l < K.AI_MAX_NUMBER_OF_TEXTURECOORDS → tc'[l]? = some none) ∧
        (∀ l, K.AI_MAX_NUMBER_OF_TEXTURECOORDS ≤ l → tc'[l]? = tc[l]?)) := by
  intro k
  induction k with
  | zero =>
    intro i tc ret tc' ret' hk h
    rw [ProcessMesh.texcoords] at h
    cases h
    exact Or.inl ⟨i, Nat.le_refl i, by omega, fun hlt => by omega, fun l h1 h2 => by omega,
      rfl, rfl⟩
  | succ k ih =>
    intro i tc ret tc' ret' hk h
    rw [ProcessMesh.texcoords] at h
    cases hrd : rd tc i with
    | error e => rw [hrd] at h; cases h
    | ok p =>
      rw [hrd, ok_bind] at h
      have hp := rd_eq_ok _ _ _ hrd
      cases p with
      | none =>
        cases h
        exact Or.inl ⟨i, Nat.le_refl i, by omega, fun _ => hp, fun l h1 h2 => by omega,
          rfl, rfl⟩
      | some arr =>
        simp only at h
        cases hpa : ProcessArray arr n [] with
        | error e => rw [hpa] at h; cases h
        | ok r =>
          rw [hpa, ok_bind] at h
          rcases ProcessArray_cases _ _ _ _ hpa with ⟨rfl, msg, hmsg⟩ | ⟨rfl, hacc⟩
          · simp only [if_true] at h
            cases hw : wr tc i none with
            | error e => rw [hw] at h; cases h
            | ok tc1 =>
              rw [hw, ok_bind] at h
              obtain ⟨hi, rfl⟩ := wr_eq_ok _ _ _ _ hw
              cases hsub : ProcessMesh.subsequent
                  (K.AI_MAX_NUMBER_OF_TEXTURECOORDS - (i + 1)) (i + 1) (tc.set i none) with
              | error e => rw [hsub] at h; cases h
              | ok tc2 =>
                rw [hsub, ok_bind] at h
                obtain ⟨hl2, hg2⟩ := ProcessMesh.subsequent_get _ _ _ _ hsub
                have hstop : k = 0 ∨ tc2[i + 1]? = some none := by
                  by_cases hk0 : k = 0
                  · exact Or.inl hk0
                  · right
                    rw [hg2, if_pos (by omega)]
                rw [ProcessMesh.texcoords_stop K n k (i + 1) tc2 true hstop] at h
                cases h
                refine Or.inr ⟨i, arr, msg, Nat.le_refl i, by omega, fun l h1 h2 => by omega,
                  hp, hmsg, rfl, by rw [hl2, List.length_set], fun l hl => ?_, fun l h1 h2 => ?_,
                  fun l hl => ?_⟩
                · rw [hg2, if_neg (by omega), List.getElem?_set, if_neg (by omega)]
                · rw [hg2]
                  by_cases hli : l = i
                  · subst hli
                    rw [if_neg (by omega), List.getElem?_set]
                    simp [hi]
                  · rw [if_pos (by omega)]
                · rw [hg2, if_neg (by omega), List.getElem?_set, if_neg (by omega)]
          · simp only [Bool.false_eq_true, if_false] at h
            rcases ih (i + 1) tc ret tc' ret' (by omega) h with
              ⟨j, h1, h2, h3, h4, h5, h6⟩ | ⟨j, a, msg, h1, h2, h3, h4, h5, h6, h7, h8, h9, h10⟩
            · refine Or.inl ⟨j, by omega, h2, h3, fun l hl1 hl2 => ?_, h5, h6⟩
              by_cases hli : l = i
              · subst hli
                exact ⟨arr, hp, hacc⟩
              · exact h4 l (by omega) hl2
            · refine Or.inr ⟨j, a, msg, by omega, h2, fun l hl1 hl2 => ?_, h4, h5, h6, h7, h8,
                h9, h10⟩
              by_cases hli : l = i
              · subst hli
                exact ⟨arr, hp, hacc⟩
              · exact h3 l (by omega) hl2

/-- The loop of lines 306-318 ends without indexing outside the arrays when
the table has `AI_MAX_NUMBER_OF_TEXTURECOORDS` entries and every set has one
element per vertex. -/
theorem ProcessMesh.texcoords_total (K : Constants) (n : Nat) :
    ∀ (k i : Nat) (tc : List (Option (List aiVector3D))) (ret : Bool),
      i + k = K.AI_MAX_NUMBER_OF_TEXTURECOORDS →
      tc.length = K.AI_MAX_NUMBER_OF_TEXTURECOORDS →
      (∀ a, some a ∈ tc → a.length = n) →
      ∃ r, ProcessMesh.texcoords K n k i tc ret = .ok r := by
  intro k
  induction k with
  | zero => intro i tc ret _ _ _; exact ⟨_, by rw [ProcessMesh.texcoords]⟩
  | succ k ih =>
    intro i tc ret hk hlen hwf
    have hi : i < tc.length := by omega
    rw [ProcessMesh.texcoords, rd_of_lt _ _ hi, ok_bind]
    cases hp : tc[i] with
    | none => exact ⟨_, rfl⟩
    | some arr =>
      simp only
      have hmem : some arr ∈ tc := by rw [← hp]; exact List.getElem_mem _
      obtain ⟨r, hr⟩ := ProcessArray_total arr n [] (by rw [hwf arr hmem]) (Or.inl rfl)
      rw [hr, ok_bind]
      rcases ProcessArray_cases _ _ _ _ hr with ⟨rfl, _⟩ | ⟨rfl, _⟩
      · simp only [if_true]
        rw [wr_of_lt _ _ _ hi, ok_bind]
        obtain ⟨tc2, hsub⟩ := ProcessMesh.subsequent_total
          (K.AI_MAX_NUMBER_OF_TEXTURECOORDS - (i + 1)) (i + 1) (tc.set i none)
          (by rw [List.length_set]; omega)
        rw [hsub, ok_bind]
        obtain ⟨_, hg2⟩ := ProcessMesh.subsequent_get _ _ _ _ hsub
        have hstop : k = 0 ∨ tc2[i + 1]? = some none := by
          by_cases hk0 : k = 0
          · exact Or.inl hk0
          · right
            rw [hg2, if_pos (by omega)]
        exact ⟨_, ProcessMesh.texcoords_stop K n k (i + 1) tc2 true hstop⟩
      · simp only [Bool.false_eq_true, if_false]
        exact ih (i + 1) tc ret (by omega) hlen hwf

/-! ## The lookup table of ProcessMesh -/

theorem getD_set_true (dirtyMask : List Bool) (j i : Nat) (hj : j < dirtyMask.length) :
    (dirtyMask.set j true).getD i false = (i == j || dirtyMask.getD i false) := by
  simp only [List.getD_eq_getElem?_getD, List.getElem?_set, hj, if_true]
  by_cases h : j = i
  · subst h; simp
  · have h2 : (i == j) = false := by
      simp only [beq_eq_false_iff_ne, ne_eq]
      exact fun e => h e.symm
    simp [h, h2]

/-- The loop of lines 336-344 keeps the size of the lookup table and marks
exactly the vertices of the line and point faces. -/
theorem ProcessMesh.faces_sound :
    ∀ (fs : List aiFace) (dirtyMask dirtyMask' : List Bool),
      ProcessMesh.faces fs dirtyMask = .ok dirtyMask' →
      dirtyMask'.length = dirtyMask.length ∧
      ∀ i, dirtyMask'.getD i false = (dirtyMask.getD i false || marked fs i) := by
  intro fs
  induction fs with
  | nil =>
    intro dm dm' h
    rw [ProcessMesh.faces] at h
    cases h
    exact ⟨rfl, fun i => by simp [marked]⟩
  | cons f fs ih =>
    intro dm dm' h
    rw [ProcessMesh.faces] at h
    by_cases h2b : (2 == f.mNumIndices) = true
    · have h2 : 2 = f.mNumIndices := by simpa using h2b
      rw [if_pos h2b] at h
      obtain ⟨i0, i1, hf⟩ : ∃ i0 i1, f.mIndices = [i0, i1] := by
        have : f.mIndices.length = 2 := h2.symm
        match hm : f.mIndices, this with
        | [a, b], _ => exact ⟨a, b, rfl⟩
      have hr0 : rd f.mIndices 0 = .ok i0 := by rw [hf]; rfl
      have hr1 : rd f.mIndices 1 = .ok i1 := by rw [hf]; rfl
      rw [hr0, ok_bind, hr1, ok_bind] at h
      cases hw1 : wr dm i1 true with
      | error e => rw [hw1] at h; cases h
      | ok dm1 =>
        rw [hw1, ok_bind] at h
        obtain ⟨hb1, rfl⟩ := wr_eq_ok _ _ _ _ hw1
        cases hw0 : wr (dm.set i1 true) i0 true with
        | error e => rw [hw0] at h; cases h
        | ok dm2 =>
          rw [hw0, ok_bind] at h
          obtain ⟨hb0, rfl⟩ := wr_eq_ok _ _ _ _ hw0
          obtain ⟨hl, hg⟩ := ih _ _ h
          refine ⟨by rw [hl, List.length_set, List.length_set], fun i => ?_⟩
          rw [hg i, getD_set_true _ _ _ hb0, getD_set_true _ _ _ hb1]
          simp only [marked, List.any_cons, aiFace.mNumIndices, hf, List.length_cons,
            List.length_nil, List.contains_cons, List.contains_nil]
          cases (i == i0) <;> cases (i == i1) <;> cases dm.getD i false <;> simp
    · have h2 : ¬ 2 = f.mNumIndices := by simpa using h2b
      rw [if_neg h2b] at h
      by_cases h1b : (1 == f.mNumIndices) = true
      · have h1 : 1 = f.mNumIndices := by simpa using h1b
        rw [if_pos h1b] at h
        obtain ⟨i0, hf⟩ : ∃ i0, f.mIndices = [i0] := by
          have : f.mIndices.length = 1 := h1.symm
          match hm : f.mIndices, this with
          | [a], _ => exact ⟨a, rfl⟩
        have hr0 : rd f.mIndices 0 = .ok i0 := by rw [hf]; rfl
        rw [hr0, ok_bind] at h
        cases hw0 : wr dm i0 true with
        | error e => rw [hw0] at h; cases h
        | ok dm1 =>
          rw [hw0, ok_bind] at h
          obtain ⟨hb0, rfl⟩ := wr_eq_ok _ _ _ _ hw0
          obtain ⟨hl, hg⟩ := ih _ _ h
          refine ⟨by rw [hl, List.length_set], fun i => ?_⟩
          rw [hg i, getD_set_true _ _ _ hb0]
          simp only [marked, List.any_cons, aiFace.mNumIndices, hf, List.length_cons,
            List.length_nil, List.contains_cons, List.contains_nil]
          cases (i == i0) <;> cases dm.getD i false <;> simp
      · have h1 : ¬ 1 = f.mNumIndices := by simpa using h1b
        rw [if_neg h1b] at h
        obtain ⟨hl, hg⟩ := ih _ _ h
        refine ⟨hl, fun i => ?_⟩
        rw [hg i]
        have hno : (f.mNumIndices == 2 || f.mNumIndices == 1) = false := by
          simp only [Bool.or_eq_false_iff, beq_eq_false_iff_ne, ne_eq]
          exact ⟨fun e => h2 e.symm, fun e => h1 e.symm⟩
        simp [marked, List.any_cons, hno]

/-- The loop of lines 336-344 ends without indexing outside the lookup table
when the vertex indices of the faces are below its size. -/
theorem ProcessMesh.faces_total :
    ∀ (fs : List aiFace) (dirtyMask : List Bool),
      (∀ f ∈ fs, ∀ i ∈ f.mIndices, i < dirtyMask.length) →
      ∃ dirtyMask', ProcessMesh.faces fs dirtyMask = .ok dirtyMask' := by
  intro fs
  induction fs with
  | nil => intro dm _; exact ⟨dm, by rw [ProcessMesh.faces]⟩
  | cons f fs ih =>
    intro dm hwf
    have hfs : ∀ (dm' : List Bool), dm'.length = dm.length →
        ∀ g ∈ fs, ∀ i ∈ g.mIndices, i < dm'.length := fun dm' hl g hg i hi => by
      rw [hl]; exact hwf g (List.mem_cons_of_mem _ hg) i hi
    rw [ProcessMesh.faces]
    by_cases h2b : (2 == f.mNumIndices) = true
    · have h2 : 2 = f.mNumIndices := by simpa using h2b
      rw [if_pos h2b]
      obtain ⟨i0, i1, hf⟩ : ∃ i0 i1, f.mIndices = [i0, i1] := by
        have : f.mIndices.length = 2 := h2.symm
        match hm : f.mIndices, this with
        | [a, b], _ => exact ⟨a, b, rfl⟩
      have hr0 : rd f.mIndices 0 = .ok i0 := by rw [hf]; rfl
      have hr1 : rd f.mIndices 1 = .ok i1 := by rw [hf]; rfl
      have hb0 : i0 < dm.length := hwf f (List.mem_cons_self _ _) i0 (by rw [hf]; simp)
      have hb1 : i1 < dm.length := hwf f (List.mem_cons_self _ _) i1 (by rw [hf]; simp)
      rw [hr0, ok_bind, hr1, ok_bind, wr_of_lt _ _ _ hb1, ok_bind,
        wr_of_lt _ _ _ (by rw [List.length_set]; exact hb0), ok_bind]
      exact ih _ (hfs _ (by rw [List.length_set, List.length_set]))
    · rw [if_neg h2b]
      by_cases h1b : (1 == f.mNumIndices) = true
      · have h1 : 1 = f.mNumIndices := by simpa using h1b
        rw [if_pos h1b]
        obtain ⟨i0, hf⟩ : ∃ i0, f.mIndices = [i0] := by
          have : f.mIndices.length = 1 := h1.symm
          match hm : f.mIndices, this with
          | [a], _ => exact ⟨a, rfl⟩
        have hr0 : rd f.mIndices 0 = .ok i0 := by rw [hf]; rfl
        have hb0 : i0 < dm.length := hwf f (List.mem_cons_self _ _) i0 (by rw [hf]; simp)
        rw [hr0, ok_bind, wr_of_lt _ _ _ hb0, ok_bind]
        exact ih _ (hfs _ (by rw [List.length_set]))
      · rw [if_neg h1b]
        exact ih _ (hfs _ rfl)

/-- What lines 328-347 produce: no table when the mesh has point or line
primitives only; the empty table when it has none; otherwise a table with
one entry per vertex that marks the vertices of the line and point faces. -/
theorem ProcessMesh.lookup_sound (K : Constants) (pMesh : aiMesh) (t : Option (List Bool))
    (h : ProcessMesh.lookup K pMesh = .ok t) :
    (t = none ∧ pMesh.hasPointOrLine K = true ∧ pMesh.hasTriangleOrPolygon K = false) ∨
    (t = some [] ∧ pMesh.hasPointOrLine K = false) ∨
    (∃ dirtyMask, t = some dirtyMask ∧ pMesh.hasPointOrLine K = true ∧
      pMesh.hasTriangleOrPolygon K = true ∧ dirtyMask.length = pMesh.mNumVertices ∧
      ∀ i, dirtyMask.getD i false = marked pMesh.mFaces i) := by
  unfold ProcessMesh.lookup at h
  by_cases hpl : pMesh.hasPointOrLine K = true
  · have hpl2 := hpl
    unfold aiMesh.hasPointOrLine at hpl2
    rw [if_pos hpl2] at h
    by_cases htp : pMesh.hasTriangleOrPolygon K = true
    · have htp2 := htp
      unfold aiMesh.hasTriangleOrPolygon at htp2
      rw [if_pos htp2] at h
      cases hf : ProcessMesh.faces pMesh.mFaces (resize [] pMesh.mNumVertices false) with
      | error e => rw [hf] at h; cases h
      | ok dm =>
        rw [hf, ok_bind] at h
        cases h
        obtain ⟨hl, hg⟩ := ProcessMesh.faces_sound _ _ _ hf
        refine Or.inr (Or.inr ⟨dm, rfl, hpl, htp, ?_, fun i => ?_⟩)
        · rw [hl]; simp [resize]
        · have h0 : (resize [] pMesh.mNumVertices false).getD i false = false := by
            simp only [resize, List.take_nil, List.length_nil, Nat.sub_zero, List.nil_append,
              List.getD_eq_getElem?_getD, List.getElem?_replicate]
            split <;> rfl
          rw [hg i, h0, Bool.false_or]
    · have htp2 := htp
      unfold aiMesh.hasTriangleOrPolygon at htp2
      rw [if_neg htp2] at h
      cases h
      exact Or.inl ⟨rfl, hpl, by simpa using htp⟩
  · have hpl2 := hpl
    unfold aiMesh.hasPointOrLine at hpl2
    rw [if_neg hpl2] at h
    cases h
    exact Or.inr (Or.inl ⟨rfl, by simpa using hpl⟩)

/-- Lines 328-347 end without indexing outside the lookup table when the
vertex indices of the faces are below `mNumVertices`. -/
theorem ProcessMesh.lookup_total (K : Constants) (pMesh : aiMesh)
    (hwf : ∀ f ∈ pMesh.mFaces, ∀ i ∈ f.mIndices, i < pMesh.mNumVertices) :
    ∃ t, ProcessMesh.lookup K pMesh = .ok t := by
  unfold ProcessMesh.lookup
  split
  · split
    · obtain ⟨dm, hdm⟩ := ProcessMesh.faces_total pMesh.mFaces
        (resize [] pMesh.mNumVertices false) (by simpa [resize] using hwf)
      rw [hdm, ok_bind]
      exact ⟨_, rfl⟩
    · exact ⟨_, rfl⟩
  · exact ⟨_, rfl⟩

/-- A vertex that the lookup table exempts is an exempted vertex of the mesh. -/
theorem ProcessMesh.lookup_exempt (K : Constants) (pMesh : aiMesh) (dirtyMask : List Bool)
    (h : ProcessMesh.lookup K pMesh = .ok (some dirtyMask)) (i : Nat)
    (hi : pMesh.exemptVertex K i = false) : exempt dirtyMask i = false := by
  rcases ProcessMesh.lookup_sound K pMesh _ h with ⟨h1, _⟩ | ⟨h1, _⟩ | ⟨dm, h1, hpl, _, _, hg⟩
  · cases h1
  · cases h1
    simp [exempt]
  · cases h1
    simp only [aiMesh.exemptVertex, hpl, Bool.true_and] at hi
    unfold exempt
    rw [hg i, hi, Bool.and_false]

/-! ## Normals, tangents and bitangents -/

/-- Lines 350-352: the normals are deleted, or they were accepted by
`ValidateArrayContents` and nothing changes. -/
theorem ProcessMesh.normals_fields (dirtyMask : List Bool) (m : aiMesh) (ret : Bool)
    (m' : aiMesh) (ret' : Bool) (h : ProcessMesh.normals dirtyMask m ret = .ok (m', ret')) :
    m'.sameFrame m ∧ m'.mTangents = m.mTangents ∧ m'.mBitangents = m.mBitangents ∧
    ((m'.mNormals = none ∧ ret' = true) ∨
      (m' = m ∧ ret' = ret ∧
        ∀ a, m.mNormals = some a → ValidateArrayContents a m.mNumVertices dirtyMask = .ok none)) := by
  unfold ProcessMesh.normals at h
  split at h
  · rename_i hn
    cases h
    exact ⟨⟨rfl, rfl, rfl, rfl, rfl⟩, rfl, rfl, Or.inr ⟨rfl, rfl, fun a ha => by
      rw [hn] at ha; cases ha⟩⟩
  · rename_i arr hn
    cases hp : ProcessArray arr m.mNumVertices dirtyMask with
    | error e => rw [hp] at h; cases h
    | ok r =>
      rw [hp, ok_bind] at h
      rcases ProcessArray_cases _ _ _ _ hp with ⟨rfl, _⟩ | ⟨rfl, hacc⟩
      · simp only [if_true] at h
        cases h
        exact ⟨⟨rfl, rfl, rfl, rfl, rfl⟩, rfl, rfl, Or.inl ⟨rfl, rfl⟩⟩
      · simp only [Bool.false_eq_true, if_false] at h
        cases h
        exact ⟨⟨rfl, rfl, rfl, rfl, rfl⟩, rfl, rfl, Or.inr ⟨rfl, rfl, fun a ha => by
          rw [hn] at ha; cases ha; exact hacc⟩⟩

/-- Lines 355-360: tangents and bitangents are both deleted, or the
tangents were accepted by `ValidateArrayContents` and nothing changes. -/
theorem ProcessMesh.tangents_fields (dirtyMask : List Bool) (m : aiMesh) (ret : Bool)
    (m' : aiMesh) (ret' : Bool) (h : ProcessMesh.tangents dirtyMask m ret = .ok (m', ret')) :
    m'.sameFrame m ∧ m'.mNormals = m.mNormals ∧
    ((m'.mTangents = none ∧ m'.mBitangents = none ∧ ret' = true) ∨
      (m' = m ∧ ret' = ret ∧
        ∀ a, m.mTangents = some a → ValidateArrayContents a m.mNumVertices dirtyMask = .ok none)) := by
  unfold ProcessMesh.tangents at h
  split at h
  · rename_i hn
    cases h
    exact ⟨⟨rfl, rfl, rfl, rfl, rfl⟩, rfl, Or.inr ⟨rfl, rfl, fun a ha => by
      rw [hn] at ha; cases ha⟩⟩
  · rename_i arr hn
    cases hp : ProcessArray arr m.mNumVertices dirtyMask with
    | error e => rw [hp] at h; cases h
    | ok r =>
      rw [hp, ok_bind] at h
      rcases ProcessArray_cases _ _ _ _ hp with ⟨rfl, _⟩ | ⟨rfl, hacc⟩
      · simp only [if_true] at h
        cases h
        exact ⟨⟨rfl, rfl, rfl, rfl, rfl⟩, rfl, Or.inl ⟨rfl, rfl, rfl⟩⟩
      · simp only [Bool.false_eq_true, if_false] at h
        cases h
        exact ⟨⟨rfl, rfl, rfl, rfl, rfl⟩, rfl, Or.inr ⟨rfl, rfl, fun a ha => by
          rw [hn] at ha; cases ha; exact hacc⟩⟩

/-- Lines 363-368: bitangents and tangents are both deleted, or the
bitangents were accepted by `ValidateArrayContents` and nothing changes. -/
theorem ProcessMesh.bitangents_fields (dirtyMask : List Bool) (m : aiMesh) (ret : Bool)
    (m' : aiMesh) (ret' : Bool) (h : ProcessMesh.bitangents dirtyMask m ret = .ok (m', ret')) :
    m'.sameFrame m ∧ m'.mNormals = m.mNormals ∧
    ((m'.mTangents = none ∧ m'.mBitangents = none ∧ ret' = true) ∨
      (m' = m ∧ ret' = ret ∧
        ∀ a, m.mBitangents = some a →
          ValidateArrayContents a m.mNumVertices dirtyMask = .ok none)) := by
  unfold ProcessMesh.bitangents at h
  split at h
  · rename_i hn
    cases h
    exact ⟨⟨rfl, rfl, rfl, rfl, rfl⟩, rfl, Or.inr ⟨rfl, rfl, fun a ha => by
      rw [hn] at ha; cases ha⟩⟩
  · rename_i arr hn
    cases hp : ProcessArray arr m.mNumVertices dirtyMask with
    | error e => rw [hp] at h; cases h
    | ok r =>
      rw [hp, ok_bind] at h
      rcases ProcessArray_cases _ _ _ _ hp with ⟨rfl, _⟩ | ⟨rfl, hacc⟩
      · simp only [if_true] at h
        cases h
        exact ⟨⟨rfl, rfl, rfl, rfl, rfl⟩, rfl, Or.inl ⟨rfl, rfl, rfl⟩⟩
      · simp only [Bool.false_eq_true, if_false] at h
        cases h
        exact ⟨⟨rfl, rfl, rfl, rfl, rfl⟩, rfl, Or.inr ⟨rfl, rfl, fun a ha => by
          rw [hn] at ha; cases ha; exact hacc⟩⟩

/-- An array accepted by `ValidateArrayContents` under the lookup table of
the mesh is finite at every vertex that is not exempted. -/
theorem finite_of_accepted (K : Constants) (m : aiMesh) (dirtyMask : List Bool)
    (hl : ProcessMesh.lookup K m = .ok (some dirtyMask)) (a : List aiVector3D)
    (h : ValidateArrayContents a m.mNumVertices dirtyMask = .ok none) :
    ∀ i, i < m.mNumVertices → m.exemptVertex K i = false → finiteAt a i := by
  intro i hi hex v hv
  exact ValidateArrayContents.loop_finite a dirtyMask m.mNumVertices 0 false h i (Nat.zero_le i)
    (by omega) (ProcessMesh.lookup_exempt K m dirtyMask hl i hex) v hv

/-- The three stages of lines 350-368 in sequence. -/
theorem ProcessMesh.stages_fields (dirtyMask : List Bool) (m : aiMesh) (ret : Bool)
    (r1 r2 r3 : aiMesh × Bool)
    (h1 : ProcessMesh.normals dirtyMask m ret = .ok r1)
    (h2 : ProcessMesh.tangents dirtyMask r1.1 r1.2 = .ok r2)
    (h3 : ProcessMesh.bitangents dirtyMask r2.1 r2.2 = .ok r3) :
    r3.1.sameFrame m ∧
    (r3.1.mNormals = none ∨ (r3.1.mNormals = m.mNormals ∧
      ∀ a, m.mNormals = some a → ValidateArrayContents a m.mNumVertices dirtyMask = .ok none)) ∧
    ((r3.1.mTangents = none ∧ r3.1.mBitangents = none) ∨
      (r3.1.mTangents = m.mTangents ∧ r3.1.mBitangents = m.mBitangents ∧
        (∀ a, m.mTangents = some a →
          ValidateArrayContents a m.mNumVertices dirtyMask = .ok none) ∧
        ∀ a, m.mBitangents = some a →
          ValidateArrayContents a m.mNumVertices dirtyMask = .ok none)) := by
  obtain ⟨m1, ret1⟩ := r1
  obtain ⟨m2, ret2⟩ := r2
  obtain ⟨m3, ret3⟩ := r3
  obtain ⟨⟨f1, f2, f3, f4, f5⟩, t1, b1, n1⟩ := ProcessMesh.normals_fields _ _ _ _ _ h1
  obtain ⟨⟨g1, g2, g3, g4, g5⟩, gn, tb2⟩ := ProcessMesh.tangents_fields _ _ _ _ _ h2
  obtain ⟨⟨k1, k2, k3, k4, k5⟩, kn, tb3⟩ := ProcessMesh.bitangents_fields _ _ _ _ _ h3
  simp only at f1 f2 f3 f4 f5 t1 b1 n1 g1 g2 g3 g4 g5 gn tb2 k1 k2 k3 k4 k5 kn tb3 ⊢
  refine ⟨⟨by rw [k1, g1, f1], by rw [k2, g2, f2], by rw [k3, g3, f3], by rw [k4, g4, f4],
    by rw [k5, g5, f5]⟩, ?_, ?_⟩
  · rcases n1 with ⟨hn, _⟩ | ⟨hm, _, hv⟩
    · exact Or.inl (by rw [kn, gn, hn])
    · exact Or.inr ⟨by rw [kn, gn, hm], hv⟩
  · rcases tb3 with ⟨ht, hb, _⟩ | ⟨hm3, _, hvb⟩
    · exact Or.inl ⟨ht, hb⟩
    · rcases tb2 with ⟨ht, hb, _⟩ | ⟨hm2, _, hvt⟩
      · exact Or.inl ⟨by rw [hm3, ht], by rw [hm3, hb]⟩
      · refine Or.inr ⟨by rw [hm3, hm2, t1], by rw [hm3, hm2, b1], fun a ha => ?_, fun a ha => ?_⟩
        · have := hvt a (by rw [t1]; exact ha)
          rw [f2] at this
          exact this
        · have := hvb a (by rw [hm2, b1]; exact ha)
          rw [g2, f2] at this
          exact this

/-- What lines 326-370 do to a mesh. -/
theorem ProcessMesh.attributes_sound (K : Constants) (m : aiMesh) (ret : Bool) (res : Int)
    (m' : aiMesh) (h : ProcessMesh.attributes K m ret = .ok (res, m')) :
    m'.sameFrame m ∧
    (m'.mNormals = none ∨ m'.mNormals = m.mNormals) ∧
    ((m'.mTangents = none ∧ m'.mBitangents = none) ∨
      (m'.mTangents = m.mTangents ∧ m'.mBitangents = m.mBitangents)) ∧
    ((m.hasPointOrLine K = true → m.hasTriangleOrPolygon K = true) →
      (∀ a, m'.mNormals = some a →
        ∀ i, i < m.mNumVertices → m.exemptVertex K i = false → finiteAt a i) ∧
      (∀ a, m'.mTangents = some a →
        ∀ i, i < m.mNumVertices → m.exemptVertex K i = false → finiteAt a i) ∧
      (∀ a, m'.mBitangents = some a → (m'.mNormals.isSome ∨ m'.mTangents.isSome) →
        ∀ i, i < m.mNumVertices → m.exemptVertex K i = false → finiteAt a i)) := by
  have same : ∀ (b : Bool), (Except.ok ((if b then 1 else 0 : Int), m) :
      Except Fault (Int × aiMesh)) = .ok (res, m') → m' = m := by
    intro b hb
    cases hb
    rfl
  unfold ProcessMesh.attributes at h
  by_cases hnt : (m.mNormals.isSome || m.mTangents.isSome) = true
  · rw [if_pos hnt] at h
    cases ht : ProcessMesh.lookup K m with
    | error e => rw [ht] at h; cases h
    | ok t =>
      rw [ht, ok_bind] at h
      cases t with
      | none =>
        have := same _ h
        subst this
        refine ⟨⟨rfl, rfl, rfl, rfl, rfl⟩, Or.inr rfl, Or.inr ⟨rfl, rfl⟩, fun hskip => ?_⟩
        rcases ProcessMesh.lookup_sound K m' _ ht with ⟨_, h1, h2⟩ | ⟨h1, _⟩ | ⟨dm, h1, _⟩
        · rw [hskip h1] at h2
          cases h2
        · cases h1
        · cases h1
      | some dirtyMask =>
        simp only at h
        cases h1 : ProcessMesh.normals dirtyMask m ret with
        | error e => rw [h1] at h; cases h
        | ok r1 =>
          rw [h1, ok_bind] at h
          cases h2 : ProcessMesh.tangents dirtyMask r1.1 r1.2 with
          | error e => rw [h2] at h; cases h
          | ok r2 =>
            rw [h2, ok_bind] at h
            cases h3 : ProcessMesh.bitangents dirtyMask r2.1 r2.2 with
            | error e => rw [h3] at h; cases h
            | ok r3 =>
              rw [h3, ok_bind] at h
              have hm : m' = r3.1 := by cases h; rfl
              subst hm
              obtain ⟨hf, hn, htb⟩ := ProcessMesh.stages_fields dirtyMask m ret r1 r2 r3 h1 h2 h3
              refine ⟨hf, hn.imp id (fun x => x.1), htb.imp id (fun x => ⟨x.1, x.2.1⟩),
                fun _ => ⟨fun a ha => ?_, fun a ha => ?_, fun a ha _ => ?_⟩⟩
              · rcases hn with hn | ⟨hn, hv⟩
                · rw [hn] at ha; cases ha
                · exact finite_of_accepted K m dirtyMask ht a (hv a (by rw [← hn]; exact ha))
              · rcases htb with ⟨ht2, _⟩ | ⟨ht2, _, hv, _⟩
                · rw [ht2] at ha; cases ha
                · exact finite_of_accepted K m dirtyMask ht a (hv a (by rw [← ht2]; exact ha))
              · rcases htb with ⟨_, hb2⟩ | ⟨_, hb2, _, hv⟩
                · rw [hb2] at ha; cases ha
                · exact finite_of_accepted K m dirtyMask ht a (hv a (by rw [← hb2]; exact ha))
  · rw [if_neg hnt] at h
    have := same _ h
    subst this
    simp only [Bool.or_eq_true, not_or, Bool.not_eq_true] at hnt
    refine ⟨⟨rfl, rfl, rfl, rfl, rfl⟩, Or.inr rfl, Or.inr ⟨rfl, rfl⟩, fun _ =>
      ⟨fun a ha => ?_, fun a ha => ?_, fun a _ hor => ?_⟩⟩
    · rw [ha] at hnt; simp at hnt
    · rw [ha] at hnt; simp at hnt
    · rcases hor with hor | hor
      · rw [hnt.1] at hor; cases hor
      · rw [hnt.2] at hor; cases hor

/-! ## ProcessMesh as a whole -/

/-- The two ways `ProcessMesh` returns: with 2 from line 302, after the
positions were rejected, or with 0 or 1 from lines 346 and 370, after the
positions (if any) were accepted. -/
theorem ProcessMesh_cases (K : Constants) (m : aiMesh) (res : Int) (m' : aiMesh)
    (h : ProcessMesh K m = .ok (res, m')) :
    (res = 2 ∧ m' = { m with mVertices := none } ∧
      ∃ arr msg, m.mVertices = some arr ∧
        ValidateArrayContents arr m.mNumVertices [] = .ok (some msg)) ∨
    (res ≠ 2 ∧
      (∀ arr, m.mVertices = some arr →
        ValidateArrayContents arr m.mNumVertices [] = .ok none) ∧
      ∃ t, ProcessMesh.texcoords K m.mNumVertices K.AI_MAX_NUMBER_OF_TEXTURECOORDS 0
          m.mTextureCoords false = .ok t ∧
        ProcessMesh.attributes K { m with mTextureCoords := t.1 } t.2 = .ok (res, m')) := by
  have rest : ∀ (hv : ∀ arr, m.mVertices = some arr →
        ValidateArrayContents arr m.mNumVertices [] = .ok none),
      ((ProcessMesh.texcoords K m.mNumVertices K.AI_MAX_NUMBER_OF_TEXTURECOORDS 0
          m.mTextureCoords false) >>= fun t =>
        ProcessMesh.attributes K { m with mTextureCoords := t.1 } t.2) = .ok (res, m') →
      (res ≠ 2 ∧
      (∀ arr, m.mVertices = some arr →
        ValidateArrayContents arr m.mNumVertices [] = .ok none) ∧
      ∃ t, ProcessMesh.texcoords K m.mNumVertices K.AI_MAX_NUMBER_OF_TEXTURECOORDS 0
          m.mTextureCoords false = .ok t ∧
        ProcessMesh.attributes K { m with mTextureCoords := t.1 } t.2 = .ok (res, m')) := by
    intro hv h
    cases ht : ProcessMesh.texcoords K m.mNumVertices K.AI_MAX_NUMBER_OF_TEXTURECOORDS 0
      m.mTextureCoords false with
    | error e => rw [ht] at h; cases h
    | ok t =>
      rw [ht, ok_bind] at h
      have := ProcessMesh.attributes_code K _ _ _ _ h
      exact ⟨by omega, hv, t, rfl, h⟩
  unfold ProcessMesh at h
  split at h
  · rename_i hn
    exact Or.inr (rest (fun arr ha => by rw [hn] at ha; cases ha) h)
  · rename_i arr hn
    cases hp : ProcessArray arr m.mNumVertices [] with
    | error e => rw [hp] at h; cases h
    | ok r =>
      rw [hp, ok_bind] at h
      rcases ProcessArray_cases _ _ _ _ hp with ⟨rfl, msg, hmsg⟩ | ⟨rfl, hacc⟩
      · simp only [if_true] at h
        cases h
        exact Or.inl ⟨rfl, rfl, arr, msg, hn, hmsg⟩
      · simp only [Bool.false_eq_true, if_false] at h
        exact Or.inr (rest (fun a ha => by rw [hn] at ha; cases ha; exact hacc) h)

theorem ProcessMesh.normals_total (dirtyMask : List Bool) (m : aiMesh) (ret : Bool)
    (ha : ∀ a, m.mNormals = some a → a.length = m.mNumVertices)
    (hm : dirtyMask = [] ∨ m.mNumVertices ≤ dirtyMask.length) :
    ∃ r, ProcessMesh.normals dirtyMask m ret = .ok r := by
  unfold ProcessMesh.normals
  split
  · exact ⟨_, rfl⟩
  · rename_i arr hn
    obtain ⟨r, hr⟩ := ProcessArray_total arr m.mNumVertices dirtyMask (by rw [ha arr hn]) hm
    rw [hr, ok_bind]
    split <;> exact ⟨_, rfl⟩

theorem ProcessMesh.tangents_total (dirtyMask : List Bool) (m : aiMesh) (ret : Bool)
    (ha : ∀ a, m.mTangents = some a → a.length = m.mNumVertices)
    (hm : dirtyMask = [] ∨ m.mNumVertices ≤ dirtyMask.length) :
    ∃ r, ProcessMesh.tangents dirtyMask m ret = .ok r := by
  unfold ProcessMesh.tangents
  split
  · exact ⟨_, rfl⟩
  · rename_i arr hn
    obtain ⟨r, hr⟩ := ProcessArray_total arr m.mNumVertices dirtyMask (by rw [ha arr hn]) hm
    rw [hr, ok_bind]
    split <;> exact ⟨_, rfl⟩

theorem ProcessMesh.bitangents_total (dirtyMask : List Bool) (m : aiMesh) (ret : Bool)
    (ha : ∀ a, m.mBitangents = some a → a.length = m.mNumVertices)
    (hm : dirtyMask = [] ∨ m.mNumVertices ≤ dirtyMask.length) :
    ∃ r, ProcessMesh.bitangents dirtyMask m ret = .ok r := by
  unfold ProcessMesh.bitangents
  split
  · exact ⟨_, rfl⟩
  · rename_i arr hn
    obtain ⟨r, hr⟩ := ProcessArray_total arr m.mNumVertices dirtyMask (by rw [ha arr hn]) hm
    rw [hr, ok_bind]
    split <;> exact ⟨_, rfl⟩

/-- Lines 326-370 end without indexing outside an array on a mesh with the
sizes the data model requires. -/
theorem ProcessMesh.attributes_total (K : Constants) (m : aiMesh) (ret : Bool)
    (hn : ∀ a, m.mNormals = some a → a.length = m.mNumVertices)
    (ht : ∀ a, m.mTangents = some a → a.length = m.mNumVertices)
    (hb : ∀ a, m.mBitangents = some a → a.length = m.mNumVertices)
    (hf : ∀ f ∈ m.mFaces, ∀ i ∈ f.mIndices, i < m.mNumVertices) :
    ∃ r, ProcessMesh.attributes K m ret = .ok r := by
  unfold ProcessMesh.attributes
  split
  · obtain ⟨t, hlk⟩ := ProcessMesh.lookup_total K m hf
    rw [hlk, ok_bind]
    cases t with
    | none => exact ⟨_, rfl⟩
    | some dirtyMask =>
      simp only
      have hm : dirtyMask = [] ∨ m.mNumVertices ≤ dirtyMask.length := by
        rcases ProcessMesh.lookup_sound K m _ hlk with ⟨h1, _⟩ | ⟨h1, _⟩ | ⟨dm, h1, _, _, hl, _⟩
        · cases h1
        · cases h1; exact Or.inl rfl
        · cases h1; exact Or.inr (by omega)
      obtain ⟨r1, h1⟩ := ProcessMesh.normals_total dirtyMask m ret hn hm
      obtain ⟨⟨_, f2, _, _, _⟩, t1, b1, _⟩ := ProcessMesh.normals_fields _ _ _ _ _ h1
      obtain ⟨r2, h2⟩ := ProcessMesh.tangents_total dirtyMask r1.1 r1.2
        (by rw [t1, f2]; exact ht) (by rw [f2]; exact hm)
      obtain ⟨⟨_, g2, _, _, _⟩, _, tb2⟩ := ProcessMesh.tangents_fields _ _ _ _ _ h2
      obtain ⟨r3, h3⟩ := ProcessMesh.bitangents_total dirtyMask r2.1 r2.2
        (by
          rcases tb2 with ⟨_, hb2, _⟩ | ⟨hm2, _⟩
          · intro a ha; rw [hb2] at ha; cases ha
          · rw [hm2, b1, f2]; exact hb)
        (by rw [g2, f2]; exact hm)
      rw [h1, ok_bind, h2, ok_bind, h3, ok_bind]
      exact ⟨_, rfl⟩
  · exact ⟨_, rfl⟩

/-- The function `ProcessMesh` returns, without indexing outside an array,
on every mesh with the sizes the data model requires. -/
theorem ProcessMesh_total (K : Constants) (m : aiMesh) (hwf : m.WellFormed K) :
    ∃ r, ProcessMesh K m = .ok r := by
  have rest : ∃ r, ((ProcessMesh.texcoords K m.mNumVertices K.AI_MAX_NUMBER_OF_TEXTURECOORDS 0
          m.mTextureCoords false) >>= fun t =>
        ProcessMesh.attributes K { m with mTextureCoords := t.1 } t.2) = .ok r := by
    obtain ⟨t, ht⟩ := ProcessMesh.texcoords_total K m.mNumVertices
      K.AI_MAX_NUMBER_OF_TEXTURECOORDS 0 m.mTextureCoords false (by omega) hwf.table
      (fun a ha => hwf.texcoords (some a) ha a rfl)
    rw [ht, ok_bind]
    exact ProcessMesh.attributes_total K _ _ hwf.normals hwf.tangents hwf.bitangents hwf.faces
  unfold ProcessMesh
  split
  · exact rest
  · rename_i arr hn
    obtain ⟨r, hr⟩ := ProcessArray_total arr m.mNumVertices []
      (by rw [hwf.vertices arr hn]) (Or.inl rfl)
    rw [hr, ok_bind]
    split
    · exact ⟨_, rfl⟩
    · exact rest

/-- A mesh that `ProcessMesh` does not report unusable is scrubbed, and its
vertex count, faces and primitive types are unchanged. -/
theorem ProcessMesh_scrubbed (K : Constants) (m : aiMesh) (res : Int) (m' : aiMesh)
    (h : ProcessMesh K m = .ok (res, m')) (hres : res ≠ 2) : m'.Scrubbed K := by
  rcases ProcessMesh_cases K m res m' h with ⟨h2, _⟩ | ⟨_, hv, t, ht, hat⟩
  · exact absurd h2 hres
  · obtain ⟨⟨f1, f2, f3, f4, f5⟩, hn, htb, hfin⟩ := ProcessMesh.attributes_sound K _ _ _ _ hat
    simp only at f1 f2 f3 f4 f5 hn htb
    have hpl : m'.hasPointOrLine K = aiMesh.hasPointOrLine K { m with mTextureCoords := t.1 } := by
      simp only [aiMesh.hasPointOrLine, f1]
    have htp : m'.hasTriangleOrPolygon K =
        aiMesh.hasTriangleOrPolygon K { m with mTextureCoords := t.1 } := by
      simp only [aiMesh.hasTriangleOrPolygon, f1]
    have hex : ∀ i, m'.exemptVertex K i =
        aiMesh.exemptVertex K { m with mTextureCoords := t.1 } i := by
      intro i
      simp only [aiMesh.exemptVertex, hpl, f5]
    have nil_finite : ∀ a, ValidateArrayContents a m.mNumVertices [] = .ok none →
        ∀ i, i < m'.mNumVertices → finiteAt a i := by
      intro a ha i hi v hv
      exact ValidateArrayContents.loop_finite a [] m.mNumVertices 0 false ha i (Nat.zero_le i)
        (by omega) (by simp [exempt]) v hv
    refine ⟨fun a ha => ?_, fun j a hj ha hlow => ?_, fun hs a ha i hi he => ?_,
      fun hs a ha i hi he => ?_, fun hs a ha hor i hi he => ?_⟩
    · rw [f3] at ha
      exact nil_finite a (hv a ha)
    · rw [f4] at ha hlow
      obtain ⟨tc', ret'⟩ := t
      rcases ProcessMesh.texcoords_run K m.mNumVertices _ 0 _ _ _ _ (by omega) ht with
        ⟨j', _, h2, h3, h4, h5, _⟩ | ⟨j', a', msg, _, h2, h3, h4, h5, _, _, h8, h9, _⟩
      · subst h5
        have hjj : j < j' := by
          by_contra hcon
          have hj' : j' < K.AI_MAX_NUMBER_OF_TEXTURECOORDS := by omega
          have hnone := h3 hj'
          by_cases hjeq : j' = j
          · subst hjeq
            rw [hnone] at ha
            cases ha
          · obtain ⟨b, hb⟩ := hlow j' (by omega)
            rw [hnone] at hb
            cases hb
        obtain ⟨b, hb, hacc⟩ := h4 j (Nat.zero_le j) hjj
        rw [hb] at ha
        cases ha
        exact nil_finite _ hacc
      · have hjj : j < j' := by
          by_contra hcon
          have hnone := h9 j' (Nat.le_refl j') h2
          by_cases hjeq : j' = j
          · subst hjeq
            rw [hnone] at ha
            cases ha
          · obtain ⟨b, hb⟩ := hlow j' (by omega)
            rw [hnone] at hb
            cases hb
        obtain ⟨b, hb, hacc⟩ := h3 j (Nat.zero_le j) hjj
        rw [h8 j hjj, hb] at ha
        cases ha
        exact nil_finite _ hacc
    · rw [hpl, htp] at hs
      rw [hex] at he
      exact (hfin hs).1 a ha i (by rw [← f2]; exact hi) he
    · rw [hpl, htp] at hs
      rw [hex] at he
      exact (hfin hs).2.1 a ha i (by rw [← f2]; exact hi) he
    · rw [hpl, htp] at hs
      rw [hex] at he
      exact (hfin hs).2.2 a ha hor i (by rw [← f2]; exact hi) he

/-- C7. On a mesh with the sizes the data model requires `ProcessMesh`
returns, and when it does not return 2: if `k` is the first texture
coordinate set, scanning from 0 while sets are present, that fails validation
(it has a non-finite component or is constant), then afterwards every set
with index `k` and above is absent, whether valid or not, and every set
with an index below `k` is unchanged. -/
theorem C7_texcoords_cascade (K : Constants) (m : aiMesh) (hwf : m.WellFormed K) (k : Nat)
    (hbefore : ∀ j, j < k → ∃ a, m.mTextureCoords[j]? = some (some a) ∧ ¬ failsValidation a)
    (hk : ∃ a, m.mTextureCoords[k]? = some (some a) ∧ failsValidation a) :
    ∃ res m', ProcessMesh K m = .ok (res, m') ∧
      (res ≠ 2 →
        (∀ j, k ≤ j → j < K.AI_MAX_NUMBER_OF_TEXTURECOORDS → m'.mTextureCoords[j]? = some none) ∧
        ∀ j, j < k → m'.mTextureCoords[j]? = m.mTextureCoords[j]?) := by
  obtain ⟨⟨res, m'⟩, h⟩ := ProcessMesh_total K m hwf
  refine ⟨res, m', h, fun hres => ?_⟩
  rcases ProcessMesh_cases K m res m' h with ⟨h2, _⟩ | ⟨_, _, ⟨tc', ret'⟩, ht, hat⟩
  · exact absurd h2 hres
  · obtain ⟨⟨_, _, _, f4, _⟩, _⟩ := ProcessMesh.attributes_sound K _ _ _ _ hat
    simp only at f4
    rw [f4]
    have verdict : ∀ (j : Nat) (a : List aiVector3D), m.mTextureCoords[j]? = some (some a) →
        ((∃ msg, ValidateArrayContents a m.mNumVertices [] = .ok (some msg)) ↔
          failsValidation a) := by
      intro j a ha
      exact (ValidateArrayContents.nil_spec a m.mNumVertices
        (hwf.texcoords (some a) (List.getElem?_mem ha) a rfl)).2
    obtain ⟨ak, hak, hfail⟩ := hk
    have hkrej := (verdict k ak hak).mpr hfail
    have hklt : k < K.AI_MAX_NUMBER_OF_TEXTURECOORDS := by
      have := (List.getElem?_eq_some.mp hak).1
      rw [hwf.table] at this
      exact this
    rcases ProcessMesh.texcoords_run K m.mNumVertices _ 0 _ _ _ _ (by omega) ht with
      ⟨j, _, _, h3, h4, _, _⟩ | ⟨j, a, msg, _, h2, h3, h4, h5, _, _, h8, h9, _⟩
    · exfalso
      by_cases hjk : j ≤ k
      · have hnone := h3 (by omega)
        by_cases hjeq : j = k
        · subst hjeq
          rw [hnone] at hak
          cases hak
        · obtain ⟨b, hb, _⟩ := hbefore j (by omega)
          rw [hnone] at hb
          cases hb
      · obtain ⟨b, hb, hacc⟩ := h4 k (Nat.zero_le k) (by omega)
        rw [hak] at hb
        cases hb
        obtain ⟨msg, hmsg⟩ := hkrej
        rw [hacc] at hmsg
        cases hmsg
    · have hjk : j = k := by
        by_contra hne
        by_cases hlt : j < k
        · obtain ⟨b, hb, hvalid⟩ := hbefore j hlt
          rw [h4] at hb
          cases hb
          exact hvalid ((verdict j a h4).mp ⟨msg, h5⟩)
        · obtain ⟨b, hb, hacc⟩ := h3 k (Nat.zero_le k) (by omega)
          rw [hak] at hb
          cases hb
          obtain ⟨msg', hmsg⟩ := hkrej
          rw [hacc] at hmsg
          cases hmsg
      subst hjk
      exact ⟨fun l h1 h2 => h9 l h1 h2, fun l hl => h8 l hl⟩

/-- Witness of C7: with the sets `[uv0 valid, uv1 constant, uv2 valid]` only
`uv0` is retained. -/
theorem C7_texcoords_cascade_witness :
    ProcessMesh assimpConstants cascadeMesh =
      .ok (1, { cascadeMesh with
        mTextureCoords := [some [vec 0 0 0, vec 1 1 0], none, none, none] }) ∧
    ∃ res m', ProcessMesh assimpConstants cascadeMesh = .ok (res, m') ∧
      (res ≠ 2 →
        (∀ j, 1 ≤ j → j < assimpConstants.AI_MAX_NUMBER_OF_TEXTURECOORDS →
          m'.mTextureCoords[j]? = some none) ∧
        ∀ j, j < 1 → m'.mTextureCoords[j]? = cascadeMesh.mTextureCoords[j]?) :=
  ⟨by decide, C7_texcoords_cascade assimpConstants cascadeMesh
    ⟨by decide, by decide, by decide, by decide, by decide, by decide, by decide⟩ 1
    (fun j hj => by
      have : j = 0 := by omega
      subst this
      exact ⟨[vec 0 0 0, vec 1 1 0], rfl, by
        unfold failsValidation
        decide⟩)
    ⟨[vec 5 5 0, vec 5 5 0], rfl, by
      unfold failsValidation
      decide⟩⟩

/-- C8. On a mesh with the sizes the data model requires `ProcessMesh`
returns; and whenever it returns: if the tangents were present before the
call and are absent after it, the bitangents are absent after it, and if
the bitangents were present before the call and are absent after it, the
tangents are absent after it. -/
theorem C8_tangents_bitangents_paired (K : Constants) (m : aiMesh) :
    (m.WellFormed K → ∃ r, ProcessMesh K m = .ok r) ∧
    ∀ res m', ProcessMesh K m = .ok (res, m') →
      (m.mTangents.isSome = true → m'.mTangents = none → m'.mBitangents = none) ∧
      (m.mBitangents.isSome = true → m'.mBitangents = none → m'.mTangents = none) := by
  refine ⟨ProcessMesh_total K m, fun res m' h => ?_⟩
  rcases ProcessMesh_cases K m res m' h with ⟨_, hm, _⟩ | ⟨_, _, t, _, hat⟩
  · subst hm
    constructor
    · intro h1 h2
      simp only at h2
      rw [h2] at h1
      cases h1
    · intro h1 h2
      simp only at h2
      rw [h2] at h1
      cases h1
  · obtain ⟨_, _, htb, _⟩ := ProcessMesh.attributes_sound K _ _ _ _ hat
    simp only at htb
    rcases htb with ⟨ht, hb⟩ | ⟨ht, hb⟩
    · exact ⟨fun _ _ => hb, fun _ _ => ht⟩
    · constructor
      · intro h1 h2
        rw [← ht, h2] at h1
        cases h1
      · intro h1 h2
        rw [← hb, h2] at h1
        cases h1

/-- Witness of C8: the constant tangents of the example are deleted, and
with them the bitangents, which would have passed validation on their own. -/
theorem C8_tangents_bitangents_paired_witness :
    ValidateArrayContents [vec 0 1 0, vec 0 2 0, vec 0 3 0] 3 [] = .ok none ∧
    ProcessMesh assimpConstants pairedMesh =
      .ok (1, { pairedMesh with mTangents := none, mBitangents := none }) ∧
    ({ pairedMesh with mTangents := none, mBitangents := none } : aiMesh).mBitangents = none :=
  ⟨by decide, by decide,
    ((C8_tangents_bitangents_paired assimpConstants pairedMesh).2 1
      { pairedMesh with mTangents := none, mBitangents := none } (by decide)).1
      (by decide) (by decide)⟩

/-! ## The mesh loop of Execute -/

theorem take_set_of_le {α : Type} (xs : List α) (i j : Nat) (v : α) (h : i ≤ j) :
    (xs.set j v).take i = xs.take i := by
  induction xs generalizing i j with
  | nil => simp
  | cons x xs ih =>
    cases i with
    | zero => simp
    | succ i =>
      cases j with
      | zero => omega
      | succ j => simpa using ih i j (by omega)

theorem retained_of_two (K : Constants) (m m' : aiMesh) (h : ProcessMesh K m = .ok (2, m')) :
    retained K m = none ∧ flagged K m = true := by
  simp [retained, flagged, h]

theorem retained_of_ne_two (K : Constants) (m m' : aiMesh) (res : Int)
    (h : ProcessMesh K m = .ok (res, m')) (hres : res ≠ 2) :
    retained K m = some m' ∧ flagged K m = (res != 0) := by
  simp [retained, flagged, h, hres]

/-- Invariant of the mesh loop: with `real ≤ a` the retained meshes are
written over slots that were already read; the slots from `a` on still hold
the meshes of the scene. -/
theorem Execute.meshes_sound (K : Constants) :
    ∀ (k a : Nat) (mMeshes : List aiMesh) (meshMapping : List Nat) (real : Nat) (out : Bool)
      (res : List aiMesh × List Nat × Nat × Bool),
      real ≤ a → a + k = mMeshes.length → meshMapping.length = mMeshes.length →
      Execute.meshes K k a mMeshes meshMapping real out = .ok res →
      (∀ m ∈ mMeshes.drop a, ∃ r, ProcessMesh K m = .ok r) ∧
      res.1.length = mMeshes.length ∧
      res.2.2.1 = real + ((mMeshes.drop a).filterMap (retained K)).length ∧
      res.1.take res.2.2.1 = mMeshes.take real ++ (mMeshes.drop a).filterMap (retained K) ∧
      res.2.1 = meshMapping.take a ++ mappingFrom K real (mMeshes.drop a) ∧
      res.2.2.2 = (out || (mMeshes.drop a).any (flagged K)) := by
  intro k
  induction k with
  | zero =>
    intro a arr map real out res hra hlen hmap h
    rw [Execute.meshes] at h
    cases h
    have hd : arr.drop a = [] := List.drop_of_length_le (by omega)
    rw [hd]
    refine ⟨fun m hm => (by cases hm), rfl, by simp, by simp, ?_, by simp⟩
    simp only [mappingFrom, List.append_nil]
    exact (List.take_of_length_le (by omega)).symm
  | succ k ih =>
    intro a arr map real out res hra hlen hmap h
    have ha : a < arr.length := by omega
    have hd : arr.drop a = arr[a] :: arr.drop (a + 1) := List.drop_eq_getElem_cons ha
    rw [Execute.meshes, rd_of_lt _ _ ha, ok_bind] at h
    cases hp : ProcessMesh K arr[a] with
    | error e => rw [hp] at h; cases h
    | ok r =>
      obtain ⟨code, m'⟩ := r
      rw [hp, ok_bind, wr_of_lt _ _ _ ha, ok_bind] at h
      simp only at h
      have hd1 : (arr.set a m').drop (a + 1) = arr.drop (a + 1) :=
        List.drop_set_of_lt _ _ (by omega)
      by_cases h2 : code = 2
      · subst h2
        have hc : (((2 : Int) != 0) && ((2 : Int) == 2)) = true := by decide
        rw [if_pos hc, wr_of_lt _ _ _ (by omega), ok_bind] at h
        obtain ⟨i1, i2, i3, i4, i5, i6⟩ := ih (a + 1) _ _ real true res (by omega)
          (by rw [List.length_set]; omega) (by rw [List.length_set, List.length_set]; exact hmap) h
        obtain ⟨hret, hfl⟩ := retained_of_two K _ _ hp
        rw [hd1] at i1 i3 i4 i5 i6
        rw [List.length_set] at i2
        rw [take_set_of_le _ _ _ _ hra] at i4
        rw [take_succ_set _ _ _ (by omega)] at i5
        refine ⟨fun m hm => ?_, i2, ?_, ?_, ?_, ?_⟩
        · rw [hd] at hm
          rcases List.mem_cons.mp hm with rfl | hm
          · exact ⟨_, hp⟩
          · exact i1 m hm
        · rw [hd, List.filterMap_cons, hret]; exact i3
        · rw [hd, List.filterMap_cons, hret]; exact i4
        · rw [hd, mappingFrom, hret, i5]; simp
        · rw [hd, List.any_cons, hfl, i6]; simp
      · have hc : ((code != 0) && ((2 : Int) == code)) = false := by
          simp only [Bool.and_eq_false_iff, beq_eq_false_iff_ne, ne_eq]
          exact Or.inr (fun e => h2 e.symm)
        have hreal : real < arr.length := by omega
        rw [hc] at h
        simp only [Bool.false_eq_true, if_false] at h
        rw [rd_of_lt _ _ (by rw [List.length_set]; exact ha), ok_bind,
          wr_of_lt _ _ _ (by rw [List.length_set]; exact hreal), ok_bind,
          wr_of_lt _ _ _ (by omega), ok_bind] at h
        simp only [List.getElem_set_self] at h
        obtain ⟨i1, i2, i3, i4, i5, i6⟩ := ih (a + 1) _ _ (real + 1) _ res (by omega)
          (by rw [List.length_set, List.length_set]; omega)
          (by rw [List.length_set, List.length_set, List.length_set]; exact hmap) h
        obtain ⟨hret, hfl⟩ := retained_of_ne_two K _ _ _ hp h2
        have hd2 : ((arr.set a m').set real m').drop (a + 1) = arr.drop (a + 1) := by
          rw [List.drop_set_of_lt _ _ (by omega), hd1]
        rw [hd2] at i1 i3 i4 i5 i6
        rw [List.length_set, List.length_set] at i2
        rw [take_succ_set _ _ _ (by rw [List.length_set]; exact hreal),
          take_set_of_le _ _ _ _ hra] at i4
        rw [take_succ_set _ _ _ (by omega)] at i5
        refine ⟨fun m hm => ?_, i2, ?_, ?_, ?_, ?_⟩
        · rw [hd] at hm
          rcases List.mem_cons.mp hm with rfl | hm
          · exact ⟨_, hp⟩
          · exact i1 m hm
        · rw [hd, List.filterMap_cons, hret, i3]; simp; omega
        · rw [hd, List.filterMap_cons, hret, i4]; simp
        · rw [hd, mappingFrom, hret, i5]; simp
        · rw [hd, List.any_cons, hfl, i6]
          cases (code != 0) <;> cases out <;> simp

/-- The mesh loop ends without indexing outside an array when `ProcessMesh`
does on every mesh. -/
theorem Execute.meshes_total (K : Constants) :
    ∀ (k a : Nat) (mMeshes : List aiMesh) (meshMapping : List Nat) (real : Nat) (out : Bool),
      real ≤ a → a + k = mMeshes.length → meshMapping.length = mMeshes.length →
      (∀ m ∈ mMeshes.drop a, ∃ r, ProcessMesh K m = .ok r) →
      ∃ res, Execute.meshes K k a mMeshes meshMapping real out = .ok res := by
  intro k
  induction k with
  | zero => intro a arr map real out _ _ _ _; exact ⟨_, by rw [Execute.meshes]⟩
  | succ k ih =>
    intro a arr map real out hra hlen hmap hall
    have ha : a < arr.length := by omega
    have hd : arr.drop a = arr[a] :: arr.drop (a + 1) := List.drop_eq_getElem_cons ha
    obtain ⟨⟨code, m'⟩, hp⟩ := hall arr[a] (by rw [hd]; exact List.mem_cons_self _ _)
    have hrest : ∀ m ∈ arr.drop (a + 1), ∃ r, ProcessMesh K m = .ok r := fun m hm =>
      hall m (by rw [hd]; exact List.mem_cons_of_mem _ hm)
    have hd1 : (arr.set a m').drop (a + 1) = arr.drop (a + 1) :=
      List.drop_set_of_lt _ _ (by omega)
    rw [Execute.meshes, rd_of_lt _ _ ha, ok_bind, hp, ok_bind, wr_of_lt _ _ _ ha, ok_bind]
    simp only
    split
    · rw [wr_of_lt _ _ _ (by omega), ok_bind]
      exact ih (a + 1) _ _ real true (by omega) (by rw [List.length_set]; omega)
        (by rw [List.length_set, List.length_set]; exact hmap) (by rw [hd1]; exact hrest)
    · rw [rd_of_lt _ _ (by rw [List.length_set]; exact ha), ok_bind,
        wr_of_lt _ _ _ (by rw [List.length_set]; omega), ok_bind,
        wr_of_lt _ _ _ (by omega), ok_bind]
      exact ih (a + 1) _ _ (real + 1) _ (by omega)
        (by rw [List.length_set, List.length_set]; omega)
        (by rw [List.length_set, List.length_set, List.length_set]; exact hmap)
        (by rw [List.drop_set_of_lt _ _ (by omega), hd1]; exact hrest)

/-! ## Animations never index outside an array -/

theorem AllIdentical.keys_loop_total {T : Type} (ne : T → T → Bool) (arr : List T) :
    ∀ (k i : Nat), i + k + 1 ≤ arr.length → ∃ b, AllIdentical.loop ne arr k i = .ok b := by
  intro k
  induction k with
  | zero => intro i _; exact ⟨true, by rw [AllIdentical.loop]⟩
  | succ k ih =>
    intro i h
    rw [AllIdentical.loop, rd_of_lt _ _ (by omega), ok_bind, rd_of_lt _ _ (by omega), ok_bind]
    split
    · exact ⟨false, rfl⟩
    · exact ih (i + 1) (by omega)

theorem AllIdentical_total {T : Type} (ne : T → T → Bool) (arr : List T) :
    ∃ b, AllIdentical ne arr arr.length = .ok b := by
  unfold AllIdentical
  split
  · exact ⟨true, rfl⟩
  · rename_i h0
    have hpos : 0 < arr.length := by
      simp only [beq_iff_eq] at h0
      omega
    have hk : (arr.length + 4294967296 - 1) % 4294967296 ≤ arr.length - 1 := by
      have h1 : arr.length + 4294967296 - 1 = (arr.length - 1) + 4294967296 := by omega
      rw [h1, Nat.add_mod_right]
      exact Nat.mod_le _ _
    exact AllIdentical.keys_loop_total ne arr _ 0 (by omega)

theorem ProcessAnimationChannel_total (anim : aiNodeAnim) :
    ∃ r, ProcessAnimationChannel anim = .ok r := by
  obtain ⟨b1, h1⟩ := AllIdentical_total aiVectorKey.ne anim.mPositionKeys
  obtain ⟨b2, h2⟩ := AllIdentical_total aiQuatKey.ne anim.mRotationKeys
  obtain ⟨b3, h3⟩ := AllIdentical_total aiVectorKey.ne anim.mScalingKeys
  unfold ProcessAnimationChannel
  simp only [aiNodeAnim.mNumPositionKeys, aiNodeAnim.mNumRotationKeys,
    aiNodeAnim.mNumScalingKeys, h1, h2, h3, ok_bind]
  repeat' split
  all_goals exact ⟨_, rfl⟩

theorem ProcessAnimation.channels_total :
    ∀ (k a : Nat) (mChannels : List aiNodeAnim) (real : Nat) (out : Bool),
      real ≤ a → a + k = mChannels.length →
      ∃ r, ProcessAnimation.channels k a mChannels real out = .ok r := by
  intro k
  induction k with
  | zero => intro a ch real out _ _; exact ⟨_, by rw [ProcessAnimation.channels]⟩
  | succ k ih =>
    intro a ch real out hra hlen
    obtain ⟨r, hr⟩ := ProcessAnimationChannel_total ch[a]
    rw [ProcessAnimation.channels, rd_of_lt _ _ (by omega), ok_bind, hr, ok_bind]
    split
    · exact ih (a + 1) ch real true (by omega) (by omega)
    · rw [ok_bind, wr_of_lt _ _ _ (by omega), ok_bind]
      exact ih (a + 1) _ (real + 1) out (by omega) (by rw [List.length_set]; omega)

theorem ProcessAnimation_total (anim : aiAnimation) : ∃ r, ProcessAnimation anim = .ok r := by
  obtain ⟨r, hr⟩ := ProcessAnimation.channels_total anim.mChannels.length 0 anim.mChannels 0
    false (Nat.le_refl 0) (by omega)
  unfold ProcessAnimation
  rw [hr, ok_bind]
  repeat' split
  all_goals exact ⟨_, rfl⟩

theorem Execute.animations_total :
    ∀ (k a : Nat) (mAnimations : List aiAnimation) (real : Nat) (out : Bool),
      real ≤ a → a + k = mAnimations.length →
      ∃ r, Execute.animations k a mAnimations real out = .ok r := by
  intro k
  induction k with
  | zero => intro a arr real out _ _; exact ⟨_, by rw [Execute.animations]⟩
  | succ k ih =>
    intro a arr real out hra hlen
    obtain ⟨r, hr⟩ := ProcessAnimation_total arr[a]
    rw [Execute.animations, rd_of_lt _ _ (by omega), ok_bind, hr, ok_bind,
      wr_of_lt _ _ _ (by omega), ok_bind]
    split
    · exact ih (a + 1) _ real true (by omega) (by rw [List.length_set]; omega)
    · rw [rd_of_lt _ _ (by rw [List.length_set]; omega), ok_bind,
        wr_of_lt _ _ _ (by rw [List.length_set]; omega), ok_bind]
      exact ih (a + 1) _ (real + 1) _ (by omega)
        (by rw [List.length_set, List.length_set]; omega)

/-- The animation loop never clears `out`. -/
theorem Execute.animations_out :
    ∀ (k a : Nat) (mAnimations : List aiAnimation) (real : Nat)
      (r : List aiAnimation × Nat × Bool),
      Execute.animations k a mAnimations real true = .ok r → r.2.2 = true := by
  intro k
  induction k with
  | zero =>
    intro a arr real r h
    rw [Execute.animations] at h
    cases h
    rfl
  | succ k ih =>
    intro a arr real r h
    rw [Execute.animations] at h
    cases h1 : rd arr a with
    | error e => rw [h1] at h; cases h
    | ok x =>
      rw [h1, ok_bind] at h
      cases h2 : ProcessAnimation x with
      | error e => rw [h2] at h; cases h
      | ok p =>
        rw [h2, ok_bind] at h
        cases h3 : wr arr a p.2 with
        | error e => rw [h3] at h; cases h
        | ok arr1 =>
          rw [h3, ok_bind] at h
          split at h
          · exact ih _ _ _ _ h
          · cases h4 : rd arr1 a with
            | error e => rw [h4] at h; cases h
            | ok y =>
              rw [h4, ok_bind] at h
              cases h5 : wr arr1 real y with
              | error e => rw [h5] at h; cases h
              | ok arr2 =>
                rw [h5, ok_bind] at h
                simp only [ite_self] at h
                exact ih _ _ _ _ h

/-! ## Execute -/

/-- The three ways `Execute` completes: after repairing the node graph, when
meshes were removed and some remain; with issues found but no mesh removed;
without any issue. -/
theorem Execute_cases (K : Constants) (s s' : aiScene) (h : Execute K s = .ok s') :
    ∃ rm rn,
      Execute.meshes K s.mNumMeshes 0 s.mMeshes (List.replicate s.mNumMeshes 0) 0 false
        = .ok rm ∧
      Execute.animations s.mNumAnimations 0 s.mAnimations 0 rm.2.2.2 = .ok rn ∧
      ((rn.2.2 = true ∧ rm.2.2.1 ≠ s.mNumMeshes ∧ rm.2.2.1 ≠ 0 ∧
          UpdateMeshReferences rm.2.1 s.mRootNode = .ok s'.mRootNode ∧
          s'.mMeshes = rm.1.take rm.2.2.1) ∨
        (rn.2.2 = true ∧ rm.2.2.1 = s.mNumMeshes ∧ s'.mMeshes = rm.1 ∧
          s'.mRootNode = s.mRootNode) ∨
        (rn.2.2 = false ∧ s'.mMeshes = rm.1 ∧ s'.mRootNode = s.mRootNode)) := by
  unfold Execute at h
  simp only at h
  cases hm : Execute.meshes K s.mNumMeshes 0 s.mMeshes (List.replicate s.mNumMeshes 0) 0
    false with
  | error e => rw [hm] at h; cases h
  | ok rm =>
    rw [hm, ok_bind] at h
    cases hn : Execute.animations s.mNumAnimations 0 s.mAnimations 0 rm.2.2.2 with
    | error e => rw [hn] at h; cases h
    | ok rn =>
      rw [hn, ok_bind] at h
      refine ⟨rm, rn, rfl, hn, ?_⟩
      by_cases hout : rn.2.2 = true
      · rw [if_pos hout] at h
        by_cases hreal : rm.2.2.1 = s.mNumMeshes
        · have hb : (rm.2.2.1 != s.mNumMeshes) = false := by simp [hreal]
          rw [hb] at h
          simp only [Bool.false_eq_true, if_false] at h
          cases h
          exact Or.inr (Or.inl ⟨hout, hreal, rfl, rfl⟩)
        · have hb : (rm.2.2.1 != s.mNumMeshes) = true := by simp [hreal]
          rw [if_pos hb] at h
          by_cases hz : rm.2.2.1 = 0
          · have hzb : (rm.2.2.1 == 0) = true := by simp [hz]
            rw [if_pos hzb] at h
            cases h
          · have hzb : (rm.2.2.1 == 0) = false := by simp [hz]
            rw [hzb] at h
            simp only [Bool.false_eq_true, if_false] at h
            cases hu : UpdateMeshReferences rm.2.1 s.mRootNode with
            | error e => rw [hu] at h; cases h
            | ok root =>
              rw [hu, ok_bind] at h
              cases h
              exact Or.inl ⟨hout, hreal, hz, rfl, rfl⟩
      · rw [if_neg hout] at h
        cases h
        exact Or.inr (Or.inr ⟨by simpa using hout, rfl, rfl⟩)

theorem filterMap_retained_length (K : Constants) (ms : List aiMesh)
    (hok : ∀ m ∈ ms, ∃ r, ProcessMesh K m = .ok r)
    (hfl : ms.any (flagged K) = false) :
    (ms.filterMap (retained K)).length = ms.length := by
  induction ms with
  | nil => rfl
  | cons m ms ih =>
    obtain ⟨⟨code, m'⟩, hp⟩ := hok m (List.mem_cons_self _ _)
    simp only [List.any_cons, Bool.or_eq_false_iff] at hfl
    have hcode : code = 0 := by
      have := hfl.1
      simp only [flagged, hp, bne_eq_false_iff_eq] at this
      exact this
    have hret : retained K m = some m' := by simp [retained, hp, hcode]
    rw [List.filterMap_cons, hret, List.length_cons, List.length_cons,
      ih (fun x hx => hok x (List.mem_cons_of_mem _ hx)) hfl.2]

/-- The meshes of the scene after `Execute`, and the values the mesh loop
ends with. -/
theorem Execute_meshes (K : Constants) (s s' : aiScene) (h : Execute K s = .ok s') :
    (∀ m ∈ s.mMeshes, ∃ r, ProcessMesh K m = .ok r) ∧
    s'.mMeshes = s.mMeshes.filterMap (retained K) ∧
    ∃ rm, Execute.meshes K s.mNumMeshes 0 s.mMeshes (List.replicate s.mNumMeshes 0) 0 false
        = .ok rm ∧
      rm.2.1 = mappingFrom K 0 s.mMeshes ∧
      rm.2.2.1 = (s.mMeshes.filterMap (retained K)).length ∧
      ((rm.2.2.1 ≠ s.mNumMeshes ∧ rm.2.2.1 ≠ 0 ∧
          UpdateMeshReferences rm.2.1 s.mRootNode = .ok s'.mRootNode) ∨
        (rm.2.2.1 = s.mNumMeshes ∧ s'.mRootNode = s.mRootNode)) := by
  obtain ⟨rm, rn, hm, hn, hc⟩ := Execute_cases K s s' h
  obtain ⟨i1, i2, i3, i4, i5, i6⟩ := Execute.meshes_sound K s.mNumMeshes 0 s.mMeshes
    (List.replicate s.mNumMeshes 0) 0 false rm (Nat.le_refl 0) (by simp) (by simp) hm
  simp only [List.drop_zero, Nat.zero_add, List.take_zero, List.nil_append,
    Bool.false_or] at i1 i3 i4 i5 i6
  have hfull : rm.2.2.1 = s.mNumMeshes → rm.1 = s.mMeshes.filterMap (retained K) := by
    intro hreal
    rw [← i4, List.take_of_length_le (by rw [i2, hreal])]
  refine ⟨i1, ?_, rm, hm, i5, i3, ?_⟩
  · rcases hc with ⟨_, _, _, _, hs⟩ | ⟨_, hreal, hs, _⟩ | ⟨hout, hs, _⟩
    · rw [hs, i4]
    · rw [hs, hfull hreal]
    · have hmo : rm.2.2.2 = false := by
        by_contra hcon
        have ht : rm.2.2.2 = true := by simpa using hcon
        rw [ht] at hn
        have := Execute.animations_out _ _ _ _ _ hn
        rw [hout] at this
        cases this
      rw [hmo] at i6
      have hreal : rm.2.2.1 = s.mNumMeshes := by
        rw [i3, filterMap_retained_length K s.mMeshes i1 i6.symm]
      rw [hs, hfull hreal]
  · rcases hc with ⟨_, h1, h2, h3, _⟩ | ⟨_, hreal, _, hroot⟩ | ⟨hout, _, hroot⟩
    · exact Or.inl ⟨h1, h2, h3⟩
    · exact Or.inr ⟨hreal, hroot⟩
    · have hmo : rm.2.2.2 = false := by
        by_contra hcon
        have ht : rm.2.2.2 = true := by simpa using hcon
        rw [ht] at hn
        have := Execute.animations_out _ _ _ _ _ hn
        rw [hout] at this
        cases this
      rw [hmo] at i6
      exact Or.inr ⟨by rw [i3, filterMap_retained_length K s.mMeshes i1 i6.symm], hroot⟩

/-! ## The index map -/

theorem mappingFrom_length (K : Constants) :
    ∀ (ms : List aiMesh) (real : Nat), (mappingFrom K real ms).length = ms.length := by
  intro ms
  induction ms with
  | nil => intro real; rfl
  | cons m ms ih =>
    intro real
    rw [mappingFrom]
    split <;> simp [ih]

theorem mappingFrom_get (K : Constants) :
    ∀ (ms : List aiMesh) (real a : Nat) (m : aiMesh), ms[a]? = some m →
      (mappingFrom K real ms)[a]? = some (match retained K m with
        | none => 0xffffffff
        | some _ => real + ((ms.take a).filterMap (retained K)).length) := by
  intro ms
  induction ms with
  | nil => intro real a m h; simp at h
  | cons x ms ih =>
    intro real a m h
    cases a with
    | zero =>
      simp only [List.getElem?_cons_zero, Option.some.injEq] at h
      subst h
      rw [mappingFrom]
      split <;> rename_i hr <;> simp [hr]
    | succ a =>
      simp only [List.getElem?_cons_succ] at h
      rw [mappingFrom]
      split <;> rename_i hr
      · simp only [List.getElem?_cons_succ, List.take_succ_cons, List.filterMap_cons, hr]
        exact ih real a m h
      · simp only [List.getElem?_cons_succ, List.take_succ_cons, List.filterMap_cons, hr,
          List.length_cons]
        rw [ih (real + 1) a m h]
        cases retained K m with
        | none => rfl
        | some _ =>
          show some (real + 1 + ((ms.take a).filterMap (retained K)).length) =
            some (real + (((ms.take a).filterMap (retained K)).length + 1))
          exact congrArg some (by omega)

theorem mappingFrom_retained (K : Constants) :
    ∀ (ms : List aiMesh) (real : Nat),
      ((mappingFrom K real ms).zip ms).filterMap
          (fun pm => if (retained K pm.2).isSome then some pm.1 else none) =
        List.range' real (ms.filterMap (retained K)).length := by
  intro ms
  induction ms with
  | nil => intro real; rfl
  | cons m ms ih =>
    intro real
    rw [mappingFrom]
    split <;> rename_i hr
    · simp only [List.zip_cons_cons, List.filterMap_cons, hr, Option.isSome_none,
        Bool.false_eq_true, if_false]
      exact ih real
    · simp only [List.zip_cons_cons, List.filterMap_cons, hr, Option.isSome_some, if_true,
        List.length_cons, List.range'_succ]
      rw [ih (real + 1)]

theorem filterMap_position {α β : Type} (f : α → Option β) :
    ∀ (xs : List α) (a : Nat) (x : α) (y : β), xs[a]? = some x → f x = some y →
      (xs.filterMap f)[((xs.take a).filterMap f).length]? = some y := by
  intro xs
  induction xs with
  | nil => intro a x y h; simp at h
  | cons z xs ih =>
    intro a x y h hf
    cases a with
    | zero =>
      simp only [List.getElem?_cons_zero, Option.some.injEq] at h
      subst h
      simp [List.filterMap_cons, hf]
    | succ a =>
      simp only [List.getElem?_cons_succ] at h
      simp only [List.take_succ_cons, List.filterMap_cons]
      cases hz : f z with
      | none => exact ih a x y h hf
      | some w =>
        simp only [List.length_cons, List.getElem?_cons_succ]
        exact ih a x y h hf

/-! ## Claims on Execute -/

set_option maxHeartbeats 4000000 in
/-- The run of `Execute` on the example with three meshes. -/
theorem threeMeshScene_run :
    Execute assimpConstants threeMeshScene = .ok threeMeshSceneAfter := by
  decide

/-- C3. When `Execute` completes without failure, `ProcessMesh` returned on
every mesh, and the mesh collection of the scene consists of exactly the
original meshes (as `ProcessMesh` left them) on which `ProcessMesh` did not
return 2, in their original order.  The index map that the mesh loop of
`Execute` builds has one entry per original mesh: the sentinel `0xffffffff`
for a removed mesh and, for a retained one, its position in the new
collection; the entries of the retained meshes, in order, are
0, 1, ..., number retained - 1. -/
theorem C3_Execute_compacts_meshes (K : Constants) (s s' : aiScene)
    (h : Execute K s = .ok s') :
    (∀ m ∈ s.mMeshes, ∃ r, ProcessMesh K m = .ok r) ∧
    s'.mMeshes = s.mMeshes.filterMap (retained K) ∧
    ∃ rm, Execute.meshes K s.mNumMeshes 0 s.mMeshes (List.replicate s.mNumMeshes 0) 0 false
        = .ok rm ∧
      rm.2.1.length = s.mNumMeshes ∧
      (∀ (a : Nat) (m : aiMesh), s.mMeshes[a]? = some m →
        (retained K m = none → rm.2.1[a]? = some 0xffffffff) ∧
        ∀ m', retained K m = some m' →
          ∃ p, rm.2.1[a]? = some p ∧ s'.mMeshes[p]? = some m' ∧
            p = ((s.mMeshes.take a).filterMap (retained K)).length) ∧
      (rm.2.1.zip s.mMeshes).filterMap
          (fun pm => if (retained K pm.2).isSome then some pm.1 else none) =
        List.range s'.mMeshes.length := by
  obtain ⟨hok, hms, rm, hrm, hmap, _, _⟩ := Execute_meshes K s s' h
  refine ⟨hok, hms, rm, hrm, ?_, fun a m ha => ⟨fun hr => ?_, fun m' hr => ?_⟩, ?_⟩
  · rw [hmap, mappingFrom_length]
  · rw [hmap, mappingFrom_get K s.mMeshes 0 a m ha, hr]
  · refine ⟨_, ?_, ?_, rfl⟩
    · rw [hmap, mappingFrom_get K s.mMeshes 0 a m ha, hr]
      simp
    · rw [hms]
      exact filterMap_position (retained K) s.mMeshes a m m' ha hr
  · rw [hmap, mappingFrom_retained, hms, List.range_eq_range']

/-- Witness of C3: of the three meshes of the example the second is
removed. -/
theorem C3_Execute_compacts_meshes_witness :
    Execute assimpConstants threeMeshScene = .ok threeMeshSceneAfter ∧
    threeMeshSceneAfter.mMeshes =
      threeMeshScene.mMeshes.filterMap (retained assimpConstants) :=
  ⟨threeMeshScene_run,
    (C3_Execute_compacts_meshes assimpConstants threeMeshScene threeMeshSceneAfter
      threeMeshScene_run).2.1⟩

/-- When `ProcessMesh` returns 2 on every mesh of a scene that has meshes,
`Execute` throws at line 164. -/
theorem Execute_fatal (K : Constants) (s : aiScene) (hne : s.mMeshes ≠ [])
    (htwo : ∀ m ∈ s.mMeshes, ∃ m', ProcessMesh K m = .ok (2, m')) :
    Execute K s = .error (.ImportErrorException "No meshes remaining") := by
  obtain ⟨rm, hrm⟩ := Execute.meshes_total K s.mNumMeshes 0 s.mMeshes
    (List.replicate s.mNumMeshes 0) 0 false (Nat.le_refl 0) (by simp) (by simp)
    (fun m hm => by
      obtain ⟨m', h⟩ := htwo m (by simpa using hm)
      exact ⟨_, h⟩)
  obtain ⟨_, _, i3, _, _, i6⟩ := Execute.meshes_sound K s.mNumMeshes 0 s.mMeshes
    (List.replicate s.mNumMeshes 0) 0 false rm (Nat.le_refl 0) (by simp) (by simp) hrm
  simp only [List.drop_zero, Nat.zero_add, Bool.false_or] at i3 i6
  have hnone : s.mMeshes.filterMap (retained K) = [] := by
    rw [List.filterMap_eq_nil_iff]
    intro m hm
    obtain ⟨m', h⟩ := htwo m hm
    exact (retained_of_two K m m' h).1
  have hreal : rm.2.2.1 = 0 := by rw [i3, hnone]; rfl
  have hout : rm.2.2.2 = true := by
    rw [i6, List.any_eq_true]
    obtain ⟨m, hm⟩ := List.exists_mem_of_ne_nil _ hne
    obtain ⟨m', h⟩ := htwo m hm
    exact ⟨m, hm, (retained_of_two K m m' h).2⟩
  obtain ⟨rn, hrn⟩ := Execute.animations_total s.mNumAnimations 0 s.mAnimations 0 rm.2.2.2
    (Nat.le_refl 0) (by simp)
  have hout2 : rn.2.2 = true := by
    rw [hout] at hrn
    exact Execute.animations_out _ _ _ _ _ hrn
  have hN : s.mNumMeshes ≠ 0 := by
    intro h0
    exact hne (List.length_eq_zero.mp h0)
  unfold Execute
  simp only [hrm, ok_bind, hrn, hout2, if_true, hreal]
  have hb : ((0 : Nat) != s.mNumMeshes) = true := by
    simp only [bne_iff_ne, ne_eq]
    exact fun e => hN e.symm
  simp [hb]

/-- C5. For a scene with at least one mesh in which every mesh is unusable
(its positions, one per vertex, contain a non-finite component or do not
differ from one another), `Execute` raises the failure "No meshes
remaining" instead of completing. -/
theorem C5_Execute_fails_without_meshes (K : Constants) (s : aiScene)
    (hne : s.mMeshes ≠ [])
    (hbad : ∀ m ∈ s.mMeshes, ∃ arr, m.mVertices = some arr ∧ arr.length = m.mNumVertices ∧
      ((∃ v ∈ arr, v.hasNonFinite = true) ∨ ∀ u ∈ arr, ∀ v ∈ arr, u.ne v = false)) :
    Execute K s = .error (.ImportErrorException "No meshes remaining") :=
  Execute_fatal K s hne (fun m hm => by
    obtain ⟨arr, hv, hn, hf⟩ := hbad m hm
    exact (ProcessMesh_two_iff_fails K m arr hv hn).mpr hf)

/-- Witness of C5: the scene whose single mesh has a NaN position. -/
theorem C5_Execute_fails_without_meshes_witness :
    Execute assimpConstants fatalScene = .error (.ImportErrorException "No meshes remaining") :=
  C5_Execute_fails_without_meshes assimpConstants fatalScene (by simp [fatalScene])
    (fun m hm => by
      have : m = nanMesh := by simpa [fatalScene] using hm
      subst this
      exact ⟨_, rfl, rfl, Or.inl ⟨⟨.nan, .finite false 0, .finite false 0⟩, by simp, rfl⟩⟩)

/-- C6 as stated fails: on a scene without meshes `Execute` completes
without failure, and the mesh collection is empty. -/
theorem C6_counterexample :
    ¬ ∀ (K : Constants) (s s' : aiScene), Execute K s = .ok s' → s'.mMeshes ≠ [] :=
  fun hall => hall assimpConstants emptyScene emptyScene (by decide) rfl

/-- C6, amended. For every scene with at least one mesh: whenever `Execute`
completes without failure the mesh collection of the scene is non-empty, and
a retained mesh count of zero (`ProcessMesh` returns 2 on every mesh) makes
`Execute` raise the failure "No meshes remaining". -/
theorem C6_Execute_keeps_a_mesh (K : Constants) (s : aiScene) (hne : s.mMeshes ≠ []) :
    (∀ s', Execute K s = .ok s' → s'.mMeshes ≠ []) ∧
    ((∀ m ∈ s.mMeshes, ∃ m', ProcessMesh K m = .ok (2, m')) →
      Execute K s = .error (.ImportErrorException "No meshes remaining")) := by
  refine ⟨fun s' h => ?_, Execute_fatal K s hne⟩
  obtain ⟨_, hms, rm, _, _, hreal, hc⟩ := Execute_meshes K s s' h
  intro hempty
  have hz : rm.2.2.1 = 0 := by rw [hreal, ← hms, hempty]; rfl
  rcases hc with ⟨_, h0, _⟩ | ⟨hN, _⟩
  · exact h0 hz
  · rw [hz] at hN
    exact hne (List.length_eq_zero.mp hN.symm)

/-- Witness of C6, amended: the example with three meshes keeps two. -/
theorem C6_Execute_keeps_a_mesh_witness :
    threeMeshScene.mMeshes ≠ [] ∧
    Execute assimpConstants threeMeshScene = .ok threeMeshSceneAfter ∧
    threeMeshSceneAfter.mMeshes ≠ [] :=
  ⟨by decide, threeMeshScene_run,
    (C6_Execute_keeps_a_mesh assimpConstants threeMeshScene (by decide)).1
      threeMeshSceneAfter threeMeshScene_run⟩

/-- C9 as stated fails. `Execute` completes without failure and changes
nothing on three scenes with a single mesh that has a NaN in an array it
keeps: normals with a NaN at an end of a line, in a mesh with a line and a
triangle; normals with a NaN in a mesh with line primitives only; bitangents
with a NaN in a mesh that has neither normals nor tangents. -/
theorem C9_counterexample :
    (Execute assimpConstants lineScene = .ok lineScene ∧
      lineMesh ∈ lineScene.mMeshes ∧
      ∃ a v, lineMesh.mNormals = some a ∧ v ∈ a ∧ v.hasNonFinite = true) ∧
    (Execute assimpConstants (sceneOf linesOnlyMesh) = .ok (sceneOf linesOnlyMesh) ∧
      ∃ a v, linesOnlyMesh.mNormals = some a ∧ v ∈ a ∧ v.hasNonFinite = true) ∧
    (Execute assimpConstants (sceneOf bitangentsOnlyMesh) = .ok (sceneOf bitangentsOnlyMesh) ∧
      ∃ a v, bitangentsOnlyMesh.mBitangents = some a ∧ v ∈ a ∧ v.hasNonFinite = true) :=
  ⟨⟨by decide, by simp [lineScene], _, ⟨.nan, .nan, .nan⟩, rfl, by simp, rfl⟩,
    ⟨by decide, _, ⟨.nan, .nan, .nan⟩, rfl, by simp, rfl⟩,
    ⟨by decide, _, ⟨.nan, .nan, .nan⟩, rfl, by simp, rfl⟩⟩

/-- C9, amended. After `Execute` completes without failure every surviving
mesh is scrubbed: its positions, and every texture coordinate set that is
present together with all sets of lower index, contain no non-finite
component; and unless the mesh has point or line primitives only, its
normals, its tangents, and its bitangents when normals or tangents are
present too, contain no non-finite component at the vertices that are not
exempted (the vertices of point and line faces of a mesh with point or line
primitives). -/
theorem C9_Execute_survivors_scrubbed (K : Constants) (s s' : aiScene)
    (h : Execute K s = .ok s') : ∀ m' ∈ s'.mMeshes, m'.Scrubbed K := by
  obtain ⟨_, hms, _⟩ := Execute_meshes K s s' h
  intro m' hm'
  rw [hms, List.mem_filterMap] at hm'
  obtain ⟨m, _, hr⟩ := hm'
  unfold retained at hr
  split at hr
  · rename_i res m2 hp
    split at hr
    · cases hr
    · rename_i hres
      cases hr
      exact ProcessMesh_scrubbed K m res m' hp hres
  · cases hr

/-- Witness of C9, amended: the first mesh that survives in the example with
three meshes is scrubbed. -/
theorem C9_Execute_survivors_scrubbed_witness :
    Execute assimpConstants threeMeshScene = .ok threeMeshSceneAfter ∧
    aiMesh.Scrubbed assimpConstants (plainMesh (vec 0 0 0) (vec 1 0 0)) :=
  ⟨threeMeshScene_run,
    C9_Execute_survivors_scrubbed assimpConstants threeMeshScene threeMeshSceneAfter
      threeMeshScene_run (plainMesh (vec 0 0 0) (vec 1 0 0)) (by simp [threeMeshSceneAfter])⟩

/-! ## The node graph after Execute -/

mutual
theorem mapMeshes_congr (g g' : List Nat → List Nat) (N : Nat)
    (hg : ∀ refs : List Nat, (∀ r ∈ refs, r < N) → g refs = g' refs) :
    ∀ t : aiNode, aiNode.refsBelow N t = true → aiNode.mapMeshes g t = aiNode.mapMeshes g' t
  | .mk ms cs, h => by
    simp only [aiNode.refsBelow, Bool.and_eq_true, List.all_eq_true, decide_eq_true_eq] at h
    rw [aiNode.mapMeshes, aiNode.mapMeshes, hg ms h.1, mapMeshesList_congr g g' N hg cs h.2]
theorem mapMeshesList_congr (g g' : List Nat → List Nat) (N : Nat)
    (hg : ∀ refs : List Nat, (∀ r ∈ refs, r < N) → g refs = g' refs) :
    ∀ cs : List aiNode, aiNode.refsBelowList N cs = true →
      aiNode.mapMeshesList g cs = aiNode.mapMeshesList g' cs
  | [], _ => by rw [aiNode.mapMeshesList, aiNode.mapMeshesList]
  | c :: cs, h => by
    simp only [aiNode.refsBelowList, Bool.and_eq_true] at h
    rw [aiNode.mapMeshesList, aiNode.mapMeshesList, mapMeshes_congr g g' N hg c h.1,
      mapMeshesList_congr g g' N hg cs h.2]
end

mutual
theorem mapMeshes_fixed (g : List Nat → List Nat) (N : Nat)
    (hg : ∀ refs : List Nat, (∀ r ∈ refs, r < N) → g refs = refs) :
    ∀ t : aiNode, aiNode.refsBelow N t = true → aiNode.mapMeshes g t = t
  | .mk ms cs, h => by
    simp only [aiNode.refsBelow, Bool.and_eq_true, List.all_eq_true, decide_eq_true_eq] at h
    rw [aiNode.mapMeshes, hg ms h.1, mapMeshesList_fixed g N hg cs h.2]
theorem mapMeshesList_fixed (g : List Nat → List Nat) (N : Nat)
    (hg : ∀ refs : List Nat, (∀ r ∈ refs, r < N) → g refs = refs) :
    ∀ cs : List aiNode, aiNode.refsBelowList N cs = true → aiNode.mapMeshesList g cs = cs
  | [], _ => by rw [aiNode.mapMeshesList]
  | c :: cs, h => by
    simp only [aiNode.refsBelowList, Bool.and_eq_true] at h
    rw [aiNode.mapMeshesList, mapMeshes_fixed g N hg c h.1, mapMeshesList_fixed g N hg cs h.2]
end

mutual
theorem refsBelow_mapMeshes (g : List Nat → List Nat) (N N' : Nat)
    (hg : ∀ refs : List Nat, (∀ r ∈ refs, r < N) → ∀ r' ∈ g refs, r' < N') :
    ∀ t : aiNode, aiNode.refsBelow N t = true →
      aiNode.refsBelow N' (aiNode.mapMeshes g t) = true
  | .mk ms cs, h => by
    simp only [aiNode.refsBelow, Bool.and_eq_true, List.all_eq_true, decide_eq_true_eq] at h
    simp only [aiNode.mapMeshes, aiNode.refsBelow, Bool.and_eq_true, List.all_eq_true,
      decide_eq_true_eq]
    exact ⟨hg ms h.1, refsBelowList_mapMeshes g N N' hg cs h.2⟩
theorem refsBelowList_mapMeshes (g : List Nat → List Nat) (N N' : Nat)
    (hg : ∀ refs : List Nat, (∀ r ∈ refs, r < N) → ∀ r' ∈ g refs, r' < N') :
    ∀ cs : List aiNode, aiNode.refsBelowList N cs = true →
      aiNode.refsBelowList N' (aiNode.mapMeshesList g cs) = true
  | [], _ => by rw [aiNode.mapMeshesList, aiNode.refsBelowList]
  | c :: cs, h => by
    simp only [aiNode.refsBelowList, Bool.and_eq_true] at h
    simp only [aiNode.mapMeshesList, aiNode.refsBelowList, Bool.and_eq_true]
    exact ⟨refsBelow_mapMeshes g N N' hg c h.1, refsBelowList_mapMeshes g N N' hg cs h.2⟩
end

theorem newIndex_of_removed (K : Constants) (ms : List aiMesh) (r : Nat) (m : aiMesh)
    (hm : ms[r]? = some m) (hr : retained K m = none) : newIndex K ms r = none := by
  simp [newIndex, hm, hr]

theorem newIndex_of_retained (K : Constants) (ms : List aiMesh) (r : Nat) (m m' : aiMesh)
    (hm : ms[r]? = some m) (hr : retained K m = some m') :
    newIndex K ms r = some ((ms.take r).filterMap (retained K)).length := by
  simp [newIndex, hm, hr]

theorem newIndex_designates (K : Constants) (ms : List aiMesh) (r r' : Nat)
    (h : newIndex K ms r = some r') :
    ∃ m m', ms[r]? = some m ∧ retained K m = some m' ∧
      (ms.filterMap (retained K))[r']? = some m' := by
  unfold newIndex at h
  split at h
  · rename_i m hm
    cases hr : retained K m with
    | none => rw [hr] at h; cases h
    | some m' =>
      rw [hr] at h
      simp only [Option.map_some', Option.some.injEq] at h
      subst h
      exact ⟨m, m', hm, hr, filterMap_position (retained K) ms r m m' hm hr⟩
  · cases h

theorem filterMap_fixed (f : Nat → Option Nat) (refs : List Nat)
    (h : ∀ r ∈ refs, f r = some r) : refs.filterMap f = refs := by
  induction refs with
  | nil => rfl
  | cons r rs ih =>
    rw [List.filterMap_cons, h r (List.mem_cons_self _ _),
      ih (fun x hx => h x (List.mem_cons_of_mem _ hx))]

theorem filterMap_full {α β : Type} (f : α → Option β) :
    ∀ (xs : List α), (xs.filterMap f).length = xs.length →
      ∀ (a : Nat) (x : α), xs[a]? = some x →
        (f x).isSome = true ∧ ((xs.take a).filterMap f).length = a := by
  intro xs
  induction xs with
  | nil => intro _ a x h; simp at h
  | cons z xs ih =>
    intro hlen a x h
    have hle := List.length_filterMap_le f xs
    cases hz : f z with
    | none =>
      rw [List.filterMap_cons, hz] at hlen
      simp only [List.length_cons] at hlen
      omega
    | some w =>
      rw [List.filterMap_cons, hz] at hlen
      simp only [List.length_cons, Nat.add_right_cancel_iff] at hlen
      cases a with
      | zero =>
        simp only [List.getElem?_cons_zero, Option.some.injEq] at h
        subst h
        simp [hz]
      | succ a =>
        simp only [List.getElem?_cons_succ] at h
        obtain ⟨h1, h2⟩ := ih hlen a x h
        refine ⟨h1, ?_⟩
        simp only [List.take_succ_cons, List.filterMap_cons, hz, List.length_cons, h2]

/-- Mapping references through the index map of `Execute` and dropping the
sentinel gives the new indices of the retained meshes. -/
theorem remap_mappingFrom (K : Constants) (ms : List aiMesh) (hsize : ms.length < 4294967296) :
    ∀ refs : List Nat, (∀ r ∈ refs, r < ms.length) →
      remap (mappingFrom K 0 ms) refs = refs.filterMap (newIndex K ms) := by
  intro refs
  induction refs with
  | nil => intro _; rfl
  | cons r rs ih =>
    intro h
    have hr : r < ms.length := h r (List.mem_cons_self _ _)
    have hrs := ih (fun x hx => h x (List.mem_cons_of_mem _ hx))
    have hm : ms[r]? = some ms[r] := List.getElem?_eq_getElem hr
    have hget := mappingFrom_get K ms 0 r ms[r] hm
    cases hret : retained K ms[r] with
    | none =>
      rw [hret] at hget
      rw [remap_cons_drop _ _ _ hget, List.filterMap_cons,
        newIndex_of_removed K ms r _ hm hret, hrs]
    | some m' =>
      rw [hret] at hget
      simp only [Nat.zero_add] at hget
      have hle : ((ms.take r).filterMap (retained K)).length ≤ r := by
        have h1 := List.length_filterMap_le (retained K) (ms.take r)
        have h2 : (ms.take r).length ≤ r := by
          rw [List.length_take]
          exact Nat.min_le_left _ _
        omega
      rw [remap_cons_keep _ _ _ _ hget (by omega), List.filterMap_cons,
        newIndex_of_retained K ms r _ m' hm hret, hrs]

/-- C2. For a scene with fewer than 2^32 meshes in which every mesh
reference of every node is a valid index into the mesh collection, when
`Execute` completes without failure the node graph has the same shape, and
the reference list of every node is the old list in which every reference to
a retained mesh is replaced by the new index of that mesh and every
reference to a removed mesh is dropped, the others keeping their order;
every reference is a valid index into the new mesh collection; and the new
index of a retained mesh designates, in the new collection, that mesh as
`ProcessMesh` left it. -/
theorem C2_Execute_repairs_references (K : Constants) (s s' : aiScene)
    (hvalid : aiNode.refsBelow s.mNumMeshes s.mRootNode = true)
    (hsize : s.mNumMeshes < 4294967296)
    (h : Execute K s = .ok s') :
    s'.mRootNode = aiNode.mapMeshes (List.filterMap (newIndex K s.mMeshes)) s.mRootNode ∧
    aiNode.refsBelow s'.mMeshes.length s'.mRootNode = true ∧
    ∀ (r : Nat) (m : aiMesh), s.mMeshes[r]? = some m →
      (retained K m = none → newIndex K s.mMeshes r = none) ∧
      ∀ m', retained K m = some m' →
        ∃ r', newIndex K s.mMeshes r = some r' ∧ s'.mMeshes[r']? = some m' := by
  obtain ⟨_, hms, rm, _, hmap, hreal, hc⟩ := Execute_meshes K s s' h
  have hroot : s'.mRootNode =
      aiNode.mapMeshes (List.filterMap (newIndex K s.mMeshes)) s.mRootNode := by
    rcases hc with ⟨_, _, hu⟩ | ⟨hN, hr⟩
    · have hl : rm.2.1.length = s.mNumMeshes := by rw [hmap, mappingFrom_length]
      have := UpdateMeshReferences.tree_spec rm.2.1 s.mRootNode (by rw [hl]; exact hvalid)
      rw [hu] at this
      rw [Except.ok.inj this, hmap]
      exact mapMeshes_congr _ _ s.mNumMeshes (remap_mappingFrom K s.mMeshes hsize) _ hvalid
    · rw [hr]
      refine (mapMeshes_fixed _ s.mNumMeshes (fun refs hrefs => ?_) _ hvalid).symm
      refine filterMap_fixed _ refs (fun r hr => ?_)
      have hlt : r < s.mMeshes.length := hrefs r hr
      have hm : s.mMeshes[r]? = some s.mMeshes[r] := List.getElem?_eq_getElem hlt
      obtain ⟨h1, h2⟩ := filterMap_full (retained K) s.mMeshes (by rw [← hreal, hN]) r _ hm
      obtain ⟨m', hm'⟩ := Option.isSome_iff_exists.mp h1
      rw [newIndex_of_retained K s.mMeshes r _ m' hm hm', h2]
  refine ⟨hroot, ?_, fun r m hm => ⟨newIndex_of_removed K s.mMeshes r m hm, fun m' hr => ?_⟩⟩
  · rw [hroot]
    refine refsBelow_mapMeshes _ s.mNumMeshes _ (fun refs _ r' hr' => ?_) _ hvalid
    obtain ⟨r, _, hr⟩ := List.mem_filterMap.mp hr'
    obtain ⟨_, _, _, _, hg⟩ := newIndex_designates K s.mMeshes r r' hr
    rw [hms]
    exact (List.getElem?_eq_some.mp hg).1
  · refine ⟨_, newIndex_of_retained K s.mMeshes r m m' hm hr, ?_⟩
    rw [hms]
    exact filterMap_position (retained K) s.mMeshes r m m' hm hr

/-- Witness of C2: in the example with three meshes, of which the second is
removed, the root node referencing `[0,1,2]` ends up referencing `[0,1]`,
and its child referencing `[1]` ends up with no reference. -/
theorem C2_Execute_repairs_references_witness :
    Execute assimpConstants threeMeshScene = .ok threeMeshSceneAfter ∧
    threeMeshSceneAfter.mRootNode =
      aiNode.mapMeshes (List.filterMap (newIndex assimpConstants threeMeshScene.mMeshes))
        threeMeshScene.mRootNode ∧
    threeMeshSceneAfter.mRootNode = .mk [0, 1] [.mk [] []] :=
  ⟨threeMeshScene_run,
    (C2_Execute_repairs_references assimpConstants threeMeshScene threeMeshSceneAfter
      (by decide) (by decide) threeMeshScene_run).1, rfl⟩

/-! ## ProcessAnimationChannel -/

/-- C10. A channel without position and scaling keys whose two rotation
keys carry different values is flagged as dummy by `ProcessAnimationChannel`
(it returns 1): line 282 tests the count of the scaling keys before it
compares the rotation keys, and line 283 the count of the rotation keys
before it compares the scaling keys. -/
theorem C10_ProcessAnimationChannel_flags_moving_rotation :
    (aiQuatKey.ne
        ⟨.finite false 0, ⟨.finite false 1, .finite false 0, .finite false 0, .finite false 0⟩⟩
        ⟨.finite false 1, ⟨.finite false 0, .finite false 1, .finite false 0, .finite false 0⟩⟩
      = true) ∧
    ProcessAnimationChannel
      { mPositionKeys := [],
        mRotationKeys :=
          [⟨.finite false 0, ⟨.finite false 1, .finite false 0, .finite false 0, .finite false 0⟩⟩,
           ⟨.finite false 1, ⟨.finite false 0, .finite false 1, .finite false 0, .finite false 0⟩⟩],
        mScalingKeys := [] } = .ok 1 :=
  ⟨by decide, by decide⟩

/-! ## ValidateArrayContents with a lookup table -/

/-- A non-finite element that the lookup table does not exempt is reported. -/
theorem ValidateArrayContents.mask_special (arr : List aiVector3D) (dirtyMask : List Bool) :
    ∀ (k i : Nat) (b : Bool), i + k ≤ arr.length →
      (dirtyMask = [] ∨ i + k ≤ dirtyMask.length) →
      (∃ j v, i ≤ j ∧ j < i + k ∧ exempt dirtyMask j = false ∧ arr[j]? = some v ∧
        v.hasNonFinite = true) →
      ValidateArrayContents.loop arr dirtyMask k i b =
        .ok (some "INF/NAN was found in a vector component") := by
  intro k
  induction k with
  | zero => rintro i b _ _ ⟨j, v, h1, h2, _⟩; omega
  | succ k ih =>
    rintro i b hi hm ⟨j, v, h1, h2, hex, hv, hs⟩
    have hil : i < arr.length := by omega
    have hm2 : dirtyMask = [] ∨ i + 1 + k ≤ dirtyMask.length := hm.imp id (fun h => by omega)
    rw [ValidateArrayContents.loop_step arr dirtyMask k i b hil (hm.imp id (fun h => by omega))]
    by_cases hji : j = i
    · subst hji
      rw [List.getElem?_eq_getElem hil] at hv
      cases hv
      simp [hex, hs]
    · split
      · exact ih (i + 1) _ (by omega) hm2 ⟨j, v, by omega, by omega, hex, hv, hs⟩
      · split
        · rfl
        · exact ih (i + 1) _ (by omega) hm2 ⟨j, v, by omega, by omega, hex, hv, hs⟩

/-- On an array of finite vectors the verdict with the empty lookup table is
"no error" or "All vectors are identical". -/
theorem ValidateArrayContents.finite_verdict (arr : List aiVector3D) :
    ∀ (k i : Nat) (b : Bool), i + k ≤ arr.length →
      (∀ j v, i ≤ j → j < i + k → arr[j]? = some v → v.hasNonFinite = false) →
      ValidateArrayContents.loop arr [] k i b = .ok none ∨
        ValidateArrayContents.loop arr [] k i b = .ok (some "All vectors are identical") := by
  intro k
  induction k with
  | zero =>
    intro i b _ _
    cases b <;> simp [ValidateArrayContents.loop]
  | succ k ih =>
    intro i b hi hf
    have hil : i < arr.length := by omega
    rw [ValidateArrayContents.loop_step_nil arr k i b hil,
      hf i arr[i] (Nat.le_refl i) (by omega) (List.getElem?_eq_getElem hil)]
    simp only [Bool.false_eq_true, if_false]
    exact ih (i + 1) _ (by omega) (fun j v h1 h2 => hf j v (by omega) (by omega))

/-- C13. For an array, empty or not, of vectors with finite components, validated
with the empty lookup table, `ValidateArrayContents` reports
"All vectors are identical" if and only if no two elements differ; an array
in which some element differs from another is reported without error. -/
theorem C13_degenerate_iff_identical (arr : List aiVector3D)
    (hfin : ∀ v ∈ arr, v.hasNonFinite = false) :
    (ValidateArrayContents arr arr.length [] = .ok (some "All vectors are identical") ↔
      ∀ u ∈ arr, ∀ v ∈ arr, u.ne v = false) ∧
    ((∃ u ∈ arr, ∃ v ∈ arr, u.ne v = true) →
      ValidateArrayContents arr arr.length [] = .ok none) := by
  obtain ⟨_, hiff⟩ := ValidateArrayContents.nil_spec arr arr.length rfl
  have hnosp : ¬ ∃ v ∈ arr, v.hasNonFinite = true := by
    rintro ⟨v, hv, hs⟩
    rw [hfin v hv] at hs
    cases hs
  have hverdict := ValidateArrayContents.finite_verdict arr arr.length 0 false (by omega)
    (fun j v _ _ h => hfin v (List.getElem?_mem h))
  have hiff2 : (∃ msg, ValidateArrayContents arr arr.length [] = .ok (some msg)) ↔
      ∀ u ∈ arr, ∀ v ∈ arr, u.ne v = false := by
    rw [hiff]
    exact ⟨fun h => h.resolve_left hnosp, Or.inr⟩
  constructor
  · constructor
    · intro h
      exact hiff2.mp ⟨_, h⟩
    · intro h
      obtain ⟨msg, hmsg⟩ := hiff2.mpr h
      rcases hverdict with hv | hv
      · unfold ValidateArrayContents at hmsg
        rw [hv] at hmsg
        cases hmsg
      · exact hv
  · rintro ⟨u, hu, v, hv, huv⟩
    rcases hverdict with hr | hr
    · exact hr
    · have := hiff2.mp ⟨_, hr⟩ u hu v hv
      rw [huv] at this
      cases this

/-- Witness of C13: five vectors all equal to `(1,1,1)` are flagged. -/
theorem C13_degenerate_iff_identical_witness :
    ValidateArrayContents [vec 1 1 1, vec 1 1 1, vec 1 1 1, vec 1 1 1, vec 1 1 1] 5 [] =
      .ok (some "All vectors are identical") :=
  (C13_degenerate_iff_identical [vec 1 1 1, vec 1 1 1, vec 1 1 1, vec 1 1 1, vec 1 1 1]
    (by decide)).1.mpr (by decide)

/-- C14 as stated fails: the array `[NaN, (0,0,1), (0,1,0)]` whose first
element is exempted by the lookup table is reported without error. -/
theorem C14_counterexample :
    ¬ ∀ (arr : List aiVector3D) (dirtyMask : List Bool), dirtyMask.length = arr.length →
      (∃ v ∈ arr, v.hasNonFinite = true) →
      ValidateArrayContents arr arr.length dirtyMask =
        .ok (some "INF/NAN was found in a vector component") := by
  intro hall
  have h := hall [⟨.nan, .nan, .nan⟩, vec 0 0 1, vec 0 1 0] [true, false, false] rfl
    ⟨⟨.nan, .nan, .nan⟩, by simp, rfl⟩
  have h2 : ValidateArrayContents [⟨.nan, .nan, .nan⟩, vec 0 0 1, vec 0 1 0] 3
      [true, false, false] = .ok none := by decide
  rw [show ([⟨.nan, .nan, .nan⟩, vec 0 0 1, vec 0 1 0] : List aiVector3D).length = 3 from rfl,
    h2] at h
  cases h

/-- C14, amended. For every array of `size` vectors and every lookup table
that is empty or has `size` entries, if an element that the table does not
exempt has a non-finite component, `ValidateArrayContents` reports
"INF/NAN was found in a vector component"; an exempted element is skipped
before its components are tested. -/
theorem C14_nonexempt_special_reported (arr : List aiVector3D) (size : Nat)
    (dirtyMask : List Bool) (ha : arr.length = size)
    (hm : dirtyMask = [] ∨ dirtyMask.length = size)
    (h : ∃ j v, j < size ∧ exempt dirtyMask j = false ∧ arr[j]? = some v ∧
      v.hasNonFinite = true) :
    ValidateArrayContents arr size dirtyMask =
      .ok (some "INF/NAN was found in a vector component") := by
  obtain ⟨j, v, hj, hex, hv, hs⟩ := h
  exact ValidateArrayContents.mask_special arr dirtyMask size 0 false (by omega)
    (hm.imp id (fun h => by omega)) ⟨j, v, Nat.zero_le j, by omega, hex, hv, hs⟩

/-- Witness of C14, amended: a NaN at the second vertex, which the lookup
table does not exempt, is reported. -/
theorem C14_nonexempt_special_reported_witness :
    ValidateArrayContents [vec 0 0 1, ⟨.nan, .nan, .nan⟩, vec 0 1 0] 3 [true, false, false] =
      .ok (some "INF/NAN was found in a vector component") :=
  C14_nonexempt_special_reported _ 3 [true, false, false] rfl (Or.inr rfl)
    ⟨1, ⟨.nan, .nan, .nan⟩, by decide, by decide, rfl, rfl⟩

/-- C15. An array of two different vectors, both exempted by the lookup
table, is reported as degenerate by `ValidateArrayContents`, and
`ProcessArray` deletes it; `ProcessMesh` deletes in this way the normals of a
mesh in which every vertex of the triangle is also an end of a line. -/
theorem C15_all_exempt_reported_degenerate :
    aiVector3D.ne (vec 1 0 0) (vec 0 1 0) = true ∧
    ValidateArrayContents [vec 1 0 0, vec 0 1 0] 2 [true, true] =
      .ok (some "All vectors are identical") ∧
    ProcessArray [vec 1 0 0, vec 0 1 0] 2 [true, true] = .ok (none, true) ∧
    ProcessMesh assimpConstants wireMesh = .ok (1, { wireMesh with mNormals := none }) :=
  ⟨by decide, by decide, by decide, by decide⟩

/-- C19. With the lookup table `[false, true, false]`, which leaves two
elements non-exempted: the array `[(1,0,0), (0,1,0), (0,1,0)]`, whose
non-exempted elements differ, is reported as degenerate, and the array
`[(1,0,0), (0,1,0), (1,0,0)]`, whose non-exempted elements are the same, is
reported without error.  Line 202 compares a non-exempted element with its
predecessor in the array, exempted or not. -/
theorem C19_exempted_predecessor_compared :
    aiVector3D.ne (vec 1 0 0) (vec 0 1 0) = true ∧
    ValidateArrayContents [vec 1 0 0, vec 0 1 0, vec 0 1 0] 3 [false, true, false] =
      .ok (some "All vectors are identical") ∧
    aiVector3D.ne (vec 1 0 0) (vec 1 0 0) = false ∧
    ValidateArrayContents [vec 1 0 0, vec 0 1 0, vec 1 0 0] 3 [false, true, false] =
      .ok none :=
  ⟨by decide, by decide, by decide, by decide⟩

/-! ## ProcessAnimation -/

theorem dummy_of_result (c : aiNodeAnim) (r : Int) (h : ProcessAnimationChannel c = .ok r) :
    dummy c = (r != 0) := by
  simp [dummy, h]

/-- Invariant of the channel loop: with `real ≤ a` the retained channels
are written over slots that were already read. -/
theorem ProcessAnimation.channels_spec :
    ∀ (k a : Nat) (mChannels : List aiNodeAnim) (real : Nat) (out : Bool),
      real ≤ a → a + k = mChannels.length →
      ∃ res, ProcessAnimation.channels k a mChannels real out =
          .ok (res, real + ((mChannels.drop a).filter fun c => !dummy c).length,
            out || (mChannels.drop a).any dummy) ∧
        res.length = mChannels.length ∧
        res.take (real + ((mChannels.drop a).filter fun c => !dummy c).length) =
          mChannels.take real ++ (mChannels.drop a).filter fun c => !dummy c := by
  intro k
  induction k with
  | zero =>
    intro a ch real out _ hlen
    have hd : ch.drop a = [] := List.drop_of_length_le (by omega)
    refine ⟨ch, ?_, rfl, ?_⟩
    · rw [ProcessAnimation.channels, hd]
      simp
    · rw [hd]
      simp
  | succ k ih =>
    intro a ch real out hra hlen
    have ha : a < ch.length := by omega
    have hd : ch.drop a = ch[a] :: ch.drop (a + 1) := List.drop_eq_getElem_cons ha
    obtain ⟨r, hr⟩ := ProcessAnimationChannel_total ch[a]
    have hdum := dummy_of_result _ _ hr
    rw [ProcessAnimation.channels, rd_of_lt _ _ ha, ok_bind, hr, ok_bind]
    by_cases hz : (r != 0) = true
    · rw [if_pos hz]
      obtain ⟨res, h1, h2, h3⟩ := ih (a + 1) ch real true (by omega) (by omega)
      rw [hz] at hdum
      refine ⟨res, ?_, h2, ?_⟩
      · rw [h1, hd, List.filter_cons, List.any_cons, hdum]
        simp
      · rw [hd, List.filter_cons, hdum]
        simpa using h3
    · rw [if_neg hz, ok_bind, wr_of_lt _ _ _ (by omega), ok_bind]
      have hz2 : (r != 0) = false := by simpa using hz
      rw [hz2] at hdum
      obtain ⟨res, h1, h2, h3⟩ := ih (a + 1) (ch.set real ch[a]) (real + 1) out (by omega)
        (by rw [List.length_set]; omega)
      have hdrop : (ch.set real ch[a]).drop (a + 1) = ch.drop (a + 1) :=
        List.drop_set_of_lt _ _ (by omega)
      rw [hdrop] at h1 h3
      rw [take_succ_set _ _ _ (by omega)] at h3
      rw [List.length_set] at h2
      have hlen2 : real + ((ch.drop a).filter fun c => !dummy c).length =
          real + 1 + ((ch.drop (a + 1)).filter fun c => !dummy c).length := by
        rw [hd, List.filter_cons, hdum]
        simp only [Bool.not_false, if_true, List.length_cons]
        omega
      refine ⟨res, ?_, h2, ?_⟩
      · rw [h1, hlen2, hd, List.any_cons, hdum]
        simp
      · rw [hlen2, h3, hd, List.filter_cons, hdum]
        simp

/-- What `ProcessAnimation` returns: the channels that are not flagged, in
their order, and 0, 2 or 1. -/
theorem ProcessAnimation_spec (anim : aiAnimation) :
    ProcessAnimation anim =
      .ok (if anim.mChannels.any dummy then
            (if (anim.mChannels.filter fun c => !dummy c).length == 0 then 2 else 1)
          else 0,
        { mChannels := anim.mChannels.filter fun c => !dummy c }) := by
  obtain ⟨res, h1, h2, h3⟩ := ProcessAnimation.channels_spec anim.mChannels.length 0
    anim.mChannels 0 false (Nat.le_refl 0) (by omega)
  simp only [List.drop_zero, Nat.zero_add, List.take_zero, List.nil_append,
    Bool.false_or] at h1 h3
  unfold ProcessAnimation
  rw [h1, ok_bind]
  simp only
  by_cases hany : anim.mChannels.any dummy = true
  · rw [if_pos hany, if_pos hany, h3]
    split <;> rfl
  · rw [if_neg hany, if_neg hany]
    have hall : (anim.mChannels.filter fun c => !dummy c) = anim.mChannels := by
      rw [List.filter_eq_self]
      intro c hc
      simp only [Bool.not_eq_true, List.any_eq_false] at hany
      simpa using hany c hc
    rw [hall] at h3
    rw [hall, ← h3, ← h2, List.take_length]

/-- C11. For every animation, `ProcessAnimation` retains exactly the
channels that `ProcessAnimationChannel` does not flag as dummy, in their
original order (the channel count is the length of the retained list); it
returns 0 when no channel was removed, 2 when at least one channel was
removed and none remains, and 1 when at least one channel was removed and at
least one remains. -/
theorem C11_ProcessAnimation_retains_undummy (anim : aiAnimation) :
    ∃ res, ProcessAnimation anim =
        .ok (res, { mChannels := anim.mChannels.filter fun c => !dummy c }) ∧
      (anim.mChannels.any dummy = false → res = 0) ∧
      (anim.mChannels.any dummy = true →
        (anim.mChannels.filter fun c => !dummy c) = [] → res = 2) ∧
      (anim.mChannels.any dummy = true →
        (anim.mChannels.filter fun c => !dummy c) ≠ [] → res = 1) := by
  refine ⟨_, ProcessAnimation_spec anim, fun h => ?_, fun h hk => ?_, fun h hk => ?_⟩
  · simp [h]
  · simp [h, hk]
  · have : ((anim.mChannels.filter fun c => !dummy c).length == 0) = false := by
      simp only [beq_eq_false_iff_ne, ne_eq, List.length_eq_zero]
      exact hk
    simp [h, this]

/-- Witness of C11: an animation with a dummy and a moving channel keeps
the moving one, and the return value is 1. -/
theorem C11_ProcessAnimation_retains_undummy_witness :
    dummy stillChannel = true ∧ dummy movingChannel = false ∧
    ProcessAnimation { mChannels := [stillChannel, movingChannel] } =
      .ok (1, { mChannels := [movingChannel] }) := by
  refine ⟨by decide, by decide, ?_⟩
  obtain ⟨res, h, _, _, h1⟩ :=
    C11_ProcessAnimation_retains_undummy { mChannels := [stillChannel, movingChannel] }
  rw [h, h1 (by decide) (by decide)]
  decide

/-! ## The animation loop of Execute -/

theorem retainedAnimation_of_two (a a' : aiAnimation) (h : ProcessAnimation a = .ok (2, a')) :
    retainedAnimation a = none ∧ flaggedAnimation a = true := by
  simp [retainedAnimation, flaggedAnimation, h]

theorem retainedAnimation_of_ne_two (a a' : aiAnimation) (res : Int)
    (h : ProcessAnimation a = .ok (res, a')) (hres : res ≠ 2) :
    retainedAnimation a = some a' ∧ flaggedAnimation a = (res != 0) := by
  simp [retainedAnimation, flaggedAnimation, h, hres]

/-- Invariant of the animation loop of `Execute`. -/
theorem Execute.animations_spec :
    ∀ (k a : Nat) (mAnimations : List aiAnimation) (real : Nat) (out : Bool),
      real ≤ a → a + k = mAnimations.length →
      ∃ res, Execute.animations k a mAnimations real out =
          .ok (res, real + ((mAnimations.drop a).filterMap retainedAnimation).length,
            out || (mAnimations.drop a).any flaggedAnimation) ∧
        res.length = mAnimations.length ∧
        res.take (real + ((mAnimations.drop a).filterMap retainedAnimation).length) =
          mAnimations.take real ++ (mAnimations.drop a).filterMap retainedAnimation := by
  intro k
  induction k with
  | zero =>
    intro a arr real out _ hlen
    have hd : arr.drop a = [] := List.drop_of_length_le (by omega)
    refine ⟨arr, ?_, rfl, ?_⟩
    · rw [Execute.animations, hd]
      simp
    · rw [hd]
      simp
  | succ k ih =>
    intro a arr real out hra hlen
    have ha : a < arr.length := by omega
    have hd : arr.drop a = arr[a] :: arr.drop (a + 1) := List.drop_eq_getElem_cons ha
    obtain ⟨⟨code, x'⟩, hp⟩ := ProcessAnimation_total arr[a]
    rw [Execute.animations, rd_of_lt _ _ ha, ok_bind, hp, ok_bind, wr_of_lt _ _ _ ha, ok_bind]
    simp only
    have hd1 : (arr.set a x').drop (a + 1) = arr.drop (a + 1) :=
      List.drop_set_of_lt _ _ (by omega)
    by_cases h2 : code = 2
    · subst h2
      have hc : (((2 : Int) != 0) && ((2 : Int) == 2)) = true := by decide
      rw [if_pos hc]
      obtain ⟨res, h1, hl, h3⟩ := ih (a + 1) (arr.set a x') real true (by omega)
        (by rw [List.length_set]; omega)
      obtain ⟨hret, hfl⟩ := retainedAnimation_of_two _ _ hp
      rw [hd1] at h1 h3
      rw [List.length_set] at hl
      rw [take_set_of_le _ _ _ _ hra] at h3
      refine ⟨res, ?_, hl, ?_⟩
      · rw [h1, hd, List.filterMap_cons, hret, List.any_cons, hfl]
        simp
      · rw [hd, List.filterMap_cons, hret]
        exact h3
    · have hc : ((code != 0) && ((2 : Int) == code)) = false := by
        simp only [Bool.and_eq_false_iff, beq_eq_false_iff_ne, ne_eq]
        exact Or.inr (fun e => h2 e.symm)
      have hreal : real < arr.length := by omega
      rw [hc]
      simp only [Bool.false_eq_true, if_false]
      rw [rd_of_lt _ _ (by rw [List.length_set]; exact ha), ok_bind,
        wr_of_lt _ _ _ (by rw [List.length_set]; exact hreal), ok_bind]
      simp only [List.getElem_set_self]
      obtain ⟨res, h1, hl, h3⟩ := ih (a + 1) ((arr.set a x').set real x') (real + 1)
        (if (code != 0) = true then true else out) (by omega)
        (by rw [List.length_set, List.length_set]; omega)
      obtain ⟨hret, hfl⟩ := retainedAnimation_of_ne_two _ _ _ hp h2
      have hd2 : ((arr.set a x').set real x').drop (a + 1) = arr.drop (a + 1) := by
        rw [List.drop_set_of_lt _ _ (by omega), hd1]
      rw [hd2] at h1 h3
      rw [List.length_set, List.length_set] at hl
      rw [take_succ_set _ _ _ (by rw [List.length_set]; exact hreal),
        take_set_of_le _ _ _ _ hra] at h3
      have hlen2 : real + ((arr.drop a).filterMap retainedAnimation).length =
          real + 1 + ((arr.drop (a + 1)).filterMap retainedAnimation).length := by
        rw [hd, List.filterMap_cons, hret]
        simp only [List.length_cons]
        omega
      refine ⟨res, ?_, hl, ?_⟩
      · rw [h1, hlen2, hd, List.any_cons, hfl]
        cases (code != 0) <;> cases out <;> simp
      · rw [hlen2, h3, hd, List.filterMap_cons, hret]
        simp

theorem filterMap_retainedAnimation_full (as : List aiAnimation)
    (hfl : as.any flaggedAnimation = false) :
    as.filterMap retainedAnimation = as := by
  induction as with
  | nil => rfl
  | cons a as ih =>
    simp only [List.any_cons, Bool.or_eq_false_iff] at hfl
    have hspec := ProcessAnimation_spec a
    have hf := hfl.1
    rw [flaggedAnimation, hspec] at hf
    simp only [bne_eq_false_iff_eq] at hf
    by_cases hany : a.mChannels.any dummy = true
    · rw [if_pos hany] at hf
      split at hf <;> cases hf
    · have hall : (a.mChannels.filter fun c => !dummy c) = a.mChannels := by
        rw [List.filter_eq_self]
        intro c hc
        simp only [Bool.not_eq_true, List.any_eq_false] at hany
        simpa using hany c hc
      have hret : retainedAnimation a = some a := by
        rw [retainedAnimation, hspec, if_neg hany, hall]
        rfl
      rw [List.filterMap_cons, hret, ih hfl.2]

/-- The animations of the scene after `Execute`. -/
theorem Execute_animations (K : Constants) (s s' : aiScene) (h : Execute K s = .ok s') :
    s'.mAnimations = s.mAnimations.filterMap retainedAnimation := by
  obtain ⟨rm, rn, hm, hn, _⟩ := Execute_cases K s s' h
  obtain ⟨res, h1, hl, h3⟩ := Execute.animations_spec s.mNumAnimations 0 s.mAnimations 0
    rm.2.2.2 (Nat.le_refl 0) (by simp)
  simp only [List.drop_zero, Nat.zero_add, List.take_zero, List.nil_append] at h1 h3
  rw [hn] at h1
  have hrn := Except.ok.inj h1
  unfold Execute at h
  simp only at h
  rw [hm, ok_bind, hn, ok_bind] at h
  have hkept : ∀ t : aiScene, (Except.ok t : Except Fault aiScene) = .ok s' →
      t.mAnimations = (if (rn.2.1 == 0) = true then [] else rn.1.take rn.2.1) →
      s'.mAnimations = s.mAnimations.filterMap retainedAnimation := by
    intro t ht hta
    cases ht
    rw [hta, hrn]
    simp only
    split
    · rename_i hz
      simp only [beq_iff_eq, List.length_eq_zero] at hz
      exact hz.symm
    · exact h3
  by_cases hout : rn.2.2 = true
  · rw [if_pos hout] at h
    split at h
    · split at h
      · cases h
      · cases hu : UpdateMeshReferences rm.2.1 s.mRootNode with
        | error e => rw [hu] at h; cases h
        | ok root =>
          rw [hu, ok_bind] at h
          exact hkept _ h rfl
    · exact hkept _ h rfl
  · rw [if_neg hout] at h
    cases h
    simp only
    have hfl : s.mAnimations.any flaggedAnimation = false := by
      have : rn.2.2 = false := by simpa using hout
      rw [hrn] at this
      simp only [Bool.or_eq_false_iff] at this
      exact this.2
    have hfull := filterMap_retainedAnimation_full s.mAnimations hfl
    rw [hfull] at h3 ⊢
    rw [hrn]
    simp only
    rw [← hl, List.take_length] at h3
    exact h3

/-- C12 as stated fails: `Execute` completes without failure on a scene with
an animation that has no channels, and keeps that animation. -/
theorem C12_counterexample :
    ¬ ∀ (K : Constants) (s s' : aiScene), Execute K s = .ok s' →
      ∀ a ∈ s'.mAnimations, a.mChannels ≠ [] :=
  fun hall => hall assimpConstants emptyAnimationScene emptyAnimationScene (by decide)
    { mChannels := [] } (by simp [emptyAnimationScene]) rfl

/-- C12, amended. For every scene in which every animation has at least one
channel, after `Execute` completes without failure every animation that
remains has at least one channel; and whenever an animation with at least
one channel retains none, `ProcessAnimation` returns 2 on it (and `Execute`
removes it). -/
theorem C12_surviving_animation_has_channel (K : Constants) (s s' : aiScene)
    (hch : ∀ a ∈ s.mAnimations, a.mChannels ≠ [])
    (h : Execute K s = .ok s') :
    (∀ a' ∈ s'.mAnimations, a'.mChannels ≠ []) ∧
    ∀ a ∈ s.mAnimations, (a.mChannels.filter fun c => !dummy c) = [] →
      (∃ a', ProcessAnimation a = .ok (2, a')) ∧ retainedAnimation a = none := by
  have two : ∀ a ∈ s.mAnimations, (a.mChannels.filter fun c => !dummy c) = [] →
      ProcessAnimation a = .ok (2, { mChannels := [] }) := by
    intro a ha hk
    have hany : a.mChannels.any dummy = true := by
      obtain ⟨c, hc⟩ := List.exists_mem_of_ne_nil _ (hch a ha)
      rw [List.any_eq_true]
      refine ⟨c, hc, ?_⟩
      have hnot : c ∉ a.mChannels.filter fun c => !dummy c := by rw [hk]; simp
      simp only [List.mem_filter, hc, true_and, Bool.not_eq_true', Bool.not_eq_false] at hnot
      exact hnot
    rw [ProcessAnimation_spec a, if_pos hany, hk]
    rfl
  constructor
  · intro a' ha'
    rw [Execute_animations K s s' h, List.mem_filterMap] at ha'
    obtain ⟨a, ha, hr⟩ := ha'
    intro hempty
    by_cases hk : (a.mChannels.filter fun c => !dummy c) = []
    · rw [(retainedAnimation_of_two a _ (two a ha hk)).1] at hr
      cases hr
    · have hlen : ((a.mChannels.filter fun c => !dummy c).length == 0) = false := by
        simp only [beq_eq_false_iff_ne, ne_eq, List.length_eq_zero]
        exact hk
      have hcode : (if a.mChannels.any dummy = true then
          (if ((a.mChannels.filter fun c => !dummy c).length == 0) = true then (2 : Int) else 1)
          else 0) ≠ 2 := by
        rw [hlen]
        split <;> decide
      rw [(retainedAnimation_of_ne_two a _ _ (ProcessAnimation_spec a) hcode).1] at hr
      cases hr
      exact hk hempty
  · intro a ha hk
    exact ⟨⟨_, two a ha hk⟩, (retainedAnimation_of_two a _ (two a ha hk)).1⟩

set_option maxHeartbeats 4000000 in
/-- The run of `Execute` on the example with two animations. -/
theorem animatedScene_run :
    Execute assimpConstants animatedScene = .ok animatedSceneAfter := by
  decide

/-- Witness of C12, amended: of the two animations of the example the one
with dummy channels only is removed, and the other keeps its moving
channel. -/
theorem C12_surviving_animation_has_channel_witness :
    Execute assimpConstants animatedScene = .ok animatedSceneAfter ∧
    animatedSceneAfter.mAnimations = [{ mChannels := [movingChannel] }] ∧
    ({ mChannels := [movingChannel] } : aiAnimation).mChannels ≠ [] :=
  ⟨animatedScene_run, rfl,
    (C12_surviving_animation_has_channel assimpConstants animatedScene animatedSceneAfter
      (by decide) animatedScene_run).1 { mChannels := [movingChannel] }
      (by simp [animatedSceneAfter])⟩

/-! ## A second run -/

theorem ProcessArray_accept (arr : List aiVector3D) (num : Nat) (dirtyMask : List Bool)
    (h : ValidateArrayContents arr num dirtyMask = .ok none) :
    ProcessArray arr num dirtyMask = .ok (some arr, false) := by
  rw [ProcessArray_of_validate arr num dirtyMask none h]
  rfl

theorem ProcessMesh.normals_accept (dirtyMask : List Bool) (m : aiMesh) (ret : Bool)
    (h : ∀ a, m.mNormals = some a → ValidateArrayContents a m.mNumVertices dirtyMask = .ok none) :
    ProcessMesh.normals dirtyMask m ret = .ok (m, ret) := by
  unfold ProcessMesh.normals
  split
  · rfl
  · rename_i arr hn
    rw [ProcessArray_accept _ _ _ (h arr hn), ok_bind]
    rfl

theorem ProcessMesh.tangents_accept (dirtyMask : List Bool) (m : aiMesh) (ret : Bool)
    (h : ∀ a, m.mTangents = some a →
      ValidateArrayContents a m.mNumVertices dirtyMask = .ok none) :
    ProcessMesh.tangents dirtyMask m ret = .ok (m, ret) := by
  unfold ProcessMesh.tangents
  split
  · rfl
  · rename_i arr hn
    rw [ProcessArray_accept _ _ _ (h arr hn), ok_bind]
    rfl

theorem ProcessMesh.bitangents_accept (dirtyMask : List Bool) (m : aiMesh) (ret : Bool)
    (h : ∀ a, m.mBitangents = some a →
      ValidateArrayContents a m.mNumVertices dirtyMask = .ok none) :
    ProcessMesh.bitangents dirtyMask m ret = .ok (m, ret) := by
  unfold ProcessMesh.bitangents
  split
  · rfl
  · rename_i arr hn
    rw [ProcessArray_accept _ _ _ (h arr hn), ok_bind]
    rfl

/-- The loop over the texture coordinate sets changes nothing when the
sets from `i` up to a null entry (or the end of the table) are accepted. -/
theorem ProcessMesh.texcoords_accepted (K : Constants) (n : Nat) :
    ∀ (k i : Nat) (tc : List (Option (List aiVector3D))) (ret : Bool) (j : Nat),
      i + k = K.AI_MAX_NUMBER_OF_TEXTURECOORDS → i ≤ j →
      j ≤ K.AI_MAX_NUMBER_OF_TEXTURECOORDS →
      (j < K.AI_MAX_NUMBER_OF_TEXTURECOORDS → tc[j]? = some none) →
      (∀ l, i ≤ l → l < j →
        ∃ a, tc[l]? = some (some a) ∧ ValidateArrayContents a n [] = .ok none) →
      ProcessMesh.texcoords K n k i tc ret = .ok (tc, ret) := by
  intro k
  induction k with
  | zero => intro i tc ret j _ _ _ _ _; rw [ProcessMesh.texcoords]
  | succ k ih =>
    intro i tc ret j hk hij hj hnone hacc
    by_cases hji : j = i
    · subst hji
      exact ProcessMesh.texcoords_stop K n (k + 1) j tc ret (Or.inr (hnone (by omega)))
    · obtain ⟨a, ha, hv⟩ := hacc i (Nat.le_refl i) (by omega)
      have hrd : rd tc i = .ok (some a) := by
        unfold rd
        rw [ha]
      rw [ProcessMesh.texcoords, hrd, ok_bind]
      simp only
      rw [ProcessArray_accept _ _ _ hv, ok_bind]
      simp only [Bool.false_eq_true, if_false]
      exact ih (i + 1) tc ret j (by omega) (by omega) hj hnone
        (fun l h1 h2 => hacc l (by omega) h2)

/-- The loop over the texture coordinate sets changes nothing on the table
it produced. -/
theorem ProcessMesh.texcoords_again (K : Constants) (n : Nat)
    (tc tc' : List (Option (List aiVector3D))) (ret' : Bool)
    (h : ProcessMesh.texcoords K n K.AI_MAX_NUMBER_OF_TEXTURECOORDS 0 tc false = .ok (tc', ret')) :
    ProcessMesh.texcoords K n K.AI_MAX_NUMBER_OF_TEXTURECOORDS 0 tc' false = .ok (tc', false) := by
  rcases ProcessMesh.texcoords_run K n _ 0 _ _ _ _ (by omega) h with
    ⟨j, h1, h2, h3, h4, h5, _⟩ | ⟨j, a, msg, h1, h2, h3, _, _, _, _, h8, h9, _⟩
  · subst h5
    exact ProcessMesh.texcoords_accepted K n _ 0 tc' false j (by omega) h1 h2 h3 h4
  · refine ProcessMesh.texcoords_accepted K n _ 0 tc' false j (by omega) h1 (by omega)
      (fun _ => h9 j (Nat.le_refl j) h2) (fun l hl1 hl2 => ?_)
    obtain ⟨b, hb, hv⟩ := h3 l hl1 hl2
    exact ⟨b, by rw [h8 l hl2, hb], hv⟩

theorem ProcessMesh.lookup_frame (K : Constants) (m' m : aiMesh)
    (h1 : m'.mPrimitiveTypes = m.mPrimitiveTypes) (h2 : m'.mNumVertices = m.mNumVertices)
    (h3 : m'.mFaces = m.mFaces) : ProcessMesh.lookup K m' = ProcessMesh.lookup K m := by
  unfold ProcessMesh.lookup
  rw [h1, h2, h3]

/-- Lines 326-370 change nothing on the mesh they produced, and return 0
when entered with `ret = false`. -/
theorem ProcessMesh.attributes_again (K : Constants) (m : aiMesh) (ret : Bool) (res : Int)
    (m' : aiMesh) (h : ProcessMesh.attributes K m ret = .ok (res, m')) :
    ProcessMesh.attributes K m' false = .ok (0, m') := by
  have same : ∀ (b : Bool), (Except.ok ((if b then 1 else 0 : Int), m) :
      Except Fault (Int × aiMesh)) = .ok (res, m') → m' = m := by
    intro b hb
    cases hb
    rfl
  unfold ProcessMesh.attributes at h
  by_cases hnt : (m.mNormals.isSome || m.mTangents.isSome) = true
  · rw [if_pos hnt] at h
    cases ht : ProcessMesh.lookup K m with
    | error e => rw [ht] at h; cases h
    | ok t =>
      rw [ht, ok_bind] at h
      cases t with
      | none =>
        have := same _ h
        subst this
        unfold ProcessMesh.attributes
        rw [if_pos hnt, ht, ok_bind]
        rfl
      | some dirtyMask =>
        simp only at h
        cases h1 : ProcessMesh.normals dirtyMask m ret with
        | error e => rw [h1] at h; cases h
        | ok r1 =>
          rw [h1, ok_bind] at h
          cases h2 : ProcessMesh.tangents dirtyMask r1.1 r1.2 with
          | error e => rw [h2] at h; cases h
          | ok r2 =>
            rw [h2, ok_bind] at h
            cases h3 : ProcessMesh.bitangents dirtyMask r2.1 r2.2 with
            | error e => rw [h3] at h; cases h
            | ok r3 =>
              rw [h3, ok_bind] at h
              have hm : m' = r3.1 := by cases h; rfl
              subst hm
              obtain ⟨⟨f1, f2, _, _, f5⟩, hn, htb⟩ :=
                ProcessMesh.stages_fields dirtyMask m ret r1 r2 r3 h1 h2 h3
              have hN : ∀ a, r3.1.mNormals = some a →
                  ValidateArrayContents a r3.1.mNumVertices dirtyMask = .ok none := by
                intro a ha
                rcases hn with hn | ⟨hn, hv⟩
                · rw [hn] at ha; cases ha
                · rw [f2]; exact hv a (by rw [← hn]; exact ha)
              have hT : ∀ a, r3.1.mTangents = some a →
                  ValidateArrayContents a r3.1.mNumVertices dirtyMask = .ok none := by
                intro a ha
                rcases htb with ⟨ht2, _⟩ | ⟨ht2, _, hv, _⟩
                · rw [ht2] at ha; cases ha
                · rw [f2]; exact hv a (by rw [← ht2]; exact ha)
              have hB : ∀ a, r3.1.mBitangents = some a →
                  ValidateArrayContents a r3.1.mNumVertices dirtyMask = .ok none := by
                intro a ha
                rcases htb with ⟨_, hb2⟩ | ⟨_, hb2, _, hv⟩
                · rw [hb2] at ha; cases ha
                · rw [f2]; exact hv a (by rw [← hb2]; exact ha)
              unfold ProcessMesh.attributes
              split
              · rw [ProcessMesh.lookup_frame K r3.1 m f1 f2 f5, ht, ok_bind]
                simp only [ProcessMesh.normals_accept dirtyMask r3.1 false hN, ok_bind,
                  ProcessMesh.tangents_accept dirtyMask r3.1 false hT,
                  ProcessMesh.bitangents_accept dirtyMask r3.1 false hB]
                rfl
              · rfl
  · rw [if_neg hnt] at h
    have := same _ h
    subst this
    unfold ProcessMesh.attributes
    rw [if_neg hnt]
    rfl

/-- On a mesh that it kept, `ProcessMesh` changes nothing and returns 0. -/
theorem ProcessMesh_again (K : Constants) (m : aiMesh) (res : Int) (m' : aiMesh)
    (h : ProcessMesh K m = .ok (res, m')) (hres : res ≠ 2) :
    ProcessMesh K m' = .ok (0, m') := by
  rcases ProcessMesh_cases K m res m' h with ⟨h2, _⟩ | ⟨_, hv, ⟨tc', ret'⟩, ht, hat⟩
  · exact absurd h2 hres
  · obtain ⟨⟨_, f2, f3, f4, _⟩, _⟩ := ProcessMesh.attributes_sound K _ _ _ _ hat
    simp only at f2 f3 f4 hat
    have htex := ProcessMesh.texcoords_again K m.mNumVertices _ _ _ ht
    have hatt := ProcessMesh.attributes_again K _ _ _ _ hat
    have heta : ({ m' with mTextureCoords := tc' } : aiMesh) = m' := by
      cases m'
      simp only at f4
      rw [f4]
    have rest : ((ProcessMesh.texcoords K m'.mNumVertices K.AI_MAX_NUMBER_OF_TEXTURECOORDS 0
          m'.mTextureCoords false) >>= fun t =>
        ProcessMesh.attributes K { m' with mTextureCoords := t.1 } t.2) = .ok (0, m') := by
      have htex2 : ProcessMesh.texcoords K m'.mNumVertices K.AI_MAX_NUMBER_OF_TEXTURECOORDS 0
          m'.mTextureCoords false = .ok (tc', false) := by
        rw [f2, f4]
        exact htex
      rw [htex2, ok_bind]
      show ProcessMesh.attributes K { m' with mTextureCoords := tc' } false = .ok (0, m')
      rw [heta]
      exact hatt
    unfold ProcessMesh
    split
    · exact rest
    · rename_i arr hn
      rw [f3] at hn
      have hpa : ProcessArray arr m'.mNumVertices [] = .ok (some arr, false) := by
        rw [f2]
        exact ProcessArray_accept _ _ _ (hv arr hn)
      rw [hpa, ok_bind]
      simp only [Bool.false_eq_true, if_false]
      exact rest

/-- On an animation that it kept, `ProcessAnimation` changes nothing and
returns 0. -/
theorem ProcessAnimation_again (a a' : aiAnimation) (res : Int)
    (h : ProcessAnimation a = .ok (res, a')) : ProcessAnimation a' = .ok (0, a') := by
  rw [ProcessAnimation_spec a] at h
  have ha' : a' = { mChannels := a.mChannels.filter fun c => !dummy c } := by
    cases h
    rfl
  subst ha'
  have hany : (a.mChannels.filter fun c => !dummy c).any dummy = false := by
    rw [List.any_eq_false]
    intro c hc
    have := (List.mem_filter.mp hc).2
    simpa using this
  rw [ProcessAnimation_spec]
  simp only [hany, Bool.false_eq_true, if_false, List.filter_filter, Bool.and_self]

theorem filterMap_some_self {α : Type} (f : α → Option α) (xs : List α)
    (h : ∀ x ∈ xs, f x = some x) : xs.filterMap f = xs := by
  induction xs with
  | nil => rfl
  | cons x xs ih =>
    rw [List.filterMap_cons, h x (List.mem_cons_self _ _),
      ih (fun y hy => h y (List.mem_cons_of_mem _ hy))]

/-- C17. For every scene on which `Execute` completes without failure,
`Execute` on the resulting scene completes without failure too and returns
the scene as the first run left it; in the second run `ProcessMesh` returns 0
on every mesh and `ProcessAnimation` returns 0 on every animation, leaving
them as they are, and `out` is false after both loops, which is the branch
"Everything seems to be OK". -/
theorem C17_Execute_idempotent (K : Constants) (s s' : aiScene) (h : Execute K s = .ok s') :
    Execute K s' = .ok s' ∧
    (∀ m ∈ s'.mMeshes, ProcessMesh K m = .ok (0, m)) ∧
    (∀ a ∈ s'.mAnimations, ProcessAnimation a = .ok (0, a)) ∧
    ∃ rm rn,
      Execute.meshes K s'.mNumMeshes 0 s'.mMeshes (List.replicate s'.mNumMeshes 0) 0 false
        = .ok rm ∧
      Execute.animations s'.mNumAnimations 0 s'.mAnimations 0 rm.2.2.2 = .ok rn ∧
      rn.2.2 = false := by
  obtain ⟨_, hms, _⟩ := Execute_meshes K s s' h
  have hM : ∀ m ∈ s'.mMeshes, ProcessMesh K m = .ok (0, m) := by
    intro m' hm'
    rw [hms, List.mem_filterMap] at hm'
    obtain ⟨m, _, hr⟩ := hm'
    unfold retained at hr
    split at hr
    · rename_i res m2 hp
      split at hr
      · cases hr
      · rename_i hres
        cases hr
        exact ProcessMesh_again K m res m' hp hres
    · cases hr
  have hA : ∀ a ∈ s'.mAnimations, ProcessAnimation a = .ok (0, a) := by
    intro a' ha'
    rw [Execute_animations K s s' h, List.mem_filterMap] at ha'
    obtain ⟨a, _, hr⟩ := ha'
    unfold retainedAnimation at hr
    split at hr
    · rename_i res a2 hp
      split at hr
      · cases hr
      · cases hr
        exact ProcessAnimation_again a a' res hp
    · cases hr
  obtain ⟨rm, hrm⟩ := Execute.meshes_total K s'.mNumMeshes 0 s'.mMeshes
    (List.replicate s'.mNumMeshes 0) 0 false (Nat.le_refl 0) (by simp) (by simp)
    (fun m hm => ⟨_, hM m (by simpa using hm)⟩)
  obtain ⟨_, i2, i3, i4, _, i6⟩ := Execute.meshes_sound K s'.mNumMeshes 0 s'.mMeshes
    (List.replicate s'.mNumMeshes 0) 0 false rm (Nat.le_refl 0) (by simp) (by simp) hrm
  simp only [List.drop_zero, Nat.zero_add, List.take_zero, List.nil_append,
    Bool.false_or] at i3 i4 i6
  have hkeep : s'.mMeshes.filterMap (retained K) = s'.mMeshes :=
    filterMap_some_self _ _ (fun m hm => (retained_of_ne_two K m m 0 (hM m hm) (by decide)).1)
  have hflag : s'.mMeshes.any (flagged K) = false := by
    rw [List.any_eq_false]
    intro m hm
    rw [(retained_of_ne_two K m m 0 (hM m hm) (by decide)).2]
    decide
  rw [hkeep] at i3 i4
  rw [hflag] at i6
  have hrm1 : rm.1 = s'.mMeshes := by
    rw [← i4, i3, ← i2, List.take_length]
  obtain ⟨res, hrn, hl, h3⟩ := Execute.animations_spec s'.mNumAnimations 0 s'.mAnimations 0
    rm.2.2.2 (Nat.le_refl 0) (by simp)
  simp only [List.drop_zero, Nat.zero_add, List.take_zero, List.nil_append] at hrn h3
  have hkeepA : s'.mAnimations.filterMap retainedAnimation = s'.mAnimations :=
    filterMap_some_self _ _
      (fun a ha => (retainedAnimation_of_ne_two a a 0 (hA a ha) (by decide)).1)
  have hflagA : s'.mAnimations.any flaggedAnimation = false := by
    rw [List.any_eq_false]
    intro a ha
    rw [(retainedAnimation_of_ne_two a a 0 (hA a ha) (by decide)).2]
    decide
  rw [hkeepA] at hrn h3
  rw [i6, hflagA] at hrn
  have hres : res = s'.mAnimations := by
    rw [← h3, ← hl, List.take_length]
  refine ⟨?_, hM, hA, rm, _, hrm, by rw [i6]; exact hrn, rfl⟩
  unfold Execute
  simp only
  rw [hrm, ok_bind, i6, hrn, ok_bind]
  simp only [Bool.or_self, Bool.false_eq_true, if_false, hrm1, hres]

/-- Witness of C17: a second run on the example with three meshes. -/
theorem C17_Execute_idempotent_witness :
    Execute assimpConstants threeMeshScene = .ok threeMeshSceneAfter ∧
    Execute assimpConstants threeMeshSceneAfter = .ok threeMeshSceneAfter :=
  ⟨threeMeshScene_run,
    (C17_Execute_idempotent assimpConstants threeMeshScene threeMeshSceneAfter
      threeMeshScene_run).1⟩

/-! ## The exemption decision -/

theorem ProcessMesh.attributes_validated (K : Constants) (m : aiMesh) (ret : Bool)
    (dirtyMask : List Bool) (hnt : (m.mNormals.isSome || m.mTangents.isSome) = true)
    (hl : ProcessMesh.lookup K m = .ok (some dirtyMask)) :
    ProcessMesh.attributes K m ret = ProcessMesh.validated dirtyMask m ret := by
  unfold ProcessMesh.attributes ProcessMesh.validated
  rw [if_pos hnt, hl, ok_bind]

theorem ProcessMesh.attributes_skipped (K : Constants) (m : aiMesh) (ret : Bool)
    (hnt : (m.mNormals.isSome || m.mTangents.isSome) = true)
    (hl : ProcessMesh.lookup K m = .ok none) :
    ProcessMesh.attributes K m ret = .ok (if ret then 1 else 0, m) := by
  unfold ProcessMesh.attributes
  rw [if_pos hnt, hl, ok_bind]

/-- C18. On a mesh with the sizes the data model requires `ProcessMesh`
returns.  Whenever it returns a value other than 2 on a mesh that has
normals or tangents, with `t` the result of the texture coordinate loop:
if the primitive types contain neither POINT nor LINE, normals, tangents and
bitangents are validated with the empty lookup table; if they contain POINT
or LINE but neither TRIANGLE nor POLYGON, the return value is the outcome so
far (`ret ? 1 : 0`) and normals, tangents and bitangents are untouched;
otherwise they are validated with a lookup table that has one entry per
vertex, and the entry of a vertex is set exactly when the vertex is an index
of a face with exactly 1 or exactly 2 indices. -/
theorem C18_exemption_decision (K : Constants) (m : aiMesh)
    (hnt : m.mNormals.isSome = true ∨ m.mTangents.isSome = true) :
    (m.WellFormed K → ∃ r, ProcessMesh K m = .ok r) ∧
    ∀ res m', ProcessMesh K m = .ok (res, m') → res ≠ 2 →
      ∃ t, ProcessMesh.texcoords K m.mNumVertices K.AI_MAX_NUMBER_OF_TEXTURECOORDS 0
          m.mTextureCoords false = .ok t ∧
        (m.hasPointOrLine K = false →
          ProcessMesh.validated [] { m with mTextureCoords := t.1 } t.2 = .ok (res, m')) ∧
        (m.hasPointOrLine K = true → m.hasTriangleOrPolygon K = false →
          res = (if t.2 then 1 else 0) ∧ m' = { m with mTextureCoords := t.1 }) ∧
        (m.hasPointOrLine K = true → m.hasTriangleOrPolygon K = true →
          ∃ dirtyMask, dirtyMask.length = m.mNumVertices ∧
            (∀ i, i < m.mNumVertices → dirtyMask[i]? = some (marked m.mFaces i)) ∧
            ProcessMesh.validated dirtyMask { m with mTextureCoords := t.1 } t.2 =
              .ok (res, m')) := by
  refine ⟨ProcessMesh_total K m, fun res m' h hres => ?_⟩
  rcases ProcessMesh_cases K m res m' h with ⟨h2, _⟩ | ⟨_, _, t, ht, hat⟩
  · exact absurd h2 hres
  · refine ⟨t, ht, ?_⟩
    have hnt1 : ((aiMesh.mNormals { m with mTextureCoords := t.1 }).isSome ||
        (aiMesh.mTangents { m with mTextureCoords := t.1 }).isSome) = true := by
      simp only [Bool.or_eq_true]
      exact hnt
    have hlk : ∃ lk, ProcessMesh.lookup K { m with mTextureCoords := t.1 } = .ok lk := by
      unfold ProcessMesh.attributes at hat
      rw [if_pos hnt1] at hat
      cases hl : ProcessMesh.lookup K { m with mTextureCoords := t.1 } with
      | error e => rw [hl] at hat; cases hat
      | ok lk => exact ⟨lk, rfl⟩
    obtain ⟨lk, hl⟩ := hlk
    have hpl : aiMesh.hasPointOrLine K { m with mTextureCoords := t.1 } =
        m.hasPointOrLine K := rfl
    have htp : aiMesh.hasTriangleOrPolygon K { m with mTextureCoords := t.1 } =
        m.hasTriangleOrPolygon K := rfl
    rcases ProcessMesh.lookup_sound K _ lk hl with ⟨h1, hp, hq⟩ | ⟨h1, hp⟩ |
      ⟨dm, h1, hp, hq, hlen, hg⟩
    · subst h1
      rw [hpl] at hp
      rw [htp] at hq
      rw [ProcessMesh.attributes_skipped K _ _ hnt1 hl] at hat
      refine ⟨fun h0 => ?_, fun _ _ => ?_, fun _ h1 => ?_⟩
      · rw [hp] at h0; cases h0
      · cases hat
        exact ⟨rfl, rfl⟩
      · rw [hq] at h1; cases h1
    · subst h1
      rw [hpl] at hp
      rw [ProcessMesh.attributes_validated K _ _ [] hnt1 hl] at hat
      refine ⟨fun _ => hat, fun h0 _ => ?_, fun h0 _ => ?_⟩
      · rw [hp] at h0; cases h0
      · rw [hp] at h0; cases h0
    · subst h1
      rw [hpl] at hp
      rw [htp] at hq
      rw [ProcessMesh.attributes_validated K _ _ dm hnt1 hl] at hat
      refine ⟨fun h0 => ?_, fun _ h1 => ?_, fun _ _ => ⟨dm, hlen, fun i hi => ?_, hat⟩⟩
      · rw [hp] at h0; cases h0
      · rw [hq] at h1; cases h1
      · have hi2 : i < dm.length := by rw [hlen]; exact hi
        have := hg i
        rw [List.getD_eq_getElem?_getD, List.getElem?_eq_getElem hi2] at this
        rw [List.getElem?_eq_getElem hi2]
        exact congrArg some this

/-- Witness of C18: for the example with a line and a triangle the lookup
table marks the two ends of the line, and the normals pass. -/
theorem C18_exemption_decision_witness :
    ProcessMesh assimpConstants lineTriangleMesh = .ok (0, lineTriangleMesh) ∧
    ∃ dirtyMask, dirtyMask.length = 5 ∧
      (∀ i, i < 5 → dirtyMask[i]? = some (marked lineTriangleMesh.mFaces i)) ∧
      ProcessMesh.validated dirtyMask lineTriangleMesh false = .ok (0, lineTriangleMesh) := by
  have hrun : ProcessMesh assimpConstants lineTriangleMesh = .ok (0, lineTriangleMesh) := by
    decide
  obtain ⟨t, ht, _, _, h3⟩ :=
    (C18_exemption_decision assimpConstants lineTriangleMesh (Or.inl rfl)).2 0
      lineTriangleMesh hrun (by decide)
  have htv : ProcessMesh.texcoords assimpConstants lineTriangleMesh.mNumVertices
      assimpConstants.AI_MAX_NUMBER_OF_TEXTURECOORDS 0 lineTriangleMesh.mTextureCoords false =
      .ok ([none, none, none, none], false) := by decide
  rw [htv] at ht
  cases ht
  exact ⟨hrun, h3 (by decide) (by decide)⟩

/-! ## Normals of a mesh of lines and triangles -/

/-- The mesh loop of `Execute` on a well formed scene returns, and the index
map it leaves has one entry per mesh. -/
theorem Execute.meshes_indexed (K : Constants) (s : aiScene) (hwf : s.WellFormed K) :
    ∃ rm, Execute.meshes K s.mNumMeshes 0 s.mMeshes (List.replicate s.mNumMeshes 0) 0 false
        = .ok rm ∧ rm.2.1.length = s.mNumMeshes := by
  obtain ⟨rm, hrm⟩ := Execute.meshes_total K s.mNumMeshes 0 s.mMeshes
    (List.replicate s.mNumMeshes 0) 0 false (Nat.le_refl 0) (by simp) (by simp)
    (fun m hm => ProcessMesh_total K m (hwf.meshes m (by simpa using hm)))
  obtain ⟨_, _, _, _, i5, _⟩ := Execute.meshes_sound K s.mNumMeshes 0 s.mMeshes
    (List.replicate s.mNumMeshes 0) 0 false rm (Nat.le_refl 0) (by simp) (by simp) hrm
  refine ⟨rm, hrm, ?_⟩
  rw [i5]
  simp [mappingFrom_length]

/-- C20. On a scene in which every attribute array of a mesh has as many
elements as the mesh has vertices, every face index is below the vertex
count of its mesh and every mesh reference of a node is below the number of
meshes (the key arrays of the model carry their own counts), `Execute`
either returns a scene or raises "No meshes remaining": no index is out of
range.  In particular `ProcessMesh` returns on every mesh (lookup table and
attribute arrays, the predecessor `arr[i-1]` included), `AllIdentical`
returns on every key array (an empty one included), and
`UpdateMeshReferences` returns with the index map of the mesh loop. -/
theorem C20_Execute_indexes_in_range (K : Constants) (s : aiScene) (hwf : s.WellFormed K) :
    ((∃ s', Execute K s = .ok s') ∨
      Execute K s = .error (.ImportErrorException "No meshes remaining")) ∧
    (∀ m ∈ s.mMeshes, ∃ r, ProcessMesh K m = .ok r) ∧
    (∀ a ∈ s.mAnimations, ∀ c ∈ a.mChannels,
      (∃ b, AllIdentical aiVectorKey.ne c.mPositionKeys c.mNumPositionKeys = .ok b) ∧
      (∃ b, AllIdentical aiQuatKey.ne c.mRotationKeys c.mNumRotationKeys = .ok b) ∧
      (∃ b, AllIdentical aiVectorKey.ne c.mScalingKeys c.mNumScalingKeys = .ok b)) ∧
    ∃ rm, Execute.meshes K s.mNumMeshes 0 s.mMeshes (List.replicate s.mNumMeshes 0) 0 false
        = .ok rm ∧
      ∃ node, UpdateMeshReferences rm.2.1 s.mRootNode = .ok node := by
  obtain ⟨rm, hrm, hlen⟩ := Execute.meshes_indexed K s hwf
  have hrefs : UpdateMeshReferences rm.2.1 s.mRootNode =
      .ok (aiNode.mapMeshes (remap rm.2.1) s.mRootNode) :=
    UpdateMeshReferences.tree_spec rm.2.1 s.mRootNode (by rw [hlen]; exact hwf.references)
  refine ⟨?_, fun m hm => ProcessMesh_total K m (hwf.meshes m hm),
    fun a _ c _ => ⟨AllIdentical_total _ _, AllIdentical_total _ _, AllIdentical_total _ _⟩,
    rm, hrm, _, hrefs⟩
  obtain ⟨rn, hrn⟩ := Execute.animations_total s.mNumAnimations 0 s.mAnimations 0 rm.2.2.2
    (Nat.le_refl 0) (by simp)
  unfold Execute
  simp only [hrm, ok_bind, hrn, hrefs]
  split
  · split
    · split
      · exact Or.inr rfl
      · exact Or.inl ⟨_, rfl⟩
    · exact Or.inl ⟨_, rfl⟩
  · exact Or.inl ⟨_, rfl⟩

/-- Witness of C20: the example with three meshes is well formed, and
`Execute` returns on it. -/
theorem C20_Execute_indexes_in_range_witness :
    aiScene.WellFormed assimpConstants threeMeshScene ∧
    ((∃ s', Execute assimpConstants threeMeshScene = .ok s') ∨
      Execute assimpConstants threeMeshScene =
        .error (.ImportErrorException "No meshes remaining")) := by
  have hwf : aiScene.WellFormed assimpConstants threeMeshScene := by
    refine ⟨fun m hm => ?_, by decide⟩
    simp only [threeMeshScene, List.mem_cons, List.mem_singleton, List.not_mem_nil,
      or_false] at hm
    rcases hm with rfl | rfl | rfl <;>
      exact ⟨by decide, by decide, by decide, by decide, by decide, by decide, by decide⟩
  exact ⟨hwf, (C20_Execute_indexes_in_range assimpConstants threeMeshScene hwf).1⟩

end FindInvalidData
